import Mathlib

/-!
# Quadtree atlas of `src/font.c`

A shallow embedding of the rectangle packer of `font.c`
(`quadtree_atlas_init`, `align_value_up`, `quadtree_atlas_insert_helper`,
`quadtree_atlas_insert`) and theorems about it.

Conventions of the embedding.

* `int` values (`WDL_Ivec2` components) are `Int`s kept in the signed 32-bit
  range; every `+` and `-` of the source on them is followed by `wrap_i32`
  (two's complement wrap-around).  `u32` values are `Nat`s reduced modulo
  `2^32`.
* A node of the source carries `pos`, `size`, `occupied`, `split` and a
  `children` pointer.  The two coherent shapes are modelled: `leaf`
  (`split == false`, no children array) and `node` (`split == true`, an array
  of exactly four children).
* The recursion of `quadtree_atlas_insert_helper` is not bounded in the source.
  The embedding takes a `fuel` argument that bounds the number of nested
  calls; the outer `Option` is `none` exactly when the fuel ran out.
* The source returns a pointer into the tree.  The embedding returns the
  updated tree together with the path (child indices from the root) of the
  returned node; `none` stands for `NULL`.
* The bitmap of the atlas is never read or written by the code modelled
  here and is left out of `QuadtreeAtlas`.
* The tree-valued embedding takes the fourth child of a dynamic split, which
  the source never writes, as the value the arena slot held.  It follows the
  source as long as no stale `children` address is read, in particular over
  zero-filled memory.  A second embedding (`quadtree_atlas_insert_helper_mem`)
  keeps the nodes as records in memory with `children` an address; it is used
  where a stale address is followed.
-/

namespace FontAtlas

/-! ## Machine integers -/

/-- Two's complement reduction of an integer to the signed 32-bit range. -/
def wrap_i32 (z : Int) : Int := (z + 2147483648) % 4294967296 - 2147483648

/-- Conversion of an `int` to `u32` (reduction modulo `2^32`). -/
def to_u32 (z : Int) : Nat := (z % 4294967296).toNat

/-- Conversion of a `u32` to `int`. -/
def to_i32 (n : Nat) : Int := wrap_i32 (n : Int)

/-- C division of `int`s by a positive constant: truncation toward zero. -/
def c_div (a b : Int) : Int := Int.tdiv a b

/-! ## Data model -/

/-- Modelled from the spec: the type `WDL_Ivec2` of `waddle.h` (not under
`src/`), an "integer 2D" vector.  Its components are 32-bit signed `int`s, kept
here as `Int`s in that range. -/
structure WDL_Ivec2 where
  x : Int
  y : Int
deriving DecidableEq

/-- Modelled from the spec: the type `QuadtreeAtlasNode` of `font.h` (not
under `src/`), with the fields `pos`, `size`, `occupied`, `split` and
`children` that `font.c` uses: "when `split` is true, the node exclusively owns
an array of exactly 4 child nodes; children array is absent when `split` is
false".  `leaf` is a node with `split == false`; `node` is a node with
`split == true` and its array of four children. -/
inductive QuadtreeAtlasNode where
  | leaf (pos size : WDL_Ivec2) (occupied : Bool)
  | node (pos size : WDL_Ivec2) (occupied : Bool)
      (c0 c1 c2 c3 : QuadtreeAtlasNode)
deriving DecidableEq

namespace QuadtreeAtlasNode

/-- Field `pos`. -/
def pos : QuadtreeAtlasNode → WDL_Ivec2
  | leaf p _ _ => p
  | node p _ _ _ _ _ _ => p

/-- Field `size`. -/
def size : QuadtreeAtlasNode → WDL_Ivec2
  | leaf _ s _ => s
  | node _ s _ _ _ _ _ => s

/-- Field `occupied`. -/
def occupied : QuadtreeAtlasNode → Bool
  | leaf _ _ o => o
  | node _ _ o _ _ _ _ => o

/-- Field `split`. -/
def split : QuadtreeAtlasNode → Bool
  | leaf _ _ _ => false
  | node _ _ _ _ _ _ _ => true

/-- The expression `&node->children[i]` for `i < 4` on a split node. -/
def child : QuadtreeAtlasNode → Nat → Option QuadtreeAtlasNode
  | node _ _ _ c0 _ _ _, 0 => some c0
  | node _ _ _ _ c1 _ _, 1 => some c1
  | node _ _ _ _ _ c2 _, 2 => some c2
  | node _ _ _ _ _ _ c3, 3 => some c3
  | _, _ => none

/-- The node reached from `t` by following the child indices of a path. -/
def nodeAt : QuadtreeAtlasNode → List Nat → Option QuadtreeAtlasNode
  | t, [] => some t
  | t, i :: p =>
    match t.child i with
    | some c => nodeAt c p
    | none => none

/-- Height of the tree below a node. -/
def depth : QuadtreeAtlasNode → Nat
  | leaf _ _ _ => 0
  | node _ _ _ c0 c1 c2 c3 =>
    max (max c0.depth c1.depth) (max c2.depth c3.depth) + 1

end QuadtreeAtlasNode

open QuadtreeAtlasNode

/-- The all-zero bit pattern read as a node: a free leaf at `(0,0)` of size
`(0,0)`. -/
def zero_node : QuadtreeAtlasNode := leaf ⟨0, 0⟩ ⟨0, 0⟩ false

/-- Modelled from the spec: the arena `WDL_Arena` of `waddle.h` (not under
`src/`), "a provided bump allocator".  Its memory is seen as a sequence of
node-sized slots; `prior k` is what slot `k` holds before it is handed out and
`used` is the number of slots handed out so far. -/
structure WDL_Arena where
  prior : Nat → QuadtreeAtlasNode
  used : Nat

/-- Modelled from the spec: `wdl_arena_push_no_zero(arena, 4 * sizeof(QuadtreeAtlasNode))`
of `waddle.h` (not under `src/`): "allocate N bytes from arena" without
clearing them.  Returns the four slots as they are and bumps the arena. -/
def wdl_arena_push_no_zero (a : WDL_Arena) :
    (QuadtreeAtlasNode × QuadtreeAtlasNode × QuadtreeAtlasNode × QuadtreeAtlasNode) × WDL_Arena :=
  ((a.prior a.used, a.prior (a.used + 1), a.prior (a.used + 2), a.prior (a.used + 3)),
   { a with used := a.used + 4 })

/-- Modelled from the spec: `wdl_iv2_divs(v, s)` of `waddle.h` (not under
`src/`): "`half = node.size / 2` (integer division, floor)", componentwise. -/
def wdl_iv2_divs (v : WDL_Ivec2) (s : Int) : WDL_Ivec2 := ⟨v.x / s, v.y / s⟩

/-- Modelled from the spec: `wdl_iv2_add(a, b)` of `waddle.h` (not under
`src/`): componentwise sum of two `int` vectors, "bottom-right at
`(position.x + half.x, position.y + half.y)`". -/
def wdl_iv2_add (a b : WDL_Ivec2) : WDL_Ivec2 := ⟨wrap_i32 (a.x + b.x), wrap_i32 (a.y + b.y)⟩

/-- Modelled from the spec: the type `QuadtreeAtlas` of `font.h` (not under
`src/`), with the fields `arena` and `root` that the insertion uses.  The field
`bitmap` is left out: the code modelled here never reads or writes it. -/
structure QuadtreeAtlas where
  arena : WDL_Arena
  root : QuadtreeAtlasNode

/-! ## Operations -/

/-- The function `quadtree_atlas_init`: the root is a leaf at `(0,0)` of size
`(1024,1024)`, neither occupied nor split (the other fields of the compound
literal are zero).  The bitmap, pushed from the same arena, is not modelled. -/
def quadtree_atlas_init (arena : WDL_Arena) : QuadtreeAtlas :=
  { arena := arena, root := leaf ⟨0, 0⟩ ⟨1024, 1024⟩ false }

/-- The function `align_value_up` on `u32` arguments.  `value + align - 1` is
computed in `u32` (modulo `2^32`) before it is widened to `u64`; the result is
truncated to `u32` on return.  For `align = 0` the source divides by zero; the
theorems below are about `0 < align`. -/
def align_value_up (value align : Nat) : Nat :=
  let aligned := (((value : Int) + (align : Int) - 1) % 4294967296).toNat
  let mod := aligned % align
  (aligned - mod) % 4294967296

/-- Result of one call of the helper: the arena after the call, the node after
the call, and the path of the returned node (`none` for `NULL`). -/
abbrev HelperResult := WDL_Arena × QuadtreeAtlasNode × Option (List Nat)

/-- The loop `for (u8 i = 0; i < 4; i++)` of `quadtree_atlas_insert_helper`
over the four children of a split node; `rec` is the recursive call. -/
def children_loop (rec : WDL_Arena → QuadtreeAtlasNode → Option HelperResult)
    (arena : WDL_Arena) (pos size : WDL_Ivec2) (occ : Bool)
    (c0 c1 c2 c3 : QuadtreeAtlasNode) : Option HelperResult :=
  match rec arena c0 with
  | none => none
  | some (a0, c0', some p) => some (a0, node pos size occ c0' c1 c2 c3, some (0 :: p))
  | some (a0, c0', none) =>
    match rec a0 c1 with
    | none => none
    | some (a1, c1', some p) => some (a1, node pos size occ c0' c1' c2 c3, some (1 :: p))
    | some (a1, c1', none) =>
      match rec a1 c2 with
      | none => none
      | some (a2, c2', some p) => some (a2, node pos size occ c0' c1' c2' c3, some (2 :: p))
      | some (a2, c2', none) =>
        match rec a2 c3 with
        | none => none
        | some (a3, c3', some p) => some (a3, node pos size occ c0' c1' c2' c3', some (3 :: p))
        | some (a3, c3', none) => some (a3, node pos size occ c0' c1' c2' c3', none)

/-- The function `quadtree_atlas_insert_helper`, with a bound `fuel` on the
depth of the recursion.  The test `node == NULL` has no counterpart: the helper
is only ever called on the root and on the four children of a split node.
The fourth child of a dynamic split, which the source does not write, is the
slot as the arena held it, taken as a tree value; a stale `children` address in
that slot is followed by `quadtree_atlas_insert_helper_mem` instead. -/
def quadtree_atlas_insert_helper :
    Nat → WDL_Arena → QuadtreeAtlasNode → WDL_Ivec2 → Option HelperResult
  | 0, _, _, _ => none
  | fuel + 1, arena, n, size =>
    if n.occupied = true ∨ n.size.x < size.x ∨ n.size.y < size.y then
      some (arena, n, none)
    else
      match n with
      | leaf pos nsize occ =>
        if nsize.x = size.x ∧ nsize.y = size.y then
          some (arena, leaf pos nsize true, some [])
        else
          let blk := wdl_arena_push_no_zero arena
          if c_div nsize.x 2 < size.x ∨ c_div nsize.y 2 < size.y then
            some (blk.2,
              node pos nsize occ
                (leaf pos size true)
                (leaf ⟨wrap_i32 (pos.x + size.x), pos.y⟩ ⟨wrap_i32 (nsize.x - size.x), size.y⟩ false)
                (leaf ⟨pos.x, wrap_i32 (pos.y + size.y)⟩ ⟨size.x, wrap_i32 (nsize.y - size.y)⟩ false)
                blk.1.2.2.2,
              some [0])
          else
            let half_size := wdl_iv2_divs nsize 2
            children_loop (fun a c => quadtree_atlas_insert_helper fuel a c size)
              blk.2 pos nsize occ
              (leaf pos half_size false)
              (leaf ⟨wrap_i32 (pos.x + half_size.x), pos.y⟩ half_size false)
              (leaf ⟨pos.x, wrap_i32 (pos.y + half_size.y)⟩ half_size false)
              (leaf (wdl_iv2_add pos half_size) half_size false)
      | node pos nsize occ c0 c1 c2 c3 =>
        children_loop (fun a c => quadtree_atlas_insert_helper fuel a c size)
          arena pos nsize occ c0 c1 c2 c3

/-- The aligned size computed by the first two lines of `quadtree_atlas_insert`:
each `int` is converted to `u32`, aligned up to 4 and converted back. -/
def aligned_size (size : WDL_Ivec2) : WDL_Ivec2 :=
  ⟨to_i32 (align_value_up (to_u32 size.x) 4), to_i32 (align_value_up (to_u32 size.y) 4)⟩

/-- The function `quadtree_atlas_insert`, with the fuel of its helper. -/
def quadtree_atlas_insert (fuel : Nat) (atlas : QuadtreeAtlas) (size : WDL_Ivec2) :
    Option (QuadtreeAtlas × Option (List Nat)) :=
  match quadtree_atlas_insert_helper fuel atlas.arena atlas.root (aligned_size size) with
  | none => none
  | some (a, r, res) => some ({ arena := a, root := r }, res)

/-! ## Vocabulary of the properties -/

/-- An arena whose memory is all zero bytes: every slot reads as `zero_node`. -/
def zero_arena : WDL_Arena := ⟨fun _ => zero_node, 0⟩

/-- An arena whose memory was used before: every slot still holds the node `j`. -/
def stale_arena (j : QuadtreeAtlasNode) : WDL_Arena := ⟨fun _ => j, 0⟩

/-- The memory of the arena is zero-filled. -/
def zero_filled (a : WDL_Arena) : Prop := ∀ k, a.prior k = zero_node

/-- A requested size whose two components lie in `1 .. 2147483644`: positive,
and small enough for the aligned value to stay a positive `int`. -/
def in_range (size : WDL_Ivec2) : Prop :=
  1 ≤ size.x ∧ size.x ≤ 2147483644 ∧ 1 ≤ size.y ∧ size.y ≤ 2147483644

instance (size : WDL_Ivec2) : Decidable (in_range size) := by
  unfold in_range; infer_instance

/-- The atlases reached from `quadtree_atlas_init a0` by calls of
`quadtree_atlas_insert` that return, with requests satisfying `ok`. -/
inductive Reachable (ok : WDL_Ivec2 → Prop) (a0 : WDL_Arena) : QuadtreeAtlas → Prop where
  | init : Reachable ok a0 (quadtree_atlas_init a0)
  | insert {atlas atlas' : QuadtreeAtlas} {fuel : Nat} {size : WDL_Ivec2}
      {r : Option (List Nat)} :
      Reachable ok a0 atlas → ok size →
      quadtree_atlas_insert fuel atlas size = some (atlas', r) →
      Reachable ok a0 atlas'

/-- The rectangles `[p1, p1 + s1)` and `[p2, p2 + s2)` overlap: both have
positive width and height and some point lies in the interior of both. -/
def rects_overlap (p1 s1 p2 s2 : WDL_Ivec2) : Prop :=
  0 < s1.x ∧ 0 < s1.y ∧ 0 < s2.x ∧ 0 < s2.y ∧
  p1.x < p2.x + s2.x ∧ p2.x < p1.x + s1.x ∧
  p1.y < p2.y + s2.y ∧ p2.y < p1.y + s1.y

instance (p1 s1 p2 s2 : WDL_Ivec2) : Decidable (rects_overlap p1 s1 p2 s2) := by
  unfold rects_overlap; infer_instance

/-- The rectangle `[pos, pos + size)` lies inside the 1024 x 1024 canvas. -/
def in_canvas (pos size : WDL_Ivec2) : Prop :=
  0 ≤ pos.x ∧ 0 ≤ pos.y ∧ pos.x + size.x ≤ 1024 ∧ pos.y + size.y ≤ 1024

instance (pos size : WDL_Ivec2) : Decidable (in_canvas pos size) := by
  unfold in_canvas; infer_instance

/-- The rectangle `[cpos, cpos + csize)` lies inside `[ppos, ppos + psize)`. -/
def rect_in (cpos csize ppos psize : WDL_Ivec2) : Prop :=
  ppos.x ≤ cpos.x ∧ ppos.y ≤ cpos.y ∧
  cpos.x + csize.x ≤ ppos.x + psize.x ∧ cpos.y + csize.y ≤ ppos.y + psize.y

instance (cpos csize ppos psize : WDL_Ivec2) : Decidable (rect_in cpos csize ppos psize) := by
  unfold rect_in; infer_instance

/-- The rectangle of the node `c` lies inside the rectangle of the node `p`. -/
def contained_in (c p : QuadtreeAtlasNode) : Prop := rect_in c.pos c.size p.pos p.size

instance (c p : QuadtreeAtlasNode) : Decidable (contained_in c p) := by
  unfold contained_in; infer_instance

/-- The tree contains a free leaf (not split, not occupied) whose width and
height are both at least those of `s`. -/
def has_free_fit : QuadtreeAtlasNode → WDL_Ivec2 → Bool
  | leaf _ sz o, s => !o && decide (s.x ≤ sz.x) && decide (s.y ≤ sz.y)
  | node _ _ _ c0 c1 c2 c3, s =>
    has_free_fit c0 s || has_free_fit c1 s || has_free_fit c2 s || has_free_fit c3 s

/-- A subtree that the depth-first search (children in the order 0, 1, 2, 3)
visits before the node at path `p` contains a free leaf at least as large as `s`. -/
def earlier_fit : QuadtreeAtlasNode → List Nat → WDL_Ivec2 → Bool
  | node _ _ _ c0 _ _ _, 0 :: p, s => earlier_fit c0 p s
  | node _ _ _ c0 c1 _ _, 1 :: p, s => has_free_fit c0 s || earlier_fit c1 p s
  | node _ _ _ c0 c1 c2 _, 2 :: p, s =>
    has_free_fit c0 s || has_free_fit c1 s || earlier_fit c2 p s
  | node _ _ _ c0 c1 c2 c3, 3 :: p, s =>
    has_free_fit c0 s || has_free_fit c1 s || has_free_fit c2 s || earlier_fit c3 p s
  | _, _, _ => false

/-- The tree `t` with the leaf at path `p` marked occupied and nothing else
changed. -/
def mark_occupied : QuadtreeAtlasNode → List Nat → QuadtreeAtlasNode
  | leaf pos sz _, [] => leaf pos sz true
  | node pos sz o c0 c1 c2 c3, 0 :: p => node pos sz o (mark_occupied c0 p) c1 c2 c3
  | node pos sz o c0 c1 c2 c3, 1 :: p => node pos sz o c0 (mark_occupied c1 p) c2 c3
  | node pos sz o c0 c1 c2 c3, 2 :: p => node pos sz o c0 c1 (mark_occupied c2 p) c3
  | node pos sz o c0 c1 c2 c3, 3 :: p => node pos sz o c0 c1 c2 (mark_occupied c3 p)
  | t, _ => t

/-- What a call leaves in place: `Stable t t'` says that every node of `t` is
found in `t'` at the same place with the same `pos` and `size`, that a split
node is still split, and that an occupied node is untouched. -/
def Stable : QuadtreeAtlasNode → QuadtreeAtlasNode → Prop
  | leaf p s o, t' => t'.pos = p ∧ t'.size = s ∧ (o = true → t' = leaf p s true)
  | node p s o c0 c1 c2 c3, t' =>
    (∃ c0' c1' c2' c3', t' = node p s o c0' c1' c2' c3' ∧
      Stable c0 c0' ∧ Stable c1 c1' ∧ Stable c2 c2' ∧ Stable c3 c3') ∧
    (o = true → t' = node p s o c0 c1 c2 c3)

/-- Sizes are non-negative `int`s, a split node is not occupied, and no child
is wider or taller than its parent. -/
def sizes_ok : QuadtreeAtlasNode → Prop
  | leaf _ s _ => 0 ≤ s.x ∧ s.x ≤ 2147483647 ∧ 0 ≤ s.y ∧ s.y ≤ 2147483647
  | node _ s o c0 c1 c2 c3 =>
    o = false ∧ 0 ≤ s.x ∧ s.x ≤ 2147483647 ∧ 0 ≤ s.y ∧ s.y ≤ 2147483647 ∧
    (c0.size.x ≤ s.x ∧ c0.size.y ≤ s.y ∧ sizes_ok c0) ∧
    (c1.size.x ≤ s.x ∧ c1.size.y ≤ s.y ∧ sizes_ok c1) ∧
    (c2.size.x ≤ s.x ∧ c2.size.y ≤ s.y ∧ sizes_ok c2) ∧
    (c3.size.x ≤ s.x ∧ c3.size.y ≤ s.y ∧ sizes_ok c3)

/-- Geometry of a tree built over zero-filled memory: every rectangle has
non-negative sizes and lies in the canvas; a split node is not occupied, its
first three children lie inside it, the fourth does too unless it is the
zero rectangle at `(0,0)`, and no two of its children overlap. -/
def geom_ok : QuadtreeAtlasNode → Prop
  | leaf pos s _ => in_canvas pos s ∧ 0 ≤ s.x ∧ 0 ≤ s.y
  | node pos s o c0 c1 c2 c3 =>
    o = false ∧ in_canvas pos s ∧ 0 ≤ s.x ∧ 0 ≤ s.y ∧
    rect_in c0.pos c0.size pos s ∧ rect_in c1.pos c1.size pos s ∧
    rect_in c2.pos c2.size pos s ∧
    (rect_in c3.pos c3.size pos s ∨ (c3.pos = ⟨0, 0⟩ ∧ c3.size = ⟨0, 0⟩)) ∧
    ¬ rects_overlap c0.pos c0.size c1.pos c1.size ∧
    ¬ rects_overlap c0.pos c0.size c2.pos c2.size ∧
    ¬ rects_overlap c0.pos c0.size c3.pos c3.size ∧
    ¬ rects_overlap c1.pos c1.size c2.pos c2.size ∧
    ¬ rects_overlap c1.pos c1.size c3.pos c3.size ∧
    ¬ rects_overlap c2.pos c2.size c3.pos c3.size ∧
    geom_ok c0 ∧ geom_ok c1 ∧ geom_ok c2 ∧ geom_ok c3

/-- The three states of a node: below `t` no split node is occupied, so that
every node is a free leaf, an occupied leaf or an unoccupied split node. -/
def three_state : QuadtreeAtlasNode → Prop
  | leaf _ _ _ => True
  | node _ _ o c0 c1 c2 c3 =>
    o = false ∧ three_state c0 ∧ three_state c1 ∧ three_state c2 ∧ three_state c3

/-- The size of the region that no child represents after a dynamic split of a
node of size `n` for the request `s`: `n - s` in both axes. -/
def dead_space (n s : WDL_Ivec2) : WDL_Ivec2 := ⟨n.x - s.x, n.y - s.y⟩

/-- The area of a rectangle of the given size. -/
def area (s : WDL_Ivec2) : Int := s.x * s.y

/-- A request whose aligned width and height are both at least `m`. -/
def at_least (m : Int) (size : WDL_Ivec2) : Prop :=
  m ≤ (aligned_size size).x ∧ m ≤ (aligned_size size).y

instance (m : Int) (size : WDL_Ivec2) : Decidable (at_least m size) := by
  unfold at_least; infer_instance

/-- The depth invariant for requests of aligned width and height at least `m`:
`depth_ok m d t` holds of a subtree `t` whose root lies at depth `d`.  A split
node of size `(x, y)` at depth `d` has `m <= x`, `m <= y` and
`x + y + m * d <= 2048`; so has a free leaf that such a request can still split;
every node below the root lies at a depth `d` with `m * (d + 1) <= 2048`. -/
def depth_ok (m : Int) : Nat → QuadtreeAtlasNode → Prop
  | d, leaf _ s o =>
    0 ≤ s.x ∧ 0 ≤ s.y ∧ (d = 0 ∨ m * ((d : Int) + 1) ≤ 2048) ∧
    (o = false → m ≤ s.x → m ≤ s.y → s.x + s.y + m * (d : Int) ≤ 2048)
  | d, node _ s o c0 c1 c2 c3 =>
    o = false ∧ m ≤ s.x ∧ m ≤ s.y ∧ s.x + s.y + m * (d : Int) ≤ 2048 ∧
    depth_ok m (d + 1) c0 ∧ depth_ok m (d + 1) c1 ∧
    depth_ok m (d + 1) c2 ∧ depth_ok m (d + 1) c3

/-- Every leaf of the tree has a width in the range of `int` (a property of
every node stored in memory; the `Int`s of the embedding are not bounded). -/
def int_sized : QuadtreeAtlasNode → Prop
  | leaf _ s _ => s.x ≤ 2147483647
  | node _ _ _ c0 c1 c2 c3 => int_sized c0 ∧ int_sized c1 ∧ int_sized c2 ∧ int_sized c3

/-- What the caller reads from the result of a call: the `pos` and `size` of
the returned node, or nothing for `NULL`. -/
def placement_of (atlas : QuadtreeAtlas) (r : Option (List Nat)) :
    Option (WDL_Ivec2 × WDL_Ivec2) :=
  match r with
  | none => none
  | some p =>
    match atlas.root.nodeAt p with
    | some n => some (n.pos, n.size)
    | none => none

/-- A sequence of calls of `quadtree_atlas_insert` on an atlas, each with the
given fuel: the sequence of their results (`none` when a call runs out of
fuel). -/
def run_inserts (fuel : Nat) :
    QuadtreeAtlas → List WDL_Ivec2 → Option (List (Option (WDL_Ivec2 × WDL_Ivec2)))
  | _, [] => some []
  | atlas, s :: rest =>
    match quadtree_atlas_insert fuel atlas s with
    | none => none
    | some (atlas', r) =>
      match run_inserts fuel atlas' rest with
      | none => none
      | some out => some (placement_of atlas' r :: out)

/-- The pixel `(x, y)` lies in the rectangle `[pos, pos + size)`. -/
def covers (pos size : WDL_Ivec2) (x y : Int) : Prop :=
  pos.x ≤ x ∧ x < pos.x + size.x ∧ pos.y ≤ y ∧ y < pos.y + size.y

instance (pos size : WDL_Ivec2) (x y : Int) : Decidable (covers pos size x y) := by
  unfold covers; infer_instance

/-! ## The nodes as they lie in memory

The tree-valued embedding above hands the fourth child of a dynamic split on as
a value.  In the source that child is a record in memory whose `children` field
is an address, and an address left behind by an earlier use of the arena can
designate cells that the arena hands out later.  The embedding of this section
keeps the records in memory and follows the addresses, statement by statement.
Both embeddings describe the same calls whenever no stale `children` address is
followed, in particular over zero-filled memory. -/

/-- An address of a node: `NULL`, the root embedded in the atlas
(`&atlas->root`), the `k`-th node-sized cell of the arena memory counted from
the first cell the arena hands out, or any other address (`wild`). -/
inductive NodePtr where
  | null
  | root
  | cell (k : Nat)
  | wild
deriving DecidableEq

/-- The expression `&p[i]` on an address of a node. -/
def NodePtr.index : NodePtr → Nat → NodePtr
  | NodePtr.cell k, i => NodePtr.cell (k + i)
  | NodePtr.null, 0 => NodePtr.null
  | NodePtr.root, 0 => NodePtr.root
  | _, _ => NodePtr.wild

/-- Modelled from the spec: the record `QuadtreeAtlasNode` of `font.h` (not
under `src/`) as it lies in memory, with the fields `pos`, `size`, `occupied`,
`split` and `children` that `font.c` uses; `children` is an address. -/
structure NodeCell where
  pos : WDL_Ivec2
  size : WDL_Ivec2
  occupied : Bool
  split : Bool
  children : NodePtr
deriving DecidableEq

/-- The all-zero bit pattern read as a record. -/
def zero_cell : NodeCell :=
  { pos := ⟨0, 0⟩, size := ⟨0, 0⟩, occupied := false, split := false, children := NodePtr.null }

/-- The memory the insertion works on: the root embedded in the atlas, the
node-sized cells of the arena memory, and the number of cells the arena has
handed out. -/
structure Memory where
  root : NodeCell
  cell : Nat → NodeCell
  used : Nat

/-- Why a call gives no result: the recursion is deeper than the fuel, or the
call reads or writes through an address that is no node. -/
inductive Stop where
  | out_of_fuel
  | fault
deriving DecidableEq

/-- A read `*p` of a node. -/
def Memory.load (m : Memory) : NodePtr → Except Stop NodeCell
  | NodePtr.root => Except.ok m.root
  | NodePtr.cell k => Except.ok (m.cell k)
  | _ => Except.error Stop.fault

/-- A write `*p = v` of a node. -/
def Memory.store (m : Memory) : NodePtr → NodeCell → Except Stop Memory
  | NodePtr.root, v => Except.ok { m with root := v }
  | NodePtr.cell k, v => Except.ok { m with cell := fun j => if j = k then v else m.cell j }
  | _, _ => Except.error Stop.fault

/-- Modelled from the spec: `wdl_arena_push_no_zero(arena, 4 * sizeof(QuadtreeAtlasNode))`
of `waddle.h` (not under `src/`) on the memory: the address of the next four
cells, which keep what they hold, and the arena bumped by four cells. -/
def wdl_arena_push_no_zero_mem (m : Memory) : NodePtr × Memory :=
  (NodePtr.cell m.used, { m with used := m.used + 4 })

/-- The loop `for (u8 i = 0; i < 4; i++)` of `quadtree_atlas_insert_helper` on
the memory, from index `i` for `k` more rounds; `node->children` is read anew in
every round and `rec` is the recursive call. -/
def children_loop_mem (rec : Memory → NodePtr → Except Stop (Memory × NodePtr))
    (ptr : NodePtr) : Nat → Nat → Memory → Except Stop (Memory × NodePtr)
  | 0, _, m => Except.ok (m, NodePtr.null)
  | k + 1, i, m =>
    match m.load ptr with
    | Except.error e => Except.error e
    | Except.ok n =>
      match rec m (n.children.index i) with
      | Except.error e => Except.error e
      | Except.ok (m1, NodePtr.null) => children_loop_mem rec ptr k (i + 1) m1
      | Except.ok (m1, result) => Except.ok (m1, result)

/-- The function `quadtree_atlas_insert_helper` on the memory, statement by
statement, with a bound `fuel` on the depth of the recursion.  Every use of
`node->...` reads the record of `ptr` as the memory holds it at that point. -/
def quadtree_atlas_insert_helper_mem :
    Nat → Memory → NodePtr → WDL_Ivec2 → Except Stop (Memory × NodePtr)
  | 0, _, _, _ => Except.error Stop.out_of_fuel
  | fuel + 1, m, ptr, size =>
    match ptr with
    | NodePtr.null => Except.ok (m, NodePtr.null)
    | _ => do
      let n ← m.load ptr
      if n.occupied = true ∨ n.size.x < size.x ∨ n.size.y < size.y then
        Except.ok (m, NodePtr.null)
      else if n.split = false then
        if n.size.x = size.x ∧ n.size.y = size.y then do
          let m1 ← m.store ptr { n with occupied := true }
          Except.ok (m1, ptr)
        else do
          let blk := wdl_arena_push_no_zero_mem m
          let m1 ← blk.2.store ptr { n with children := blk.1, split := true }
          let n1 ← m1.load ptr
          if c_div n1.size.x 2 < size.x ∨ c_div n1.size.y 2 < size.y then do
            let m2 ← m1.store (n1.children.index 0)
              { size := size, pos := n1.pos, occupied := true, split := false,
                children := NodePtr.null }
            let n2 ← m2.load ptr
            let m3 ← m2.store (n2.children.index 1)
              { size := ⟨wrap_i32 (n2.size.x - size.x), size.y⟩,
                pos := ⟨wrap_i32 (n2.pos.x + size.x), n2.pos.y⟩,
                occupied := false, split := false, children := NodePtr.null }
            let n3 ← m3.load ptr
            let m4 ← m3.store (n3.children.index 2)
              { size := ⟨size.x, wrap_i32 (n3.size.y - size.y)⟩,
                pos := ⟨n3.pos.x, wrap_i32 (n3.pos.y + size.y)⟩,
                occupied := false, split := false, children := NodePtr.null }
            let n4 ← m4.load ptr
            Except.ok (m4, n4.children.index 0)
          else do
            let half_size := wdl_iv2_divs n1.size 2
            let m2 ← m1.store (n1.children.index 0)
              { size := half_size, pos := n1.pos, occupied := false, split := false,
                children := NodePtr.null }
            let n2 ← m2.load ptr
            let m3 ← m2.store (n2.children.index 1)
              { size := half_size, pos := ⟨wrap_i32 (n2.pos.x + half_size.x), n2.pos.y⟩,
                occupied := false, split := false, children := NodePtr.null }
            let n3 ← m3.load ptr
            let m4 ← m3.store (n3.children.index 2)
              { size := half_size, pos := ⟨n3.pos.x, wrap_i32 (n3.pos.y + half_size.y)⟩,
                occupied := false, split := false, children := NodePtr.null }
            let n4 ← m4.load ptr
            let m5 ← m4.store (n4.children.index 3)
              { size := half_size, pos := wdl_iv2_add n4.pos half_size,
                occupied := false, split := false, children := NodePtr.null }
            children_loop_mem (fun m' c => quadtree_atlas_insert_helper_mem fuel m' c size)
              ptr 4 0 m5
      else
        children_loop_mem (fun m' c => quadtree_atlas_insert_helper_mem fuel m' c size)
          ptr 4 0 m

/-- The function `quadtree_atlas_insert` on the memory, with the fuel of its
helper. -/
def quadtree_atlas_insert_mem (fuel : Nat) (m : Memory) (size : WDL_Ivec2) :
    Except Stop (Memory × NodePtr) :=
  quadtree_atlas_insert_helper_mem fuel m NodePtr.root (aligned_size size)

/-- The function `quadtree_atlas_init` on the memory: the root is at `(0,0)`
with size `(1024,1024)` and all other fields zero; `cells` is what the cells of
the arena hold after the bitmap. -/
def quadtree_atlas_init_mem (cells : Nat → NodeCell) : Memory :=
  { root := { pos := ⟨0, 0⟩, size := ⟨1024, 1024⟩, occupied := false, split := false,
              children := NodePtr.null },
    cell := cells, used := 0 }

/-- Arena memory that was used before and not cleared: cell 3 reads as a split
512 x 512 node whose `children` field is the address of cell 4, and cell 4
reads as a free 256 x 256 node.  All other cells are zero. -/
def leftover_cells : Nat → NodeCell
  | 3 => { pos := ⟨512, 512⟩, size := ⟨512, 512⟩, occupied := false, split := true,
           children := NodePtr.cell 4 }
  | 4 => { pos := ⟨512, 512⟩, size := ⟨256, 256⟩, occupied := false, split := false,
           children := NodePtr.null }
  | _ => zero_cell

/-- Arena memory in which the stale cell 3 reads as a split 512 x 512 node whose
`children` field is the address of cell 0, the first cell of its own block.
All other cells are zero. -/
def cyclic_cells : Nat → NodeCell
  | 3 => { pos := ⟨512, 512⟩, size := ⟨512, 512⟩, occupied := false, split := true,
           children := NodePtr.cell 0 }
  | _ => zero_cell

/-! ## Concrete atlases used in the examples -/

/-- The atlas after `quadtree_atlas_insert(atlas, (600, 600))` on a fresh atlas
over zero-filled memory. -/
def atlas_600 : QuadtreeAtlas :=
  { arena := ⟨fun _ => zero_node, 4⟩,
    root := node ⟨0, 0⟩ ⟨1024, 1024⟩ false
      (leaf ⟨0, 0⟩ ⟨600, 600⟩ true)
      (leaf ⟨600, 0⟩ ⟨424, 600⟩ false)
      (leaf ⟨0, 600⟩ ⟨600, 424⟩ false)
      zero_node }

/-- The atlas after a further `quadtree_atlas_insert(atlas, (600, 424))`. -/
def atlas_600_424 : QuadtreeAtlas :=
  { arena := ⟨fun _ => zero_node, 4⟩,
    root := node ⟨0, 0⟩ ⟨1024, 1024⟩ false
      (leaf ⟨0, 0⟩ ⟨600, 600⟩ true)
      (leaf ⟨600, 0⟩ ⟨424, 600⟩ false)
      (leaf ⟨0, 600⟩ ⟨600, 424⟩ true)
      zero_node }

/-! ## The unfolding of the helper and of its loop -/

theorem helper_zero (arena : WDL_Arena) (n : QuadtreeAtlasNode) (size : WDL_Ivec2) :
    quadtree_atlas_insert_helper 0 arena n size = none := rfl

theorem helper_succ (fuel : Nat) (arena : WDL_Arena) (n : QuadtreeAtlasNode) (size : WDL_Ivec2) :
    quadtree_atlas_insert_helper (fuel + 1) arena n size =
    if n.occupied = true ∨ n.size.x < size.x ∨ n.size.y < size.y then
      some (arena, n, none)
    else
      match n with
      | leaf pos nsize occ =>
        if nsize.x = size.x ∧ nsize.y = size.y then
          some (arena, leaf pos nsize true, some [])
        else
          if c_div nsize.x 2 < size.x ∨ c_div nsize.y 2 < size.y then
            some ((wdl_arena_push_no_zero arena).2,
              node pos nsize occ
                (leaf pos size true)
                (leaf ⟨wrap_i32 (pos.x + size.x), pos.y⟩ ⟨wrap_i32 (nsize.x - size.x), size.y⟩ false)
                (leaf ⟨pos.x, wrap_i32 (pos.y + size.y)⟩ ⟨size.x, wrap_i32 (nsize.y - size.y)⟩ false)
                (wdl_arena_push_no_zero arena).1.2.2.2,
              some [0])
          else
            children_loop (fun a c => quadtree_atlas_insert_helper fuel a c size)
              (wdl_arena_push_no_zero arena).2 pos nsize occ
              (leaf pos (wdl_iv2_divs nsize 2) false)
              (leaf ⟨wrap_i32 (pos.x + (wdl_iv2_divs nsize 2).x), pos.y⟩ (wdl_iv2_divs nsize 2) false)
              (leaf ⟨pos.x, wrap_i32 (pos.y + (wdl_iv2_divs nsize 2).y)⟩ (wdl_iv2_divs nsize 2) false)
              (leaf (wdl_iv2_add pos (wdl_iv2_divs nsize 2)) (wdl_iv2_divs nsize 2) false)
      | node pos nsize occ c0 c1 c2 c3 =>
        children_loop (fun a c => quadtree_atlas_insert_helper fuel a c size)
          arena pos nsize occ c0 c1 c2 c3 := by
  rfl

theorem children_loop_cases {rec : WDL_Arena → QuadtreeAtlasNode → Option HelperResult}
    {a : WDL_Arena} {pos size : WDL_Ivec2} {occ : Bool} {c0 c1 c2 c3 : QuadtreeAtlasNode}
    {a' : WDL_Arena} {t' : QuadtreeAtlasNode} {r : Option (List Nat)}
    (h : children_loop rec a pos size occ c0 c1 c2 c3 = some (a', t', r)) :
    (∃ c0' p, rec a c0 = some (a', c0', some p) ∧
        t' = node pos size occ c0' c1 c2 c3 ∧ r = some (0 :: p)) ∨
    (∃ a0 c0' c1' p, rec a c0 = some (a0, c0', none) ∧ rec a0 c1 = some (a', c1', some p) ∧
        t' = node pos size occ c0' c1' c2 c3 ∧ r = some (1 :: p)) ∨
    (∃ a0 a1 c0' c1' c2' p, rec a c0 = some (a0, c0', none) ∧ rec a0 c1 = some (a1, c1', none) ∧
        rec a1 c2 = some (a', c2', some p) ∧
        t' = node pos size occ c0' c1' c2' c3 ∧ r = some (2 :: p)) ∨
    (∃ a0 a1 a2 c0' c1' c2' c3' p, rec a c0 = some (a0, c0', none) ∧
        rec a0 c1 = some (a1, c1', none) ∧ rec a1 c2 = some (a2, c2', none) ∧
        rec a2 c3 = some (a', c3', some p) ∧
        t' = node pos size occ c0' c1' c2' c3' ∧ r = some (3 :: p)) ∨
    (∃ a0 a1 a2 c0' c1' c2' c3', rec a c0 = some (a0, c0', none) ∧
        rec a0 c1 = some (a1, c1', none) ∧ rec a1 c2 = some (a2, c2', none) ∧
        rec a2 c3 = some (a', c3', none) ∧
        t' = node pos size occ c0' c1' c2' c3' ∧ r = none) := by
  unfold children_loop at h
  split at h
  · exact absurd h (by simp)
  · rename_i a0 c0' p h0
    simp only [Option.some.injEq, Prod.mk.injEq] at h
    obtain ⟨rfl, rfl, rfl⟩ := h
    exact Or.inl ⟨c0', p, h0, rfl, rfl⟩
  · rename_i a0 c0' h0
    split at h
    · exact absurd h (by simp)
    · rename_i a1 c1' p h1
      simp only [Option.some.injEq, Prod.mk.injEq] at h
      obtain ⟨rfl, rfl, rfl⟩ := h
      exact Or.inr (Or.inl ⟨a0, c0', c1', p, h0, h1, rfl, rfl⟩)
    · rename_i a1 c1' h1
      split at h
      · exact absurd h (by simp)
      · rename_i a2 c2' p h2
        simp only [Option.some.injEq, Prod.mk.injEq] at h
        obtain ⟨rfl, rfl, rfl⟩ := h
        exact Or.inr (Or.inr (Or.inl ⟨a0, a1, c0', c1', c2', p, h0, h1, h2, rfl, rfl⟩))
      · rename_i a2 c2' h2
        split at h
        · exact absurd h (by simp)
        · rename_i a3 c3' p h3
          simp only [Option.some.injEq, Prod.mk.injEq] at h
          obtain ⟨rfl, rfl, rfl⟩ := h
          exact Or.inr (Or.inr (Or.inr (Or.inl ⟨a0, a1, a2, c0', c1', c2', c3', p, h0, h1, h2, h3, rfl, rfl⟩)))
        · rename_i a3 c3' h3
          simp only [Option.some.injEq, Prod.mk.injEq] at h
          obtain ⟨rfl, rfl, rfl⟩ := h
          exact Or.inr (Or.inr (Or.inr (Or.inr ⟨a0, a1, a2, c0', c1', c2', c3', h0, h1, h2, h3, rfl, rfl⟩)))

/-- When every recursive call that returns `NULL` leaves its node as it was and
each child's call does so, the loop over them changes nothing. -/
theorem children_loop_none {rec : WDL_Arena → QuadtreeAtlasNode → Option HelperResult}
    {a : WDL_Arena} {pos size : WDL_Ivec2} {occ : Bool} {c0 c1 c2 c3 : QuadtreeAtlasNode}
    (h0 : rec a c0 = some (a, c0, none)) (h1 : rec a c1 = some (a, c1, none))
    (h2 : rec a c2 = some (a, c2, none)) (h3 : rec a c3 = some (a, c3, none)) :
    children_loop rec a pos size occ c0 c1 c2 c3 = some (a, node pos size occ c0 c1 c2 c3, none) := by
  simp [children_loop, h0, h1, h2, h3]

/-- The loop gives the same result for a recursive call that returns at least
as often. -/
theorem children_loop_mono {rec rec' : WDL_Arena → QuadtreeAtlasNode → Option HelperResult}
    (hrec : ∀ a c r, rec a c = some r → rec' a c = some r)
    {a : WDL_Arena} {pos size : WDL_Ivec2} {occ : Bool} {c0 c1 c2 c3 : QuadtreeAtlasNode}
    {res : HelperResult}
    (h : children_loop rec a pos size occ c0 c1 c2 c3 = some res) :
    children_loop rec' a pos size occ c0 c1 c2 c3 = some res := by
  obtain ⟨a', t', r⟩ := res
  rcases children_loop_cases h with
    ⟨c0', p, h0, rfl, rfl⟩ | ⟨a0, c0', c1', p, h0, h1, rfl, rfl⟩ |
    ⟨a0, a1, c0', c1', c2', p, h0, h1, h2, rfl, rfl⟩ |
    ⟨a0, a1, a2, c0', c1', c2', c3', p, h0, h1, h2, h3, rfl, rfl⟩ |
    ⟨a0, a1, a2, c0', c1', c2', c3', h0, h1, h2, h3, rfl, rfl⟩
  · simp [children_loop, hrec _ _ _ h0]
  · simp [children_loop, hrec _ _ _ h0, hrec _ _ _ h1]
  · simp [children_loop, hrec _ _ _ h0, hrec _ _ _ h1, hrec _ _ _ h2]
  · simp [children_loop, hrec _ _ _ h0, hrec _ _ _ h1, hrec _ _ _ h2, hrec _ _ _ h3]
  · simp [children_loop, hrec _ _ _ h0, hrec _ _ _ h1, hrec _ _ _ h2, hrec _ _ _ h3]

/-- More fuel does not change a result. -/
theorem helper_fuel_succ : ∀ (fuel : Nat) (a : WDL_Arena) (n : QuadtreeAtlasNode) (s : WDL_Ivec2)
    (res : HelperResult),
    quadtree_atlas_insert_helper fuel a n s = some res →
    quadtree_atlas_insert_helper (fuel + 1) a n s = some res
  | 0, _, _, _, _, h => by simp [quadtree_atlas_insert_helper] at h
  | fuel + 1, a, n, s, res, h => by
    rw [helper_succ] at h
    rw [helper_succ]
    split
    · rename_i hg
      rw [if_pos hg] at h
      exact h
    · rename_i hg
      rw [if_neg hg] at h
      cases n with
      | leaf pos nsize occ =>
        simp only at h ⊢
        split
        · rename_i he
          rw [if_pos he] at h
          exact h
        · rename_i he
          rw [if_neg he] at h
          split
          · rename_i hd
            rw [if_pos hd] at h
            exact h
          · rename_i hd
            rw [if_neg hd] at h
            exact children_loop_mono (fun a c r hh => helper_fuel_succ fuel a c s r hh) h
      | node pos nsize occ c0 c1 c2 c3 =>
        simp only at h ⊢
        exact children_loop_mono (fun a c r hh => helper_fuel_succ fuel a c s r hh) h

theorem helper_fuel_mono {fuel fuel' : Nat} (hle : fuel ≤ fuel') {a : WDL_Arena}
    {n : QuadtreeAtlasNode} {s : WDL_Ivec2} {res : HelperResult}
    (h : quadtree_atlas_insert_helper fuel a n s = some res) :
    quadtree_atlas_insert_helper fuel' a n s = some res := by
  induction hle with
  | refl => exact h
  | step _ ih => exact helper_fuel_succ _ _ _ _ _ ih

/-! ## What a call leaves in place -/

theorem Stable.refl : ∀ t : QuadtreeAtlasNode, Stable t t
  | leaf p s o => ⟨rfl, rfl, fun h => by rw [h]⟩
  | node p s o c0 c1 c2 c3 =>
    ⟨⟨c0, c1, c2, c3, rfl, Stable.refl c0, Stable.refl c1, Stable.refl c2, Stable.refl c3⟩,
      fun _ => rfl⟩

theorem children_loop_stable {rec : WDL_Arena → QuadtreeAtlasNode → Option HelperResult}
    (hrec : ∀ a c a' c' r, rec a c = some (a', c', r) → Stable c c')
    {a : WDL_Arena} {pos size : WDL_Ivec2} {occ : Bool} {c0 c1 c2 c3 : QuadtreeAtlasNode}
    {a' : WDL_Arena} {t' : QuadtreeAtlasNode} {r : Option (List Nat)}
    (h : children_loop rec a pos size occ c0 c1 c2 c3 = some (a', t', r)) :
    ∃ c0' c1' c2' c3', t' = node pos size occ c0' c1' c2' c3' ∧
      Stable c0 c0' ∧ Stable c1 c1' ∧ Stable c2 c2' ∧ Stable c3 c3' := by
  rcases children_loop_cases h with
    ⟨c0', p, h0, rfl, -⟩ | ⟨a0, c0', c1', p, h0, h1, rfl, -⟩ |
    ⟨a0, a1, c0', c1', c2', p, h0, h1, h2, rfl, -⟩ |
    ⟨a0, a1, a2, c0', c1', c2', c3', p, h0, h1, h2, h3, rfl, -⟩ |
    ⟨a0, a1, a2, c0', c1', c2', c3', h0, h1, h2, h3, rfl, -⟩
  · exact ⟨_, _, _, _, rfl, hrec _ _ _ _ _ h0, Stable.refl _, Stable.refl _, Stable.refl _⟩
  · exact ⟨_, _, _, _, rfl, hrec _ _ _ _ _ h0, hrec _ _ _ _ _ h1, Stable.refl _, Stable.refl _⟩
  · exact ⟨_, _, _, _, rfl, hrec _ _ _ _ _ h0, hrec _ _ _ _ _ h1, hrec _ _ _ _ _ h2, Stable.refl _⟩
  · exact ⟨_, _, _, _, rfl, hrec _ _ _ _ _ h0, hrec _ _ _ _ _ h1, hrec _ _ _ _ _ h2, hrec _ _ _ _ _ h3⟩
  · exact ⟨_, _, _, _, rfl, hrec _ _ _ _ _ h0, hrec _ _ _ _ _ h1, hrec _ _ _ _ _ h2, hrec _ _ _ _ _ h3⟩

/-- The helper leaves every node it was given in place. -/
theorem helper_stable : ∀ (fuel : Nat) (a : WDL_Arena) (n : QuadtreeAtlasNode) (s : WDL_Ivec2)
    (a' : WDL_Arena) (n' : QuadtreeAtlasNode) (r : Option (List Nat)),
    quadtree_atlas_insert_helper fuel a n s = some (a', n', r) → Stable n n'
  | 0, _, _, _, _, _, _, h => by simp [quadtree_atlas_insert_helper] at h
  | fuel + 1, a, n, s, a', n', r, h => by
    rw [helper_succ] at h
    split at h
    · simp only [Option.some.injEq, Prod.mk.injEq] at h
      obtain ⟨-, rfl, -⟩ := h
      exact Stable.refl _
    · rename_i hg
      simp only [not_or, not_lt] at hg
      cases n with
      | leaf pos nsize occ =>
        have hocc : occ = false := by simpa [occupied] using hg.1
        subst hocc
        simp only at h
        split at h
        · simp only [Option.some.injEq, Prod.mk.injEq] at h
          obtain ⟨-, rfl, -⟩ := h
          exact ⟨rfl, rfl, fun h => by simp at h⟩
        · split at h
          · simp only [Option.some.injEq, Prod.mk.injEq] at h
            obtain ⟨-, rfl, -⟩ := h
            exact ⟨rfl, rfl, fun h => by simp at h⟩
          · obtain ⟨c0', c1', c2', c3', rfl, -⟩ :=
              children_loop_stable (fun a c a' c' r hh => helper_stable fuel a c s a' c' r hh) h
            exact ⟨rfl, rfl, fun h => by simp at h⟩
      | node pos nsize occ c0 c1 c2 c3 =>
        have hocc : occ = false := by simpa [occupied] using hg.1
        subst hocc
        simp only at h
        exact ⟨children_loop_stable (fun a c a' c' r hh => helper_stable fuel a c s a' c' r hh) h,
          fun h => by simp at h⟩

theorem Stable.pos_eq {t t' : QuadtreeAtlasNode} (h : Stable t t') : t'.pos = t.pos := by
  cases t with
  | leaf p s o => exact h.1
  | node p s o c0 c1 c2 c3 =>
    obtain ⟨⟨c0', c1', c2', c3', rfl, -⟩, -⟩ := h
    rfl

theorem Stable.size_eq {t t' : QuadtreeAtlasNode} (h : Stable t t') : t'.size = t.size := by
  cases t with
  | leaf p s o => exact h.2.1
  | node p s o c0 c1 c2 c3 =>
    obtain ⟨⟨c0', c1', c2', c3', rfl, -⟩, -⟩ := h
    rfl

theorem Stable.occupied_eq {t t' : QuadtreeAtlasNode} (h : Stable t t')
    (ho : t.occupied = true) : t' = t := by
  cases t with
  | leaf p s o =>
    have : o = true := ho
    subst this
    exact h.2.2 rfl
  | node p s o c0 c1 c2 c3 => exact h.2 ho

theorem Stable.child {t t' : QuadtreeAtlasNode} (h : Stable t t') {i : Nat}
    {c : QuadtreeAtlasNode} (hc : t.child i = some c) :
    ∃ c', t'.child i = some c' ∧ Stable c c' := by
  cases t with
  | leaf p s o => simp [QuadtreeAtlasNode.child] at hc
  | node p s o c0 c1 c2 c3 =>
    obtain ⟨⟨c0', c1', c2', c3', rfl, s0, s1, s2, s3⟩, -⟩ := h
    match i, hc with
    | 0, hc => simp only [QuadtreeAtlasNode.child, Option.some.injEq] at hc; subst hc; exact ⟨c0', rfl, s0⟩
    | 1, hc => simp only [QuadtreeAtlasNode.child, Option.some.injEq] at hc; subst hc; exact ⟨c1', rfl, s1⟩
    | 2, hc => simp only [QuadtreeAtlasNode.child, Option.some.injEq] at hc; subst hc; exact ⟨c2', rfl, s2⟩
    | 3, hc => simp only [QuadtreeAtlasNode.child, Option.some.injEq] at hc; subst hc; exact ⟨c3', rfl, s3⟩
    | (k + 4), hc => simp [QuadtreeAtlasNode.child] at hc

theorem Stable.nodeAt : ∀ (p : List Nat) {t t' : QuadtreeAtlasNode} (_ : Stable t t')
    {n : QuadtreeAtlasNode} (_ : t.nodeAt p = some n),
    ∃ n', t'.nodeAt p = some n' ∧ Stable n n'
  | [], t, t', h, n, hn => by
    simp only [QuadtreeAtlasNode.nodeAt, Option.some.injEq] at hn
    subst hn
    exact ⟨t', rfl, h⟩
  | i :: p, t, t', h, n, hn => by
    simp only [QuadtreeAtlasNode.nodeAt] at hn ⊢
    cases hc : t.child i with
    | none => rw [hc] at hn; simp at hn
    | some c =>
      rw [hc] at hn
      obtain ⟨c', hc', hs⟩ := h.child hc
      rw [hc']
      exact Stable.nodeAt p hs hn

/-- The node the helper returns: an occupied leaf of the requested size, which
before the call was either absent or the same leaf, free. -/
theorem helper_returned : ∀ (fuel : Nat) (a : WDL_Arena) (n : QuadtreeAtlasNode) (s : WDL_Ivec2)
    (a' : WDL_Arena) (n' : QuadtreeAtlasNode) (p : List Nat),
    quadtree_atlas_insert_helper fuel a n s = some (a', n', some p) →
    ∃ pos, n'.nodeAt p = some (leaf pos s true) ∧
      ∀ m, n.nodeAt p = some m → m = leaf pos s false
  | 0, _, _, _, _, _, _, h => by simp [quadtree_atlas_insert_helper] at h
  | fuel + 1, a, n, s, a', n', p, h => by
    have ih := helper_returned fuel
    rw [helper_succ] at h
    split at h
    · simp at h
    · rename_i hg
      simp only [not_or, not_lt] at hg
      cases n with
      | leaf pos nsize occ =>
        have hocc : occ = false := by simpa [occupied] using hg.1
        subst hocc
        simp only at h
        split at h
        · rename_i he
          simp only [Option.some.injEq, Prod.mk.injEq] at h
          obtain ⟨-, rfl, rfl⟩ := h
          have hs : nsize = s := by
            cases nsize; cases s; simp only [WDL_Ivec2.mk.injEq]; exact he
          subst hs
          refine ⟨pos, rfl, fun m hm => ?_⟩
          simp only [QuadtreeAtlasNode.nodeAt, Option.some.injEq] at hm
          exact hm.symm
        · split at h
          · simp only [Option.some.injEq, Prod.mk.injEq] at h
            obtain ⟨-, rfl, rfl⟩ := h
            refine ⟨pos, rfl, fun m hm => ?_⟩
            simp [QuadtreeAtlasNode.nodeAt, QuadtreeAtlasNode.child] at hm
          · rcases children_loop_cases h with
              ⟨c0', q, h0, rfl, hr⟩ | ⟨a0, c0', c1', q, h0, h1, rfl, hr⟩ |
              ⟨a0, a1, c0', c1', c2', q, h0, h1, h2, rfl, hr⟩ |
              ⟨a0, a1, a2, c0', c1', c2', c3', q, h0, h1, h2, h3, rfl, hr⟩ |
              ⟨a0, a1, a2, c0', c1', c2', c3', h0, h1, h2, h3, rfl, hr⟩
            · cases hr
              obtain ⟨ps, hps, -⟩ := ih _ _ _ _ _ _ h0
              exact ⟨ps, by simpa [QuadtreeAtlasNode.nodeAt, QuadtreeAtlasNode.child] using hps,
                fun m hm => by simp [QuadtreeAtlasNode.nodeAt, QuadtreeAtlasNode.child] at hm⟩
            · cases hr
              obtain ⟨ps, hps, -⟩ := ih _ _ _ _ _ _ h1
              exact ⟨ps, by simpa [QuadtreeAtlasNode.nodeAt, QuadtreeAtlasNode.child] using hps,
                fun m hm => by simp [QuadtreeAtlasNode.nodeAt, QuadtreeAtlasNode.child] at hm⟩
            · cases hr
              obtain ⟨ps, hps, -⟩ := ih _ _ _ _ _ _ h2
              exact ⟨ps, by simpa [QuadtreeAtlasNode.nodeAt, QuadtreeAtlasNode.child] using hps,
                fun m hm => by simp [QuadtreeAtlasNode.nodeAt, QuadtreeAtlasNode.child] at hm⟩
            · cases hr
              obtain ⟨ps, hps, -⟩ := ih _ _ _ _ _ _ h3
              exact ⟨ps, by simpa [QuadtreeAtlasNode.nodeAt, QuadtreeAtlasNode.child] using hps,
                fun m hm => by simp [QuadtreeAtlasNode.nodeAt, QuadtreeAtlasNode.child] at hm⟩
            · cases hr
      | node pos nsize occ c0 c1 c2 c3 =>
        simp only at h
        rcases children_loop_cases h with
          ⟨c0', q, h0, rfl, hr⟩ | ⟨a0, c0', c1', q, h0, h1, rfl, hr⟩ |
          ⟨a0, a1, c0', c1', c2', q, h0, h1, h2, rfl, hr⟩ |
          ⟨a0, a1, a2, c0', c1', c2', c3', q, h0, h1, h2, h3, rfl, hr⟩ |
          ⟨a0, a1, a2, c0', c1', c2', c3', h0, h1, h2, h3, rfl, hr⟩
        · cases hr
          obtain ⟨ps, hps, hold⟩ := ih _ _ _ _ _ _ h0
          exact ⟨ps, by simpa [QuadtreeAtlasNode.nodeAt, QuadtreeAtlasNode.child] using hps,
            fun m hm => hold m (by simpa [QuadtreeAtlasNode.nodeAt, QuadtreeAtlasNode.child] using hm)⟩
        · cases hr
          obtain ⟨ps, hps, hold⟩ := ih _ _ _ _ _ _ h1
          exact ⟨ps, by simpa [QuadtreeAtlasNode.nodeAt, QuadtreeAtlasNode.child] using hps,
            fun m hm => hold m (by simpa [QuadtreeAtlasNode.nodeAt, QuadtreeAtlasNode.child] using hm)⟩
        · cases hr
          obtain ⟨ps, hps, hold⟩ := ih _ _ _ _ _ _ h2
          exact ⟨ps, by simpa [QuadtreeAtlasNode.nodeAt, QuadtreeAtlasNode.child] using hps,
            fun m hm => hold m (by simpa [QuadtreeAtlasNode.nodeAt, QuadtreeAtlasNode.child] using hm)⟩
        · cases hr
          obtain ⟨ps, hps, hold⟩ := ih _ _ _ _ _ _ h3
          exact ⟨ps, by simpa [QuadtreeAtlasNode.nodeAt, QuadtreeAtlasNode.child] using hps,
            fun m hm => hold m (by simpa [QuadtreeAtlasNode.nodeAt, QuadtreeAtlasNode.child] using hm)⟩
        · cases hr

theorem insert_eq_some {fuel : Nat} {atlas atlas' : QuadtreeAtlas} {size : WDL_Ivec2}
    {r : Option (List Nat)} (h : quadtree_atlas_insert fuel atlas size = some (atlas', r)) :
    quadtree_atlas_insert_helper fuel atlas.arena atlas.root (aligned_size size)
      = some (atlas'.arena, atlas'.root, r) := by
  unfold quadtree_atlas_insert at h
  split at h
  · simp at h
  · rename_i a t res heq
    simp only [Option.some.injEq, Prod.mk.injEq] at h
    obtain ⟨rfl, rfl⟩ := h
    exact heq


/-! ## Invariants along the loop -/

/-- A relation between each child before and after the loop that is reflexive
and established by every recursive call holds of the four children; a property
of the arena kept by every recursive call is kept by the loop. -/
theorem children_loop_rel {rec : WDL_Arena → QuadtreeAtlasNode → Option HelperResult}
    {A : WDL_Arena → Prop} {R : QuadtreeAtlasNode → QuadtreeAtlasNode → Prop}
    (hrefl : ∀ c, R c c)
    (hrec : ∀ a c a' c' r, A a → rec a c = some (a', c', r) → A a' ∧ R c c')
    {a : WDL_Arena} {pos size : WDL_Ivec2} {occ : Bool} {c0 c1 c2 c3 : QuadtreeAtlasNode}
    {a' : WDL_Arena} {t' : QuadtreeAtlasNode} {r : Option (List Nat)}
    (ha : A a)
    (h : children_loop rec a pos size occ c0 c1 c2 c3 = some (a', t', r)) :
    ∃ c0' c1' c2' c3', t' = node pos size occ c0' c1' c2' c3' ∧ A a' ∧
      R c0 c0' ∧ R c1 c1' ∧ R c2 c2' ∧ R c3 c3' := by
  rcases children_loop_cases h with
    ⟨c0', p, h0, rfl, -⟩ | ⟨a0, c0', c1', p, h0, h1, rfl, -⟩ |
    ⟨a0, a1, c0', c1', c2', p, h0, h1, h2, rfl, -⟩ |
    ⟨a0, a1, a2, c0', c1', c2', c3', p, h0, h1, h2, h3, rfl, -⟩ |
    ⟨a0, a1, a2, c0', c1', c2', c3', h0, h1, h2, h3, rfl, -⟩
  · obtain ⟨e0, r0⟩ := hrec _ _ _ _ _ ha h0
    exact ⟨_, _, _, _, rfl, e0, r0, hrefl _, hrefl _, hrefl _⟩
  · obtain ⟨e0, r0⟩ := hrec _ _ _ _ _ ha h0
    obtain ⟨e1, r1⟩ := hrec _ _ _ _ _ e0 h1
    exact ⟨_, _, _, _, rfl, e1, r0, r1, hrefl _, hrefl _⟩
  · obtain ⟨e0, r0⟩ := hrec _ _ _ _ _ ha h0
    obtain ⟨e1, r1⟩ := hrec _ _ _ _ _ e0 h1
    obtain ⟨e2, r2⟩ := hrec _ _ _ _ _ e1 h2
    exact ⟨_, _, _, _, rfl, e2, r0, r1, r2, hrefl _⟩
  · obtain ⟨e0, r0⟩ := hrec _ _ _ _ _ ha h0
    obtain ⟨e1, r1⟩ := hrec _ _ _ _ _ e0 h1
    obtain ⟨e2, r2⟩ := hrec _ _ _ _ _ e1 h2
    obtain ⟨e3, r3⟩ := hrec _ _ _ _ _ e2 h3
    exact ⟨_, _, _, _, rfl, e3, r0, r1, r2, r3⟩
  · obtain ⟨e0, r0⟩ := hrec _ _ _ _ _ ha h0
    obtain ⟨e1, r1⟩ := hrec _ _ _ _ _ e0 h1
    obtain ⟨e2, r2⟩ := hrec _ _ _ _ _ e1 h2
    obtain ⟨e3, r3⟩ := hrec _ _ _ _ _ e2 h3
    exact ⟨_, _, _, _, rfl, e3, r0, r1, r2, r3⟩

theorem zero_filled_push {a : WDL_Arena} (h : zero_filled a) :
    zero_filled (wdl_arena_push_no_zero a).2 ∧ (wdl_arena_push_no_zero a).1.2.2.2 = zero_node :=
  ⟨fun k => h k, h _⟩

theorem wrap_i32_eq {z : Int} (h0 : -2147483648 ≤ z) (h1 : z ≤ 2147483647) : wrap_i32 z = z := by
  unfold wrap_i32
  omega

/-- The aligned size of a request in range: each component is rounded up to
the next multiple of four and stays a positive `int`. -/
theorem aligned_size_in_range {size : WDL_Ivec2} (h : in_range size) :
    (aligned_size size).x = size.x + 3 - (size.x + 3) % 4 ∧
    (aligned_size size).y = size.y + 3 - (size.y + 3) % 4 := by
  obtain ⟨h1, h2, h3, h4⟩ := h
  unfold aligned_size to_i32 wrap_i32 align_value_up to_u32
  dsimp only
  constructor <;> omega

/-- The size invariant is kept by the helper on zero-filled memory, for a
request with non-negative components. -/
theorem helper_sizes_ok : ∀ (fuel : Nat) (a : WDL_Arena) (n : QuadtreeAtlasNode) (s : WDL_Ivec2)
    (a' : WDL_Arena) (n' : QuadtreeAtlasNode) (r : Option (List Nat)),
    0 ≤ s.x → 0 ≤ s.y → zero_filled a →
    quadtree_atlas_insert_helper fuel a n s = some (a', n', r) →
    zero_filled a' ∧ (sizes_ok n → sizes_ok n')
  | 0, _, _, _, _, _, _, _, _, _, h => by simp [quadtree_atlas_insert_helper] at h
  | fuel + 1, a, n, s, a', n', r, hx, hy, hz, h => by
    have ih := fun a c a' c' r (hz : zero_filled a)
        (hh : quadtree_atlas_insert_helper fuel a c s = some (a', c', r)) =>
      (⟨(helper_sizes_ok fuel a c s a' c' r hx hy hz hh).1,
        (helper_sizes_ok fuel a c s a' c' r hx hy hz hh).2,
        (helper_stable fuel a c s a' c' r hh).size_eq⟩ :
        zero_filled a' ∧ (sizes_ok c → sizes_ok c') ∧ c'.size = c.size)
    rw [helper_succ] at h
    split at h
    · simp only [Option.some.injEq, Prod.mk.injEq] at h
      obtain ⟨rfl, rfl, -⟩ := h
      exact ⟨hz, id⟩
    · rename_i hg
      simp only [not_or, not_lt] at hg
      cases n with
      | leaf pos nsize occ =>
        simp only [QuadtreeAtlasNode.size] at hg
        simp only at h
        split at h
        · simp only [Option.some.injEq, Prod.mk.injEq] at h
          obtain ⟨rfl, rfl, -⟩ := h
          exact ⟨hz, id⟩
        · split at h
          · simp only [Option.some.injEq, Prod.mk.injEq] at h
            obtain ⟨rfl, rfl, -⟩ := h
            refine ⟨(zero_filled_push hz).1, fun hok => ?_⟩
            rw [(zero_filled_push hz).2]
            simp only [sizes_ok] at hok
            have w1 : wrap_i32 (nsize.x - s.x) = nsize.x - s.x := wrap_i32_eq (by omega) (by omega)
            have w2 : wrap_i32 (nsize.y - s.y) = nsize.y - s.y := wrap_i32_eq (by omega) (by omega)
            have ho : occ = false := by simpa [QuadtreeAtlasNode.occupied] using hg.1
            obtain ⟨-, gx, gy⟩ := hg
            simp only [sizes_ok, QuadtreeAtlasNode.size, zero_node, w1, w2, ho, true_and]
            omega
          · rename_i hd
            simp only [not_or, not_lt, c_div] at hd
            obtain ⟨c0', c1', c2', c3', rfl, hz', r0, r1, r2, r3⟩ :=
              children_loop_rel
                (R := fun c c' => (sizes_ok c → sizes_ok c') ∧ c'.size = c.size)
                (fun c => ⟨id, rfl⟩) ih (zero_filled_push hz).1 h
            refine ⟨hz', fun hok => ?_⟩
            simp only [sizes_ok] at hok
            have ho : occ = false := by simpa [QuadtreeAtlasNode.occupied] using hg.1
            have hhx : 0 ≤ nsize.x / 2 ∧ nsize.x / 2 ≤ nsize.x := by omega
            have hhy : 0 ≤ nsize.y / 2 ∧ nsize.y / 2 ≤ nsize.y := by omega
            have hleaf : ∀ p, sizes_ok (leaf p (wdl_iv2_divs nsize 2) false) := by
              intro p
              simp only [sizes_ok, wdl_iv2_divs]
              omega
            have e0 : c0'.size = wdl_iv2_divs nsize 2 := r0.2
            have e1 : c1'.size = wdl_iv2_divs nsize 2 := r1.2
            have e2 : c2'.size = wdl_iv2_divs nsize 2 := r2.2
            have e3 : c3'.size = wdl_iv2_divs nsize 2 := r3.2
            simp only [sizes_ok, e0, e1, e2, e3]
            exact ⟨ho, hok.1, hok.2.1, hok.2.2.1, hok.2.2.2,
              ⟨hhx.2, hhy.2, r0.1 (hleaf _)⟩, ⟨hhx.2, hhy.2, r1.1 (hleaf _)⟩,
              ⟨hhx.2, hhy.2, r2.1 (hleaf _)⟩, ⟨hhx.2, hhy.2, r3.1 (hleaf _)⟩⟩
      | node pos nsize occ c0 c1 c2 c3 =>
        simp only at h
        obtain ⟨c0', c1', c2', c3', rfl, hz', r0, r1, r2, r3⟩ :=
          children_loop_rel
            (R := fun c c' => (sizes_ok c → sizes_ok c') ∧ c'.size = c.size)
            (fun c => ⟨id, rfl⟩) ih hz h
        refine ⟨hz', fun hok => ?_⟩
        simp only [sizes_ok] at hok ⊢
        obtain ⟨ho, b1, b2, b3, b4, ⟨x0, y0, k0⟩, ⟨x1, y1, k1⟩, ⟨x2, y2, k2⟩, ⟨x3, y3, k3⟩⟩ := hok
        rw [r0.2, r1.2, r2.2, r3.2]
        exact ⟨ho, b1, b2, b3, b4, ⟨x0, y0, r0.1 k0⟩, ⟨x1, y1, r1.1 k1⟩, ⟨x2, y2, r2.1 k2⟩,
          ⟨x3, y3, r3.1 k3⟩⟩


/-! ## Reachable atlases over zero-filled memory -/

theorem reachable_sizes_ok {a0 : WDL_Arena} (hz : zero_filled a0) {atlas : QuadtreeAtlas}
    (hr : Reachable in_range a0 atlas) : zero_filled atlas.arena ∧ sizes_ok atlas.root := by
  induction hr with
  | init => exact ⟨hz, by simp [quadtree_atlas_init, sizes_ok]⟩
  | insert _ hok hins ih =>
    have hs := aligned_size_in_range hok
    obtain ⟨h1, h2, h3, h4⟩ := hok
    have hh := helper_sizes_ok _ _ _ _ _ _ _ (by omega) (by omega) ih.1 (insert_eq_some hins)
    exact ⟨hh.1, hh.2 ih.2⟩

/-! ## The depth-first search -/

/-- A subtree without a free leaf that is large enough is searched in vain
and left as it was. -/
theorem helper_no_fit : ∀ (fuel : Nat) (a : WDL_Arena) (t : QuadtreeAtlasNode) (s : WDL_Ivec2),
    t.depth < fuel → has_free_fit t s = false →
    quadtree_atlas_insert_helper fuel a t s = some (a, t, none)
  | 0, _, _, _, hd, _ => by omega
  | fuel + 1, a, t, s, hd, hf => by
    rw [helper_succ]
    split
    · rfl
    · rename_i hg
      simp only [not_or, not_lt] at hg
      cases t with
      | leaf pos sz o =>
        simp only [has_free_fit, QuadtreeAtlasNode.occupied, QuadtreeAtlasNode.size] at hf hg
        obtain ⟨g1, g2, g3⟩ := hg
        simp [g1, g2, g3] at hf
      | node pos sz o c0 c1 c2 c3 =>
        simp only [has_free_fit, Bool.or_eq_false_iff] at hf
        simp only [QuadtreeAtlasNode.depth] at hd
        obtain ⟨⟨⟨f0, f1⟩, f2⟩, f3⟩ := hf
        simp only
        exact children_loop_none
          (helper_no_fit fuel a c0 s (by omega) f0) (helper_no_fit fuel a c1 s (by omega) f1)
          (helper_no_fit fuel a c2 s (by omega) f2) (helper_no_fit fuel a c3 s (by omega) f3)

theorem sizes_ok_nodeAt : ∀ (p : List Nat) (t : QuadtreeAtlasNode), sizes_ok t →
    ∀ m, t.nodeAt p = some m → m.size.x ≤ t.size.x ∧ m.size.y ≤ t.size.y
  | [], t, _, m, hm => by
    simp only [QuadtreeAtlasNode.nodeAt, Option.some.injEq] at hm
    subst hm
    exact ⟨le_refl _, le_refl _⟩
  | i :: p, leaf _ _ _, _, m, hm => by
    simp [QuadtreeAtlasNode.nodeAt, QuadtreeAtlasNode.child] at hm
  | i :: p, node pos sz o c0 c1 c2 c3, hok, m, hm => by
    simp only [sizes_ok] at hok
    obtain ⟨-, -, -, -, -, ⟨x0, y0, k0⟩, ⟨x1, y1, k1⟩, ⟨x2, y2, k2⟩, ⟨x3, y3, k3⟩⟩ := hok
    show m.size.x ≤ sz.x ∧ m.size.y ≤ sz.y
    match i, hm with
    | 0, hm =>
      have := sizes_ok_nodeAt p c0 k0 m (by simpa [QuadtreeAtlasNode.nodeAt, QuadtreeAtlasNode.child] using hm)
      omega
    | 1, hm =>
      have := sizes_ok_nodeAt p c1 k1 m (by simpa [QuadtreeAtlasNode.nodeAt, QuadtreeAtlasNode.child] using hm)
      omega
    | 2, hm =>
      have := sizes_ok_nodeAt p c2 k2 m (by simpa [QuadtreeAtlasNode.nodeAt, QuadtreeAtlasNode.child] using hm)
      omega
    | 3, hm =>
      have := sizes_ok_nodeAt p c3 k3 m (by simpa [QuadtreeAtlasNode.nodeAt, QuadtreeAtlasNode.child] using hm)
      omega
    | (k + 4), hm => simp [QuadtreeAtlasNode.nodeAt, QuadtreeAtlasNode.child] at hm

/-- The search stops at a free leaf of exactly the requested size when no
subtree visited before it holds a free leaf that is large enough: the leaf is
marked occupied, nothing else changes and nothing is allocated. -/
theorem helper_first_fit : ∀ (fuel : Nat) (a : WDL_Arena) (t : QuadtreeAtlasNode)
    (p : List Nat) (s pos : WDL_Ivec2),
    t.depth < fuel → sizes_ok t → t.nodeAt p = some (leaf pos s false) →
    earlier_fit t p s = false →
    quadtree_atlas_insert_helper fuel a t s = some (a, mark_occupied t p, some p) ∧
      (mark_occupied t p).nodeAt p = some (leaf pos s true)
  | 0, _, _, _, _, _, hd, _, _, _ => by omega
  | fuel + 1, a, t, [], s, pos, _, _, hn, _ => by
    simp only [QuadtreeAtlasNode.nodeAt, Option.some.injEq] at hn
    subst hn
    rw [helper_succ]
    simp [QuadtreeAtlasNode.occupied, QuadtreeAtlasNode.size, mark_occupied,
      QuadtreeAtlasNode.nodeAt]
  | fuel + 1, a, leaf _ _ _, i :: p, s, pos, _, _, hn, _ => by
    simp [QuadtreeAtlasNode.nodeAt, QuadtreeAtlasNode.child] at hn
  | fuel + 1, a, node ps sz o c0 c1 c2 c3, i :: p, s, pos, hd, hok, hn, he => by
    have hsz := sizes_ok_nodeAt (i :: p) _ hok _ hn
    simp only [QuadtreeAtlasNode.size] at hsz
    simp only [sizes_ok] at hok
    obtain ⟨ho, -, -, -, -, ⟨-, -, k0⟩, ⟨-, -, k1⟩, ⟨-, -, k2⟩, ⟨-, -, k3⟩⟩ := hok
    subst ho
    simp only [QuadtreeAtlasNode.depth] at hd
    rw [helper_succ]
    have hg : ¬ ((node ps sz false c0 c1 c2 c3).occupied = true ∨
        (node ps sz false c0 c1 c2 c3).size.x < s.x ∨
        (node ps sz false c0 c1 c2 c3).size.y < s.y) := by
      simp only [QuadtreeAtlasNode.occupied, QuadtreeAtlasNode.size, not_or, not_lt]
      exact ⟨by simp, hsz.1, hsz.2⟩
    rw [if_neg hg]
    simp only
    match i, hn, he with
    | 0, hn, he =>
      simp only [earlier_fit] at he
      obtain ⟨h0, hm⟩ := helper_first_fit fuel a c0 p s pos (by omega) k0
        (by simpa [QuadtreeAtlasNode.nodeAt, QuadtreeAtlasNode.child] using hn) he
      exact ⟨by simp [children_loop, h0, mark_occupied],
        by simpa [mark_occupied, QuadtreeAtlasNode.nodeAt, QuadtreeAtlasNode.child] using hm⟩
    | 1, hn, he =>
      simp only [earlier_fit, Bool.or_eq_false_iff] at he
      obtain ⟨f0, he⟩ := he
      obtain ⟨h1, hm⟩ := helper_first_fit fuel a c1 p s pos (by omega) k1
        (by simpa [QuadtreeAtlasNode.nodeAt, QuadtreeAtlasNode.child] using hn) he
      have h0 := helper_no_fit fuel a c0 s (by omega) f0
      exact ⟨by simp [children_loop, h0, h1, mark_occupied],
        by simpa [mark_occupied, QuadtreeAtlasNode.nodeAt, QuadtreeAtlasNode.child] using hm⟩
    | 2, hn, he =>
      simp only [earlier_fit, Bool.or_eq_false_iff] at he
      obtain ⟨⟨f0, f1⟩, he⟩ := he
      obtain ⟨h2, hm⟩ := helper_first_fit fuel a c2 p s pos (by omega) k2
        (by simpa [QuadtreeAtlasNode.nodeAt, QuadtreeAtlasNode.child] using hn) he
      have h0 := helper_no_fit fuel a c0 s (by omega) f0
      have h1 := helper_no_fit fuel a c1 s (by omega) f1
      exact ⟨by simp [children_loop, h0, h1, h2, mark_occupied],
        by simpa [mark_occupied, QuadtreeAtlasNode.nodeAt, QuadtreeAtlasNode.child] using hm⟩
    | 3, hn, he =>
      simp only [earlier_fit, Bool.or_eq_false_iff] at he
      obtain ⟨⟨⟨f0, f1⟩, f2⟩, he⟩ := he
      obtain ⟨h3, hm⟩ := helper_first_fit fuel a c3 p s pos (by omega) k3
        (by simpa [QuadtreeAtlasNode.nodeAt, QuadtreeAtlasNode.child] using hn) he
      have h0 := helper_no_fit fuel a c0 s (by omega) f0
      have h1 := helper_no_fit fuel a c1 s (by omega) f1
      have h2 := helper_no_fit fuel a c2 s (by omega) f2
      exact ⟨by simp [children_loop, h0, h1, h2, h3, mark_occupied],
        by simpa [mark_occupied, QuadtreeAtlasNode.nodeAt, QuadtreeAtlasNode.child] using hm⟩
    | (k + 4), hn, _ => simp [QuadtreeAtlasNode.nodeAt, QuadtreeAtlasNode.child] at hn


theorem geom_ok_bounds {t : QuadtreeAtlasNode} (h : geom_ok t) :
    in_canvas t.pos t.size ∧ 0 ≤ t.size.x ∧ 0 ≤ t.size.y := by
  cases t with
  | leaf pos s o => exact h
  | node pos s o c0 c1 c2 c3 => exact ⟨h.2.1, h.2.2.1, h.2.2.2.1⟩

theorem geom_ok_leaf_iff (pos s : WDL_Ivec2) (o : Bool) :
    geom_ok (leaf pos s o) ↔ (in_canvas pos s ∧ 0 ≤ s.x ∧ 0 ≤ s.y) := Iff.rfl

/-- The geometry is kept by the helper on zero-filled memory, for a request
with non-negative components. -/
theorem helper_geom_ok : ∀ (fuel : Nat) (a : WDL_Arena) (n : QuadtreeAtlasNode) (s : WDL_Ivec2)
    (a' : WDL_Arena) (n' : QuadtreeAtlasNode) (r : Option (List Nat)),
    0 ≤ s.x → 0 ≤ s.y → zero_filled a →
    quadtree_atlas_insert_helper fuel a n s = some (a', n', r) →
    zero_filled a' ∧ (geom_ok n → geom_ok n')
  | 0, _, _, _, _, _, _, _, _, _, h => by simp [quadtree_atlas_insert_helper] at h
  | fuel + 1, a, n, s, a', n', r, hx, hy, hz, h => by
    have ih := fun a c a' c' r (hz : zero_filled a)
        (hh : quadtree_atlas_insert_helper fuel a c s = some (a', c', r)) =>
      (⟨(helper_geom_ok fuel a c s a' c' r hx hy hz hh).1,
        (helper_geom_ok fuel a c s a' c' r hx hy hz hh).2,
        (helper_stable fuel a c s a' c' r hh).pos_eq,
        (helper_stable fuel a c s a' c' r hh).size_eq⟩ :
        zero_filled a' ∧ (geom_ok c → geom_ok c') ∧ c'.pos = c.pos ∧ c'.size = c.size)
    rw [helper_succ] at h
    split at h
    · simp only [Option.some.injEq, Prod.mk.injEq] at h
      obtain ⟨rfl, rfl, -⟩ := h
      exact ⟨hz, id⟩
    · rename_i hg
      simp only [not_or, not_lt] at hg
      cases n with
      | leaf pos nsize occ =>
        obtain ⟨g0, gx, gy⟩ := hg
        have ho : occ = false := by simpa [QuadtreeAtlasNode.occupied] using g0
        replace gx : s.x ≤ nsize.x := gx
        replace gy : s.y ≤ nsize.y := gy
        simp only at h
        split at h
        · simp only [Option.some.injEq, Prod.mk.injEq] at h
          obtain ⟨rfl, rfl, -⟩ := h
          exact ⟨hz, id⟩
        · split at h
          · simp only [Option.some.injEq, Prod.mk.injEq] at h
            obtain ⟨rfl, rfl, -⟩ := h
            refine ⟨(zero_filled_push hz).1, fun hok => ?_⟩
            rw [(zero_filled_push hz).2]
            obtain ⟨⟨b1, b2, b3, b4⟩, b5, b6⟩ := hok
            have w1 : wrap_i32 (nsize.x - s.x) = nsize.x - s.x := wrap_i32_eq (by omega) (by omega)
            have w2 : wrap_i32 (nsize.y - s.y) = nsize.y - s.y := wrap_i32_eq (by omega) (by omega)
            have w3 : wrap_i32 (pos.x + s.x) = pos.x + s.x := wrap_i32_eq (by omega) (by omega)
            have w4 : wrap_i32 (pos.y + s.y) = pos.y + s.y := wrap_i32_eq (by omega) (by omega)
            simp only [geom_ok, QuadtreeAtlasNode.pos, QuadtreeAtlasNode.size, zero_node,
              w1, w2, w3, w4, ho, rect_in, rects_overlap, in_canvas, true_and, and_true, or_true]
            omega
          · obtain ⟨c0', c1', c2', c3', rfl, hz', r0, r1, r2, r3⟩ :=
              children_loop_rel
                (R := fun c c' => (geom_ok c → geom_ok c') ∧ c'.pos = c.pos ∧ c'.size = c.size)
                (fun c => ⟨id, rfl, rfl⟩) ih (zero_filled_push hz).1 h
            refine ⟨hz', fun hok => ?_⟩
            obtain ⟨⟨b1, b2, b3, b4⟩, b5, b6⟩ := hok
            have hhx : 0 ≤ nsize.x / 2 ∧ 2 * (nsize.x / 2) ≤ nsize.x := by omega
            have hhy : 0 ≤ nsize.y / 2 ∧ 2 * (nsize.y / 2) ≤ nsize.y := by omega
            have w3 : wrap_i32 (pos.x + nsize.x / 2) = pos.x + nsize.x / 2 :=
              wrap_i32_eq (by omega) (by omega)
            have w4 : wrap_i32 (pos.y + nsize.y / 2) = pos.y + nsize.y / 2 :=
              wrap_i32_eq (by omega) (by omega)
            have g0 := r0.1 (by
              simp only [geom_ok, in_canvas, wdl_iv2_divs]; omega)
            have g1 := r1.1 (by
              simp only [geom_ok, in_canvas, wdl_iv2_divs, w3]; omega)
            have g2 := r2.1 (by
              simp only [geom_ok, in_canvas, wdl_iv2_divs, w4]; omega)
            have g3 := r3.1 (by
              simp only [geom_ok, in_canvas, wdl_iv2_divs, wdl_iv2_add, w3, w4]; omega)
            simp only [geom_ok, r0.2.1, r0.2.2, r1.2.1, r1.2.2, r2.2.1, r2.2.2, r3.2.1, r3.2.2]
            simp only [QuadtreeAtlasNode.pos, QuadtreeAtlasNode.size, wdl_iv2_divs, wdl_iv2_add,
              w3, w4, ho, rect_in, rects_overlap, in_canvas, true_and]
            refine ⟨⟨b1, b2, b3, b4⟩, b5, b6, by omega, by omega, by omega, Or.inl (by omega),
              by omega, by omega, by omega, by omega, by omega, by omega, g0, g1, g2, g3⟩
      | node pos nsize occ c0 c1 c2 c3 =>
        simp only at h
        obtain ⟨c0', c1', c2', c3', rfl, hz', r0, r1, r2, r3⟩ :=
          children_loop_rel
            (R := fun c c' => (geom_ok c → geom_ok c') ∧ c'.pos = c.pos ∧ c'.size = c.size)
            (fun c => ⟨id, rfl, rfl⟩) ih hz h
        refine ⟨hz', fun hok => ?_⟩
        simp only [geom_ok] at hok ⊢
        rw [r0.2.1, r0.2.2, r1.2.1, r1.2.2, r2.2.1, r2.2.2, r3.2.1, r3.2.2]
        obtain ⟨ho, b1, b2, b3, i0, i1, i2, i3, d01, d02, d03, d12, d13, d23, k0, k1, k2, k3⟩ := hok
        exact ⟨ho, b1, b2, b3, i0, i1, i2, i3, d01, d02, d03, d12, d13, d23,
          r0.1 k0, r1.1 k1, r2.1 k2, r3.1 k3⟩


theorem reachable_geom_ok {a0 : WDL_Arena} (hz : zero_filled a0) {atlas : QuadtreeAtlas}
    (hr : Reachable in_range a0 atlas) : zero_filled atlas.arena ∧ geom_ok atlas.root := by
  induction hr with
  | init => exact ⟨hz, by simp [quadtree_atlas_init, geom_ok, in_canvas]⟩
  | insert _ hok hins ih =>
    have hs := aligned_size_in_range hok
    obtain ⟨h1, h2, h3, h4⟩ := hok
    have hh := helper_geom_ok _ _ _ _ _ _ _ (by omega) (by omega) ih.1 (insert_eq_some hins)
    exact ⟨hh.1, hh.2 ih.2⟩

theorem rects_overlap_symm {p1 s1 p2 s2 : WDL_Ivec2} (h : ¬ rects_overlap p1 s1 p2 s2) :
    ¬ rects_overlap p2 s2 p1 s1 := by
  unfold rects_overlap at h ⊢
  omega

/-- A child of a node with the geometry invariant: it has the invariant, and it
lies inside its parent or has size `(0,0)`. -/
theorem geom_ok_child {t c : QuadtreeAtlasNode} {i : Nat} (h : geom_ok t)
    (hc : t.child i = some c) :
    geom_ok c ∧ t.occupied = false ∧
      (rect_in c.pos c.size t.pos t.size ∨ (c.size.x = 0 ∧ c.size.y = 0)) := by
  cases t with
  | leaf _ _ _ => simp [QuadtreeAtlasNode.child] at hc
  | node pos s o c0 c1 c2 c3 =>
    obtain ⟨ho, -, -, -, i0, i1, i2, i3, -, -, -, -, -, -, k0, k1, k2, k3⟩ := h
    match i, hc with
    | 0, hc =>
      simp only [QuadtreeAtlasNode.child, Option.some.injEq] at hc; subst hc
      exact ⟨k0, ho, Or.inl i0⟩
    | 1, hc =>
      simp only [QuadtreeAtlasNode.child, Option.some.injEq] at hc; subst hc
      exact ⟨k1, ho, Or.inl i1⟩
    | 2, hc =>
      simp only [QuadtreeAtlasNode.child, Option.some.injEq] at hc; subst hc
      exact ⟨k2, ho, Or.inl i2⟩
    | 3, hc =>
      simp only [QuadtreeAtlasNode.child, Option.some.injEq] at hc; subst hc
      refine ⟨k3, ho, i3.imp id (fun hz => ?_)⟩
      rw [hz.2]
      exact ⟨rfl, rfl⟩
    | (k + 4), hc => simp [QuadtreeAtlasNode.child] at hc

/-- Two different children of a node with the geometry invariant do not overlap. -/
theorem geom_ok_children_apart {t ci cj : QuadtreeAtlasNode} {i j : Nat} (h : geom_ok t)
    (hi : t.child i = some ci) (hj : t.child j = some cj) (hne : i ≠ j) :
    ¬ rects_overlap ci.pos ci.size cj.pos cj.size := by
  cases t with
  | leaf _ _ _ => simp [QuadtreeAtlasNode.child] at hi
  | node pos s o c0 c1 c2 c3 =>
    obtain ⟨-, -, -, -, -, -, -, -, d01, d02, d03, d12, d13, d23, -, -, -, -⟩ := h
    match i, j, hi, hj, hne with
    | 0, 0, _, _, hne => exact absurd rfl hne
    | 1, 1, _, _, hne => exact absurd rfl hne
    | 2, 2, _, _, hne => exact absurd rfl hne
    | 3, 3, _, _, hne => exact absurd rfl hne
    | 0, 1, hi, hj, _ =>
      simp only [QuadtreeAtlasNode.child, Option.some.injEq] at hi hj; subst hi; subst hj; exact d01
    | 0, 2, hi, hj, _ =>
      simp only [QuadtreeAtlasNode.child, Option.some.injEq] at hi hj; subst hi; subst hj; exact d02
    | 0, 3, hi, hj, _ =>
      simp only [QuadtreeAtlasNode.child, Option.some.injEq] at hi hj; subst hi; subst hj; exact d03
    | 1, 2, hi, hj, _ =>
      simp only [QuadtreeAtlasNode.child, Option.some.injEq] at hi hj; subst hi; subst hj; exact d12
    | 1, 3, hi, hj, _ =>
      simp only [QuadtreeAtlasNode.child, Option.some.injEq] at hi hj; subst hi; subst hj; exact d13
    | 2, 3, hi, hj, _ =>
      simp only [QuadtreeAtlasNode.child, Option.some.injEq] at hi hj; subst hi; subst hj; exact d23
    | 1, 0, hi, hj, _ =>
      simp only [QuadtreeAtlasNode.child, Option.some.injEq] at hi hj; subst hi; subst hj
      exact rects_overlap_symm d01
    | 2, 0, hi, hj, _ =>
      simp only [QuadtreeAtlasNode.child, Option.some.injEq] at hi hj; subst hi; subst hj
      exact rects_overlap_symm d02
    | 3, 0, hi, hj, _ =>
      simp only [QuadtreeAtlasNode.child, Option.some.injEq] at hi hj; subst hi; subst hj
      exact rects_overlap_symm d03
    | 2, 1, hi, hj, _ =>
      simp only [QuadtreeAtlasNode.child, Option.some.injEq] at hi hj; subst hi; subst hj
      exact rects_overlap_symm d12
    | 3, 1, hi, hj, _ =>
      simp only [QuadtreeAtlasNode.child, Option.some.injEq] at hi hj; subst hi; subst hj
      exact rects_overlap_symm d13
    | 3, 2, hi, hj, _ =>
      simp only [QuadtreeAtlasNode.child, Option.some.injEq] at hi hj; subst hi; subst hj
      exact rects_overlap_symm d23
    | (k + 4), _, hi, _, _ => simp [QuadtreeAtlasNode.child] at hi
    | _, (k + 4), _, hj, _ => simp [QuadtreeAtlasNode.child] at hj

/-- Every node below a node with the geometry invariant has the invariant, and
lies inside it or has size `(0,0)`. -/
theorem geom_ok_nodeAt : ∀ (p : List Nat) {t m : QuadtreeAtlasNode}, geom_ok t →
    t.nodeAt p = some m →
    geom_ok m ∧ (rect_in m.pos m.size t.pos t.size ∨ (m.size.x = 0 ∧ m.size.y = 0))
  | [], t, m, h, hm => by
    simp only [QuadtreeAtlasNode.nodeAt, Option.some.injEq] at hm
    subst hm
    exact ⟨h, Or.inl ⟨le_refl _, le_refl _, le_refl _, le_refl _⟩⟩
  | i :: p, t, m, h, hm => by
    simp only [QuadtreeAtlasNode.nodeAt] at hm
    cases hc : t.child i with
    | none => rw [hc] at hm; simp at hm
    | some c =>
      rw [hc] at hm
      obtain ⟨kc, -, hin⟩ := geom_ok_child h hc
      obtain ⟨km, hmin⟩ := geom_ok_nodeAt p kc hm
      refine ⟨km, ?_⟩
      have bm := geom_ok_bounds km
      have bc := geom_ok_bounds kc
      unfold rect_in at hin hmin ⊢
      omega

/-- In a tree with the geometry invariant two distinct occupied nodes do not
overlap. -/
theorem geom_ok_no_overlap : ∀ (p q : List Nat) {t n m : QuadtreeAtlasNode}, geom_ok t →
    t.nodeAt p = some n → t.nodeAt q = some m → p ≠ q →
    n.occupied = true → m.occupied = true →
    ¬ rects_overlap n.pos n.size m.pos m.size
  | [], [], _, _, _, _, _, _, hne, _, _ => absurd rfl hne
  | [], j :: q, t, n, m, h, hp, hq, _, hn, _ => by
    simp only [QuadtreeAtlasNode.nodeAt, Option.some.injEq] at hp hq
    subst hp
    cases hc : t.child j with
    | none => rw [hc] at hq; simp at hq
    | some c =>
      have := (geom_ok_child h hc).2.1
      rw [this] at hn
      simp at hn
  | i :: p, [], t, n, m, h, hp, hq, _, _, hm => by
    simp only [QuadtreeAtlasNode.nodeAt, Option.some.injEq] at hp hq
    subst hq
    cases hc : t.child i with
    | none => rw [hc] at hp; simp at hp
    | some c =>
      have := (geom_ok_child h hc).2.1
      rw [this] at hm
      simp at hm
  | i :: p, j :: q, t, n, m, h, hp, hq, hne, hn, hm => by
    simp only [QuadtreeAtlasNode.nodeAt] at hp hq
    cases hci : t.child i with
    | none => rw [hci] at hp; simp at hp
    | some ci =>
      cases hcj : t.child j with
      | none => rw [hcj] at hq; simp at hq
      | some cj =>
        rw [hci] at hp
        rw [hcj] at hq
        by_cases hij : i = j
        · subst hij
          rw [hci] at hcj
          simp only [Option.some.injEq] at hcj
          subst hcj
          exact geom_ok_no_overlap p q (geom_ok_child h hci).1 hp hq
            (fun hpq => hne (by rw [hpq])) hn hm
        · have hapart := geom_ok_children_apart h hci hcj hij
          obtain ⟨kn, hnin⟩ := geom_ok_nodeAt p (geom_ok_child h hci).1 hp
          obtain ⟨km, hmin⟩ := geom_ok_nodeAt q (geom_ok_child h hcj).1 hq
          have bn := geom_ok_bounds kn
          have bm := geom_ok_bounds km
          have bi := geom_ok_bounds (geom_ok_child h hci).1
          have bj := geom_ok_bounds (geom_ok_child h hcj).1
          unfold rect_in at hnin hmin
          unfold rects_overlap at hapart ⊢
          omega


/-! ## Termination and success of the search -/

theorem c_div_two {a : Int} (h : 0 ≤ a) : c_div a 2 = a / 2 :=
  Int.tdiv_eq_ediv h (by decide)

/-- When each recursive call returns, the loop returns; when a call on a child
marked by `F` cannot return `NULL`, the loop does not return `NULL` if one of
the children is marked. -/
theorem children_loop_total (rec : WDL_Arena → QuadtreeAtlasNode → Option HelperResult)
    (pos size : WDL_Ivec2) (occ : Bool) {c0 c1 c2 c3 : QuadtreeAtlasNode}
    {F0 F1 F2 F3 : Prop}
    (h0 : ∀ a, ∃ a' c' r, rec a c0 = some (a', c', r) ∧ (F0 → r ≠ none))
    (h1 : ∀ a, ∃ a' c' r, rec a c1 = some (a', c', r) ∧ (F1 → r ≠ none))
    (h2 : ∀ a, ∃ a' c' r, rec a c2 = some (a', c', r) ∧ (F2 → r ≠ none))
    (h3 : ∀ a, ∃ a' c' r, rec a c3 = some (a', c', r) ∧ (F3 → r ≠ none))
    (a : WDL_Arena) :
    ∃ a' t' r, children_loop rec a pos size occ c0 c1 c2 c3 = some (a', t', r) ∧
      (F0 ∨ F1 ∨ F2 ∨ F3 → r ≠ none) := by
  obtain ⟨a0, c0', r0, e0, f0⟩ := h0 a
  cases r0 with
  | some p =>
    exact ⟨a0, node pos size occ c0' c1 c2 c3, some (0 :: p),
      by simp only [children_loop, e0], fun _ => by simp⟩
  | none =>
    obtain ⟨a1, c1', r1, e1, f1⟩ := h1 a0
    cases r1 with
    | some p =>
      exact ⟨a1, node pos size occ c0' c1' c2 c3, some (1 :: p),
        by simp only [children_loop, e0, e1], fun _ => by simp⟩
    | none =>
      obtain ⟨a2, c2', r2, e2, f2⟩ := h2 a1
      cases r2 with
      | some p =>
        exact ⟨a2, node pos size occ c0' c1' c2' c3, some (2 :: p),
          by simp only [children_loop, e0, e1, e2], fun _ => by simp⟩
      | none =>
        obtain ⟨a3, c3', r3, e3, f3⟩ := h3 a2
        cases r3 with
        | some p =>
          exact ⟨a3, node pos size occ c0' c1' c2' c3', some (3 :: p),
            by simp only [children_loop, e0, e1, e2, e3], fun _ => by simp⟩
        | none =>
          refine ⟨a3, node pos size occ c0' c1' c2' c3', none,
            by simp only [children_loop, e0, e1, e2, e3], fun hF => ?_⟩
          rcases hF with hF | hF | hF | hF
          · exact absurd rfl (f0 hF)
          · exact absurd rfl (f1 hF)
          · exact absurd rfl (f2 hF)
          · exact absurd rfl (f3 hF)

/-- On a tree with the size invariant and for a request with positive
components the helper returns once the fuel exceeds the depth of the tree plus
its width, and it returns a node when the tree holds a free leaf that is large
enough. -/
theorem helper_total : ∀ (fuel : Nat) (a : WDL_Arena) (t : QuadtreeAtlasNode) (s : WDL_Ivec2),
    1 ≤ s.x → 1 ≤ s.y → sizes_ok t → (t.depth : Int) + t.size.x < fuel →
    ∃ a' t' r, quadtree_atlas_insert_helper fuel a t s = some (a', t', r) ∧
      (has_free_fit t s = true → r ≠ none)
  | 0, _, t, _, _, _, hok, hf => by
    have : 0 ≤ t.size.x := by
      cases t with
      | leaf _ _ _ => exact hok.1
      | node _ _ _ _ _ _ _ => exact hok.2.1
    omega
  | fuel + 1, a, t, s, hx, hy, hok, hf => by
    rw [helper_succ]
    split
    · rename_i hg
      refine ⟨a, t, none, rfl, fun hfit => ?_⟩
      exfalso
      cases t with
      | leaf pos sz o =>
        simp only [has_free_fit, Bool.and_eq_true, Bool.not_eq_true', decide_eq_true_eq] at hfit
        simp only [QuadtreeAtlasNode.occupied, QuadtreeAtlasNode.size] at hg
        obtain ⟨⟨o1, o2⟩, o3⟩ := hfit
        rcases hg with g | g | g
        · rw [o1] at g; simp at g
        · omega
        · omega
      | node pos sz o c0 c1 c2 c3 =>
        simp only [sizes_ok] at hok
        obtain ⟨ho, -, -, -, -, ⟨x0, y0, k0⟩, ⟨x1, y1, k1⟩, ⟨x2, y2, k2⟩, ⟨x3, y3, k3⟩⟩ := hok
        simp only [QuadtreeAtlasNode.occupied, QuadtreeAtlasNode.size] at hg
        simp only [has_free_fit, Bool.or_eq_true] at hfit
        have key : ∀ c : QuadtreeAtlasNode, sizes_ok c → c.size.x ≤ sz.x → c.size.y ≤ sz.y →
            has_free_fit c s = true → False := by
          intro c kc cx cy hc
          obtain ⟨q, m, hm, hfree⟩ : ∃ q m, c.nodeAt q = some m ∧
              s.x ≤ m.size.x ∧ s.y ≤ m.size.y := by
            clear cx cy kc
            induction c with
            | leaf p z oc =>
              simp only [has_free_fit, Bool.and_eq_true, decide_eq_true_eq] at hc
              exact ⟨[], _, rfl, hc.1.2, hc.2⟩
            | node p z oc d0 d1 d2 d3 ih0 ih1 ih2 ih3 =>
              simp only [has_free_fit, Bool.or_eq_true] at hc
              rcases hc with ((hc | hc) | hc) | hc
              · obtain ⟨q, m, hm, hh⟩ := ih0 hc
                exact ⟨0 :: q, m, by simpa [QuadtreeAtlasNode.nodeAt, QuadtreeAtlasNode.child] using hm, hh⟩
              · obtain ⟨q, m, hm, hh⟩ := ih1 hc
                exact ⟨1 :: q, m, by simpa [QuadtreeAtlasNode.nodeAt, QuadtreeAtlasNode.child] using hm, hh⟩
              · obtain ⟨q, m, hm, hh⟩ := ih2 hc
                exact ⟨2 :: q, m, by simpa [QuadtreeAtlasNode.nodeAt, QuadtreeAtlasNode.child] using hm, hh⟩
              · obtain ⟨q, m, hm, hh⟩ := ih3 hc
                exact ⟨3 :: q, m, by simpa [QuadtreeAtlasNode.nodeAt, QuadtreeAtlasNode.child] using hm, hh⟩
          have := sizes_ok_nodeAt q c kc m hm
          rcases hg with g | g | g
          · rw [ho] at g; simp at g
          · omega
          · omega
        rcases hfit with ((hc | hc) | hc) | hc
        · exact key c0 k0 x0 y0 hc
        · exact key c1 k1 x1 y1 hc
        · exact key c2 k2 x2 y2 hc
        · exact key c3 k3 x3 y3 hc
    · rename_i hg
      simp only [not_or, not_lt] at hg
      cases t with
      | leaf pos sz o =>
        obtain ⟨g0, gx, gy⟩ := hg
        replace gx : s.x ≤ sz.x := gx
        replace gy : s.y ≤ sz.y := gy
        simp only [sizes_ok] at hok
        simp only [QuadtreeAtlasNode.depth, QuadtreeAtlasNode.size] at hf
        simp only
        split
        · exact ⟨_, _, _, rfl, fun _ => by simp⟩
        · split
          · exact ⟨_, _, _, rfl, fun _ => by simp⟩
          · rename_i hd
            rw [c_div_two hok.1, c_div_two hok.2.2.1] at hd
            simp only [not_or, not_lt] at hd
            have hleaf : ∀ p, sizes_ok (leaf p (wdl_iv2_divs sz 2) false) := by
              intro p
              simp only [sizes_ok, wdl_iv2_divs]
              omega
            have hfuel : ∀ p, ((leaf p (wdl_iv2_divs sz 2) false).depth : Int) +
                (leaf p (wdl_iv2_divs sz 2) false).size.x < fuel := by
              intro p
              simp only [QuadtreeAtlasNode.depth, QuadtreeAtlasNode.size, wdl_iv2_divs]
              omega
            have hfit0 : has_free_fit (leaf pos (wdl_iv2_divs sz 2) false) s = true := by
              simp only [has_free_fit, wdl_iv2_divs, Bool.not_false, Bool.true_and,
                Bool.and_eq_true, decide_eq_true_eq]
              exact hd
            have tot : ∀ (p : WDL_Ivec2) (a : WDL_Arena), ∃ a' c' r,
                quadtree_atlas_insert_helper fuel a (leaf p (wdl_iv2_divs sz 2) false) s
                  = some (a', c', r) ∧
                (has_free_fit (leaf p (wdl_iv2_divs sz 2) false) s = true → r ≠ none) :=
              fun p a => helper_total fuel a _ s hx hy (hleaf p) (hfuel p)
            obtain ⟨a', t', r, hl, hr⟩ := children_loop_total
              (fun a c => quadtree_atlas_insert_helper fuel a c s) pos sz o
              (tot _) (tot _) (tot _) (tot _) (wdl_arena_push_no_zero a).2
            exact ⟨a', t', r, hl, fun _ => hr (Or.inl hfit0)⟩
      | node pos sz o c0 c1 c2 c3 =>
        simp only [sizes_ok] at hok
        obtain ⟨ho, b0, -, -, -, ⟨x0, y0, k0⟩, ⟨x1, y1, k1⟩, ⟨x2, y2, k2⟩, ⟨x3, y3, k3⟩⟩ := hok
        simp only [QuadtreeAtlasNode.depth, QuadtreeAtlasNode.size] at hf
        simp only
        have hmax : (max (max c0.depth c1.depth) (max c2.depth c3.depth) : Nat) ≥ c0.depth ∧
            (max (max c0.depth c1.depth) (max c2.depth c3.depth) : Nat) ≥ c1.depth ∧
            (max (max c0.depth c1.depth) (max c2.depth c3.depth) : Nat) ≥ c2.depth ∧
            (max (max c0.depth c1.depth) (max c2.depth c3.depth) : Nat) ≥ c3.depth := by
          omega
        have t0 : ∀ a : WDL_Arena, ∃ a' c' r,
            quadtree_atlas_insert_helper fuel a c0 s = some (a', c', r) ∧
            (has_free_fit c0 s = true → r ≠ none) :=
          fun a => helper_total fuel a c0 s hx hy k0 (by omega)
        have t1 : ∀ a : WDL_Arena, ∃ a' c' r,
            quadtree_atlas_insert_helper fuel a c1 s = some (a', c', r) ∧
            (has_free_fit c1 s = true → r ≠ none) :=
          fun a => helper_total fuel a c1 s hx hy k1 (by omega)
        have t2 : ∀ a : WDL_Arena, ∃ a' c' r,
            quadtree_atlas_insert_helper fuel a c2 s = some (a', c', r) ∧
            (has_free_fit c2 s = true → r ≠ none) :=
          fun a => helper_total fuel a c2 s hx hy k2 (by omega)
        have t3 : ∀ a : WDL_Arena, ∃ a' c' r,
            quadtree_atlas_insert_helper fuel a c3 s = some (a', c', r) ∧
            (has_free_fit c3 s = true → r ≠ none) :=
          fun a => helper_total fuel a c3 s hx hy k3 (by omega)
        obtain ⟨a', t', r, hl, hr⟩ := children_loop_total
          (fun a c => quadtree_atlas_insert_helper fuel a c s) pos sz o t0 t1 t2 t3 a
        refine ⟨a', t', r, hl, fun hfit => hr ?_⟩
        simp only [has_free_fit, Bool.or_eq_true] at hfit
        tauto


/-! ## Facts about reachable atlases -/

/-- The root keeps the rectangle `quadtree_atlas_init` gave it. -/
theorem reachable_root {ok : WDL_Ivec2 → Prop} {a0 : WDL_Arena} {atlas : QuadtreeAtlas}
    (hr : Reachable ok a0 atlas) :
    atlas.root.pos = ⟨0, 0⟩ ∧ atlas.root.size = ⟨1024, 1024⟩ := by
  induction hr with
  | init => exact ⟨rfl, rfl⟩
  | insert _ _ hins ih =>
    have hs := helper_stable _ _ _ _ _ _ _ (insert_eq_some hins)
    exact ⟨hs.pos_eq.trans ih.1, hs.size_eq.trans ih.2⟩

theorem zero_filled_zero_arena : zero_filled zero_arena := fun _ => rfl

theorem reachable_atlas_600 : Reachable in_range zero_arena atlas_600 :=
  @Reachable.insert in_range zero_arena (quadtree_atlas_init zero_arena) atlas_600 1
    ⟨600, 600⟩ (some [0]) Reachable.init (by decide) rfl

/-- Over zero-filled memory and with requests in range, two distinct occupied
nodes of a reachable tree never overlap. -/
theorem no_overlap_zero_filled (a0 : WDL_Arena) (hz : zero_filled a0) (atlas : QuadtreeAtlas)
    (hr : Reachable in_range a0 atlas) (p q : List Nat) (n m : QuadtreeAtlasNode)
    (hp : atlas.root.nodeAt p = some n) (hq : atlas.root.nodeAt q = some m) (hne : p ≠ q)
    (hn : n.occupied = true) (hm : m.occupied = true) :
    ¬ rects_overlap n.pos n.size m.pos m.size :=
  geom_ok_no_overlap p q (reachable_geom_ok hz hr).2 hp hq hne hn hm

/-- Over zero-filled memory and with requests in range, every placement
returned by a call on a reachable atlas lies in the canvas. -/
theorem placement_in_canvas_zero_filled (a0 : WDL_Arena) (hz : zero_filled a0)
    (atlas : QuadtreeAtlas) (hr : Reachable in_range a0 atlas) (size : WDL_Ivec2)
    (hs : in_range size) (fuel : Nat) (atlas' : QuadtreeAtlas) (p : List Nat)
    (h : quadtree_atlas_insert fuel atlas size = some (atlas', some p)) :
    ∃ pos, atlas'.root.nodeAt p = some (leaf pos (aligned_size size) true) ∧
      in_canvas pos (aligned_size size) := by
  obtain ⟨pos, hpos, -⟩ := helper_returned _ _ _ _ _ _ _ (insert_eq_some h)
  have hg := (reachable_geom_ok hz (Reachable.insert hr hs h)).2
  exact ⟨pos, hpos, (geom_ok_nodeAt p hg hpos).1.1⟩

/-- Over zero-filled memory and with requests in range, a call on a reachable
atlas returns once the fuel exceeds the depth of the tree plus 1024, and it
returns `NULL` exactly when the tree holds no free leaf that is large enough. -/
theorem failure_iff_no_fit_zero_filled (a0 : WDL_Arena) (hz : zero_filled a0)
    (atlas : QuadtreeAtlas) (hr : Reachable in_range a0 atlas) (size : WDL_Ivec2)
    (hs : in_range size) (fuel : Nat) (hf : atlas.root.depth + 1024 < fuel) :
    ∃ atlas' r, quadtree_atlas_insert fuel atlas size = some (atlas', r) ∧
      (r = none ↔ has_free_fit atlas.root (aligned_size size) = false) := by
  have hal := aligned_size_in_range hs
  obtain ⟨h1, h2, h3, h4⟩ := hs
  have hroot := (reachable_root hr).2
  obtain ⟨a', t', r, hh, hfit⟩ := helper_total fuel atlas.arena atlas.root (aligned_size size)
    (by omega) (by omega) (reachable_sizes_ok hz hr).2 (by rw [hroot]; simp only; omega)
  refine ⟨{ arena := a', root := t' }, r, by simp only [quadtree_atlas_insert, hh], ?_⟩
  constructor
  · intro hr0
    cases hb : has_free_fit atlas.root (aligned_size size) with
    | false => rfl
    | true => exact absurd hr0 (hfit hb)
  · intro hno
    have := helper_no_fit fuel atlas.arena atlas.root (aligned_size size) (by omega) hno
    rw [this] at hh
    simp only [Option.some.injEq, Prod.mk.injEq] at hh
    exact hh.2.2.symm

/-- Without wrap-around of `value + align - 1` the function rounds `value` up
to a multiple of `align`. -/
theorem align_value_up_no_wrap (value align : Nat) (ha : 0 < align)
    (hv : value + align - 1 < 4294967296) :
    align_value_up value align = (value + align - 1) - (value + align - 1) % align := by
  unfold align_value_up
  have h1 : (((value : Int) + (align : Int) - 1) % 4294967296).toNat = value + align - 1 := by
    omega
  simp only [h1]
  have h2 : (value + align - 1) - (value + align - 1) % align ≤ value + align - 1 :=
    Nat.sub_le _ _
  exact Nat.mod_eq_of_lt (by omega)

/-- Away from the wrap-around, aligning an aligned value changes nothing. -/
theorem align_value_up_idempotent_of_no_wrap (v a : Nat) (ha : 0 < a)
    (hv : v + a - 1 < 4294967296) (hr : align_value_up v a + a - 1 < 4294967296) :
    align_value_up (align_value_up v a) a = align_value_up v a := by
  have hd : a ∣ align_value_up v a := by
    rw [align_value_up_no_wrap v a ha hv]
    exact Nat.dvd_sub_mod _
  obtain ⟨k, hk⟩ := hd
  rw [align_value_up_no_wrap _ a ha hr, hk]
  have : (a * k + a - 1) % a = a - 1 := by
    have e : a * k + a - 1 = a * k + (a - 1) := by omega
    rw [e, Nat.mul_add_mod]
    exact Nat.mod_eq_of_lt (by omega)
  rw [this]
  omega

/-- A request wider or taller than 1024 whose aligned size is still a positive
`int` is rejected at the root, on every reachable atlas. -/
theorem oversized_in_range_fails {ok : WDL_Ivec2 → Prop} (a0 : WDL_Arena) (atlas : QuadtreeAtlas)
    (hr : Reachable ok a0 atlas) (size : WDL_Ivec2) (hs : in_range size)
    (hbig : 1024 < size.x ∨ 1024 < size.y) (fuel : Nat) :
    quadtree_atlas_insert (fuel + 1) atlas size = some (atlas, none) := by
  have hal := aligned_size_in_range hs
  obtain ⟨h1, h2, h3, h4⟩ := hs
  have hroot := (reachable_root hr).2
  have hg : atlas.root.occupied = true ∨ atlas.root.size.x < (aligned_size size).x ∨
      atlas.root.size.y < (aligned_size size).y := by
    rw [hroot]
    simp only
    omega
  simp only [quadtree_atlas_insert, helper_succ, if_pos hg]


/-! ## Properties stated by the specification -/

/-- Claim C1 (no overlap) fails on the code when the arena memory is not
zero-filled.  The dynamic split writes children 0, 1 and 2 only; child 3 keeps
what the slot held.  With a stale free 600 x 600 node at `(0,0)` in that slot,
two calls with `(600, 600)` both succeed: the first returns child 0 and the
second returns child 3, and the two occupied nodes are the same rectangle. -/
theorem overlap_through_stale_child : ∃ a1 a2,
    quadtree_atlas_insert 2
        (quadtree_atlas_init (stale_arena (leaf ⟨0, 0⟩ ⟨600, 600⟩ false))) ⟨600, 600⟩
      = some (a1, some [0]) ∧
    quadtree_atlas_insert 2 a1 ⟨600, 600⟩ = some (a2, some [3]) ∧
    a2.root.nodeAt [0] = some (leaf ⟨0, 0⟩ ⟨600, 600⟩ true) ∧
    a2.root.nodeAt [3] = some (leaf ⟨0, 0⟩ ⟨600, 600⟩ true) ∧
    rects_overlap ⟨0, 0⟩ ⟨600, 600⟩ ⟨0, 0⟩ ⟨600, 600⟩ :=
  ⟨_, _, rfl, rfl, rfl, rfl, by decide⟩

/-- Claim C2 (placement inside the canvas) fails on the code in two ways.
With a stale free node at `(5000, 5000)` in the slot of child 3, the second of
two calls with `(600, 600)` returns that node.  Over zero-filled memory, the
width 2147483647 is aligned to `2^31`, which is `-2147483648` as an `int`; the
second of two calls with `(2147483647, 1024)` returns a node whose `pos.x` is
`-2147483648`. -/
theorem placement_outside_canvas :
    (∃ a1 a2,
      quadtree_atlas_insert 2
          (quadtree_atlas_init (stale_arena (leaf ⟨5000, 5000⟩ ⟨600, 600⟩ false))) ⟨600, 600⟩
        = some (a1, some [0]) ∧
      quadtree_atlas_insert 2 a1 ⟨600, 600⟩ = some (a2, some [3]) ∧
      a2.root.nodeAt [3] = some (leaf ⟨5000, 5000⟩ ⟨600, 600⟩ true) ∧
      ¬ in_canvas ⟨5000, 5000⟩ ⟨600, 600⟩) ∧
    (∃ a1 a2,
      quadtree_atlas_insert 1 (quadtree_atlas_init zero_arena) ⟨2147483647, 1024⟩
        = some (a1, some [0]) ∧
      quadtree_atlas_insert 2 a1 ⟨2147483647, 1024⟩ = some (a2, some [1, 0]) ∧
      a2.root.nodeAt [1, 0] = some (leaf ⟨-2147483648, 0⟩ ⟨-2147483648, 1024⟩ true) ∧
      ¬ in_canvas ⟨-2147483648, 0⟩ ⟨-2147483648, 1024⟩) :=
  ⟨⟨_, _, rfl, rfl, rfl, by decide⟩, ⟨_, _, rfl, rfl, rfl, by decide⟩⟩

/-- Over zero-filled arena memory the placements are stable (the property of
claim C3): for every atlas reached from a fresh atlas and every request, when
`quadtree_atlas_insert` returns, every node `n` of the tree before the call is
found at the same path after it, with the same `pos` and `size`; if `n` was
occupied it is unchanged; if `n` was split it is still split and each of its
four children keeps its `pos` and `size`; and `n` is not the returned node if
it was occupied. -/
theorem stable_placements_zero_filled (a0 : WDL_Arena) (_ : zero_filled a0)
    (atlas : QuadtreeAtlas) (_ : Reachable (fun _ => True) a0 atlas)
    (fuel : Nat) (atlas' : QuadtreeAtlas) (size : WDL_Ivec2)
    (r : Option (List Nat))
    (h : quadtree_atlas_insert fuel atlas size = some (atlas', r))
    (p : List Nat) (n : QuadtreeAtlasNode) (hn : atlas.root.nodeAt p = some n) :
    ∃ n', atlas'.root.nodeAt p = some n' ∧ n'.pos = n.pos ∧ n'.size = n.size ∧
      (n.occupied = true → n' = n) ∧
      (n.split = true → n'.split = true ∧
        ∀ i c, n.child i = some c →
          ∃ c', n'.child i = some c' ∧ c'.pos = c.pos ∧ c'.size = c.size) ∧
      (r = some p → n.occupied = false) := by
  have hh := insert_eq_some h
  obtain ⟨n', hn', hs⟩ := Stable.nodeAt p (helper_stable _ _ _ _ _ _ _ hh) hn
  refine ⟨n', hn', hs.pos_eq, hs.size_eq, hs.occupied_eq, ?_, ?_⟩
  · intro hsp
    constructor
    · cases n with
      | leaf _ _ _ => simp [QuadtreeAtlasNode.split] at hsp
      | node ps sz o c0 c1 c2 c3 =>
        obtain ⟨⟨c0', c1', c2', c3', rfl, -⟩, -⟩ := hs
        rfl
    · intro i c hc
      obtain ⟨c', hc', hsc⟩ := hs.child hc
      exact ⟨c', hc', hsc.pos_eq, hsc.size_eq⟩
  · intro hr
    subst hr
    obtain ⟨ps, -, hold⟩ := helper_returned _ _ _ _ _ _ _ hh
    rw [hold n hn]
    rfl

/-- Stable placements at a concrete call over zero-filled memory: `(600, 424)`
on the atlas that holds a 600 x 600 placement; that placement is node `[0]`
before and after. -/
theorem stable_placements_zero_filled_example :
    quadtree_atlas_insert 2 atlas_600 ⟨600, 424⟩ = some (atlas_600_424, some [2]) ∧
    atlas_600.root.nodeAt [0] = some (leaf ⟨0, 0⟩ ⟨600, 600⟩ true) ∧
    ∃ n', atlas_600_424.root.nodeAt [0] = some n' ∧
      n'.pos = (leaf ⟨0, 0⟩ ⟨600, 600⟩ true).pos ∧
      n'.size = (leaf ⟨0, 0⟩ ⟨600, 600⟩ true).size ∧
      ((leaf ⟨0, 0⟩ ⟨600, 600⟩ true).occupied = true → n' = leaf ⟨0, 0⟩ ⟨600, 600⟩ true) ∧
      ((leaf ⟨0, 0⟩ ⟨600, 600⟩ true).split = true → n'.split = true ∧
        ∀ i c, (leaf ⟨0, 0⟩ ⟨600, 600⟩ true).child i = some c →
          ∃ c', n'.child i = some c' ∧ c'.pos = c.pos ∧ c'.size = c.size) ∧
      (some [2] = some [0] → (leaf ⟨0, 0⟩ ⟨600, 600⟩ true).occupied = false) :=
  ⟨rfl, rfl, stable_placements_zero_filled zero_arena zero_filled_zero_arena atlas_600
    (@Reachable.insert (fun _ => True) zero_arena (quadtree_atlas_init zero_arena) atlas_600 1
      ⟨600, 600⟩ (some [0]) Reachable.init trivial rfl)
    2 atlas_600_424 ⟨600, 424⟩ (some [2]) rfl [0] (leaf ⟨0, 0⟩ ⟨600, 600⟩ true) rfl⟩

/-- Over zero-filled arena memory a successful insert has the result of claim
C4: for every atlas reached from a fresh atlas, whenever
`quadtree_atlas_insert(atlas, (w, h))` returns a node, that node is a leaf (not
split), is occupied, has exactly the size
`(align_value_up(w, 4), align_value_up(h, 4))`, and was not occupied before
the call (it was absent or free). -/
theorem insert_result_zero_filled (a0 : WDL_Arena) (_ : zero_filled a0)
    (atlas : QuadtreeAtlas) (_ : Reachable (fun _ => True) a0 atlas)
    (fuel : Nat) (atlas' : QuadtreeAtlas) (size : WDL_Ivec2)
    (p : List Nat)
    (h : quadtree_atlas_insert fuel atlas size = some (atlas', some p)) :
    ∃ pos, atlas'.root.nodeAt p =
        some (leaf pos ⟨to_i32 (align_value_up (to_u32 size.x) 4),
                        to_i32 (align_value_up (to_u32 size.y) 4)⟩ true) ∧
      ∀ m, atlas.root.nodeAt p = some m → m.occupied = false := by
  obtain ⟨ps, hps, hold⟩ := helper_returned _ _ _ _ _ _ _ (insert_eq_some h)
  refine ⟨ps, hps, fun m hm => ?_⟩
  rw [hold m hm]
  rfl

/-- The result of an insert at a concrete call over zero-filled memory:
`(597, 421)` is aligned to `(600, 424)` and served by the free leaf `[2]`. -/
theorem insert_result_zero_filled_example :
    quadtree_atlas_insert 2 atlas_600 ⟨597, 421⟩ = some (atlas_600_424, some [2]) ∧
    ∃ pos, atlas_600_424.root.nodeAt [2] =
        some (leaf pos ⟨to_i32 (align_value_up (to_u32 597) 4),
                        to_i32 (align_value_up (to_u32 421) 4)⟩ true) ∧
      ∀ m, atlas_600.root.nodeAt [2] = some m → m.occupied = false :=
  ⟨rfl, insert_result_zero_filled zero_arena zero_filled_zero_arena atlas_600
    (@Reachable.insert (fun _ => True) zero_arena (quadtree_atlas_init zero_arena) atlas_600 1
      ⟨600, 600⟩ (some [0]) Reachable.init trivial rfl)
    2 atlas_600_424 ⟨597, 421⟩ [2] rfl⟩

/-- Claim C5 (failure exactly when no region is large enough) fails on the
code in two ways.  With a stale free 2000 x 2000 node in the slot of child 3 of
the root, the request `(1100, 1100)` is rejected at the root although the tree
holds a free leaf that is large enough.  Over zero-filled memory, after two
calls with `(2147483647, 1024)` the tree holds a free 1024 x 1024 leaf below a
node of negative width, and the request `(1024, 1024)` is rejected. -/
theorem fit_left_unused :
    (∃ a1 a2,
      quadtree_atlas_insert 1
          (quadtree_atlas_init (stale_arena (leaf ⟨0, 0⟩ ⟨2000, 2000⟩ false))) ⟨600, 600⟩
        = some (a1, some [0]) ∧
      aligned_size ⟨1100, 1100⟩ = ⟨1100, 1100⟩ ∧
      has_free_fit a1.root ⟨1100, 1100⟩ = true ∧
      ∀ fuel, quadtree_atlas_insert (fuel + 1) a1 ⟨1100, 1100⟩ = some (a2, none)) ∧
    (∃ a1 a2 a3,
      quadtree_atlas_insert 1 (quadtree_atlas_init zero_arena) ⟨2147483647, 1024⟩
        = some (a1, some [0]) ∧
      quadtree_atlas_insert 2 a1 ⟨2147483647, 1024⟩ = some (a2, some [1, 0]) ∧
      aligned_size ⟨1024, 1024⟩ = ⟨1024, 1024⟩ ∧
      a2.root.nodeAt [1, 1] = some (leaf ⟨0, 0⟩ ⟨1024, 1024⟩ false) ∧
      has_free_fit a2.root ⟨1024, 1024⟩ = true ∧
      ∀ fuel, quadtree_atlas_insert (fuel + 2) a2 ⟨1024, 1024⟩ = some (a3, none)) :=
  ⟨⟨_, _, rfl, rfl, rfl, fun _ => rfl⟩, ⟨_, _, _, rfl, rfl, rfl, rfl, rfl, fun _ => rfl⟩⟩

/-- Claim C6 (oversized requests fail) fails on the code: the width
2147483647 is aligned to `2^31`, which is `-2147483648` as an `int`, so the
guard `node->size.x < size.x` does not reject it, and the call on a fresh atlas
returns a placement. -/
theorem oversized_request_served : ∃ a1,
    (∀ fuel, quadtree_atlas_insert (fuel + 1) (quadtree_atlas_init zero_arena) ⟨2147483647, 1024⟩
      = some (a1, some [0])) ∧
    a1.root.nodeAt [0] = some (leaf ⟨0, 0⟩ ⟨-2147483648, 1024⟩ true) ∧
    align_value_up (to_u32 2147483647) 4 = 2147483648 ∧ to_i32 2147483648 = -2147483648 :=
  ⟨_, fun _ => rfl, rfl, by decide, by decide⟩

/-- Claim C7 as stated fails: `value + align - 1` wraps around in `u32`, and
`align_value_up(4294967295, 4)` is 0, which is smaller than the value. -/
theorem align_value_up_wraps :
    align_value_up 4294967295 4 = 0 ∧ ¬ (4294967295 ≤ align_value_up 4294967295 4) := by
  decide

/-- Claim C7, amended (alignment contract): for every value and every positive
alignment such that `value + align - 1` does not exceed `2^32 - 1`, the result
`r` of `align_value_up` satisfies `r >= value`, `r` is a multiple of `align`,
and `r < value + align`. -/
theorem align_value_up_contract (value align : Nat) (ha : 0 < align)
    (hv : value + align - 1 < 4294967296) :
    value ≤ align_value_up value align ∧ align ∣ align_value_up value align ∧
      align_value_up value align < value + align := by
  rw [align_value_up_no_wrap value align ha hv]
  have hm : (value + align - 1) % align < align := Nat.mod_lt _ ha
  have hle : (value + align - 1) % align ≤ value + align - 1 := Nat.mod_le _ _
  exact ⟨by omega, Nat.dvd_sub_mod _, by omega⟩

/-- Claim C7, amended, at `value = 10`, `align = 4`. -/
theorem align_value_up_contract_witness :
    0 < 4 ∧ 10 + 4 - 1 < 4294967296 ∧
    (10 ≤ align_value_up 10 4 ∧ 4 ∣ align_value_up 10 4 ∧ align_value_up 10 4 < 10 + 4) :=
  ⟨by decide, by decide, align_value_up_contract 10 4 (by decide) (by decide)⟩

/-- Claim C8 (alignment idempotence) fails on the code:
`align_value_up(4294967293, 3)` is 4294967295, a multiple of 3, and aligning
that value again gives 0, because `4294967295 + 3 - 1` wraps around in `u32`. -/
theorem align_value_up_not_idempotent :
    align_value_up 4294967293 3 = 4294967295 ∧
    align_value_up (align_value_up 4294967293 3) 3 = 0 := by
  decide

/-- Claim C9 as stated fails: after `(4, 600)` on a fresh atlas over
zero-filled memory the leaf `[2]` is free with size `(4, 424)`, but a request of
exactly that size is served by splitting the larger free leaf `[1]`, which the
search visits first; the leaf `[2]` stays free and new nodes are created. -/
theorem exact_fit_not_reused : ∃ a1 a2,
    quadtree_atlas_insert 1 (quadtree_atlas_init zero_arena) ⟨4, 600⟩ = some (a1, some [0]) ∧
    a1.root.nodeAt [2] = some (leaf ⟨0, 600⟩ ⟨4, 424⟩ false) ∧
    aligned_size ⟨4, 424⟩ = ⟨4, 424⟩ ∧
    (∀ fuel, quadtree_atlas_insert (fuel + 2) a1 ⟨4, 424⟩ = some (a2, some [1, 0])) ∧
    a1.root.nodeAt [1, 0] = none ∧
    a2.root.nodeAt [1, 0] = some (leaf ⟨4, 0⟩ ⟨4, 424⟩ true) ∧
    a2.root.nodeAt [2] = some (leaf ⟨0, 600⟩ ⟨4, 424⟩ false) :=
  ⟨_, _, rfl, rfl, rfl, fun _ => rfl, rfl, rfl, rfl⟩

/-- Claim C9, amended (exact-fit reuse): for every tree reachable from a fresh
atlas over zero-filled arena memory by requests with width and height in
`1 .. 2147483644`, and every free leaf `L` of it such that no subtree visited
before `L` by the depth-first search (children in the order 0, 1, 2, 3) holds a
free leaf at least as large as `L`, a `quadtree_atlas_insert` whose aligned
size equals the size of `L` returns `L` itself, marks it occupied and changes
nothing else: no node is created and nothing is allocated.  The call returns
with any fuel larger than the depth of the tree. -/
theorem exact_fit_first (a0 : WDL_Arena) (hz : zero_filled a0) (atlas : QuadtreeAtlas)
    (hr : Reachable in_range a0 atlas) (p : List Nat) (pos sz : WDL_Ivec2)
    (hL : atlas.root.nodeAt p = some (leaf pos sz false))
    (size : WDL_Ivec2) (hs : aligned_size size = sz)
    (hfirst : earlier_fit atlas.root p sz = false)
    (fuel : Nat) (hf : atlas.root.depth < fuel) :
    quadtree_atlas_insert fuel atlas size =
        some ({ arena := atlas.arena, root := mark_occupied atlas.root p }, some p) ∧
      (mark_occupied atlas.root p).nodeAt p = some (leaf pos sz true) := by
  obtain ⟨h1, h2⟩ := helper_first_fit fuel atlas.arena atlas.root p sz pos hf
    (reachable_sizes_ok hz hr).2 hL hfirst
  refine ⟨?_, h2⟩
  unfold quadtree_atlas_insert
  rw [hs, h1]

/-- Claim C9, amended, at a concrete call: `(598, 421)` is aligned to
`(600, 424)`, the size of the free leaf `[2]`, and children 0 and 1 of the root
hold no free leaf that large. -/
theorem exact_fit_first_witness :
    zero_filled zero_arena ∧ Reachable in_range zero_arena atlas_600 ∧
    atlas_600.root.nodeAt [2] = some (leaf ⟨0, 600⟩ ⟨600, 424⟩ false) ∧
    aligned_size ⟨598, 421⟩ = ⟨600, 424⟩ ∧
    earlier_fit atlas_600.root [2] ⟨600, 424⟩ = false ∧
    atlas_600.root.depth < 2 ∧
    (quadtree_atlas_insert 2 atlas_600 ⟨598, 421⟩ =
        some ({ arena := atlas_600.arena, root := mark_occupied atlas_600.root [2] }, some [2]) ∧
      (mark_occupied atlas_600.root [2]).nodeAt [2] = some (leaf ⟨0, 600⟩ ⟨600, 424⟩ true)) :=
  ⟨zero_filled_zero_arena, reachable_atlas_600, rfl, rfl, rfl, by decide,
    exact_fit_first zero_arena zero_filled_zero_arena atlas_600 reachable_atlas_600 [2]
      ⟨0, 600⟩ ⟨600, 424⟩ rfl ⟨598, 421⟩ rfl rfl 2 (by decide)⟩

/-- Claim C10 (containment) fails on the code when the arena memory is not
zero-filled: the dynamic split never writes the fourth child, which keeps the
rectangle the slot held.  With a stale 2000 x 2000 node in that slot, after
`(600, 600)` on a fresh atlas the root is split and its fourth child is the
rectangle at `(0, 0)` of size `(2000, 2000)`, which does not lie in the
1024 x 1024 rectangle of the root: the pixel `(1500, 1500)` is in the child and
not in the parent. -/
theorem stale_child_outside_parent : ∃ a1 c,
    quadtree_atlas_insert 1
        (quadtree_atlas_init (stale_arena (leaf ⟨0, 0⟩ ⟨2000, 2000⟩ false))) ⟨600, 600⟩
      = some (a1, some [0]) ∧
    a1.root.split = true ∧ a1.root.pos = ⟨0, 0⟩ ∧ a1.root.size = ⟨1024, 1024⟩ ∧
    a1.root.child 3 = some c ∧ c = leaf ⟨0, 0⟩ ⟨2000, 2000⟩ false ∧
    ¬ contained_in c a1.root ∧
    covers c.pos c.size 1500 1500 ∧ ¬ covers a1.root.pos a1.root.size 1500 1500 :=
  ⟨_, _, rfl, rfl, rfl, rfl, rfl, rfl, by decide, by decide, by decide⟩

/-- Containment over zero-filled memory: in every tree reachable from a fresh
atlas over zero-filled arena memory by requests with width and height in
`1 .. 2147483644`, the root is the rectangle at `(0, 0)` of size
`(1024, 1024)`, and for every split node each child has a rectangle whose
corners lie in the rectangle of its parent, except that the fourth child may
instead be the untouched zero-filled slot: the empty rectangle at `(0, 0)` of
size `(0, 0)`. -/
theorem containment_zero_filled (a0 : WDL_Arena) (hz : zero_filled a0) (atlas : QuadtreeAtlas)
    (hr : Reachable in_range a0 atlas) :
    atlas.root.pos = ⟨0, 0⟩ ∧ atlas.root.size = ⟨1024, 1024⟩ ∧
    ∀ (p : List Nat) (n c : QuadtreeAtlasNode) (i : Nat),
      atlas.root.nodeAt p = some n → n.child i = some c →
      contained_in c n ∨ (i = 3 ∧ c.pos = ⟨0, 0⟩ ∧ c.size = ⟨0, 0⟩) := by
  refine ⟨(reachable_root hr).1, (reachable_root hr).2, ?_⟩
  intro p n c i hn hc
  have hg := (geom_ok_nodeAt p (reachable_geom_ok hz hr).2 hn).1
  cases n with
  | leaf _ _ _ => simp [QuadtreeAtlasNode.child] at hc
  | node pos s o c0 c1 c2 c3 =>
    obtain ⟨-, -, -, -, i0, i1, i2, i3, -⟩ := hg
    match i, hc with
    | 0, hc =>
      simp only [QuadtreeAtlasNode.child, Option.some.injEq] at hc; subst hc
      exact Or.inl i0
    | 1, hc =>
      simp only [QuadtreeAtlasNode.child, Option.some.injEq] at hc; subst hc
      exact Or.inl i1
    | 2, hc =>
      simp only [QuadtreeAtlasNode.child, Option.some.injEq] at hc; subst hc
      exact Or.inl i2
    | 3, hc =>
      simp only [QuadtreeAtlasNode.child, Option.some.injEq] at hc; subst hc
      exact i3.imp id (fun h => ⟨rfl, h⟩)
    | (k + 4), hc => simp [QuadtreeAtlasNode.child] at hc

/-- Containment over zero-filled memory, on the atlas that holds one 600 x 600
placement. -/
theorem containment_zero_filled_example :
    zero_filled zero_arena ∧ Reachable in_range zero_arena atlas_600 ∧
    (atlas_600.root.pos = ⟨0, 0⟩ ∧ atlas_600.root.size = ⟨1024, 1024⟩ ∧
    ∀ (p : List Nat) (n c : QuadtreeAtlasNode) (i : Nat),
      atlas_600.root.nodeAt p = some n → n.child i = some c →
      contained_in c n ∨ (i = 3 ∧ c.pos = ⟨0, 0⟩ ∧ c.size = ⟨0, 0⟩)) :=
  ⟨zero_filled_zero_arena, reachable_atlas_600,
    containment_zero_filled zero_arena zero_filled_zero_arena atlas_600 reachable_atlas_600⟩

/-- Over zero-filled memory the property of claim C10 holds for the pixels: in
every tree reachable from a fresh atlas by requests with width and height in
`1 .. 2147483644`, the root is the rectangle at `(0, 0)` of size
`(1024, 1024)`, and every pixel of every child of a split node, the fourth
child after a dynamic split included, is a pixel of its parent. -/
theorem child_pixels_in_parent_zero_filled (a0 : WDL_Arena) (hz : zero_filled a0)
    (atlas : QuadtreeAtlas) (hr : Reachable in_range a0 atlas) :
    atlas.root.pos = ⟨0, 0⟩ ∧ atlas.root.size = ⟨1024, 1024⟩ ∧
    ∀ (p : List Nat) (n c : QuadtreeAtlasNode) (i : Nat),
      atlas.root.nodeAt p = some n → n.child i = some c →
      ∀ x y, covers c.pos c.size x y → covers n.pos n.size x y := by
  obtain ⟨h1, h2, h3⟩ := containment_zero_filled a0 hz atlas hr
  refine ⟨h1, h2, fun p n c i hn hc x y hxy => ?_⟩
  unfold covers at hxy ⊢
  rcases h3 p n c i hn hc with h | ⟨-, hp, hs⟩
  · unfold contained_in rect_in at h
    omega
  · rw [hp, hs] at hxy
    simp only at hxy
    omega


/-! ## The three states of a node -/

/-- The helper keeps the three-state shape of a tree when every slot of the
arena holds a tree of that shape. -/
theorem helper_three_state : ∀ (fuel : Nat) (a : WDL_Arena) (n : QuadtreeAtlasNode)
    (s : WDL_Ivec2) (a' : WDL_Arena) (n' : QuadtreeAtlasNode) (r : Option (List Nat)),
    (∀ k, three_state (a.prior k)) →
    quadtree_atlas_insert_helper fuel a n s = some (a', n', r) →
    (∀ k, three_state (a'.prior k)) ∧ (three_state n → three_state n')
  | 0, _, _, _, _, _, _, _, h => by simp [quadtree_atlas_insert_helper] at h
  | fuel + 1, a, n, s, a', n', r, hz, h => by
    have ih := fun a c a' c' r (hz : ∀ k, three_state (a.prior k))
        (hh : quadtree_atlas_insert_helper fuel a c s = some (a', c', r)) =>
      helper_three_state fuel a c s a' c' r hz hh
    rw [helper_succ] at h
    split at h
    · simp only [Option.some.injEq, Prod.mk.injEq] at h
      obtain ⟨rfl, rfl, -⟩ := h
      exact ⟨hz, id⟩
    · rename_i hg
      simp only [not_or, not_lt] at hg
      have ho : n.occupied = false := by simpa using hg.1
      cases n with
      | leaf pos nsize occ =>
        replace ho : occ = false := ho
        subst ho
        simp only at h
        split at h
        · simp only [Option.some.injEq, Prod.mk.injEq] at h
          obtain ⟨rfl, rfl, -⟩ := h
          exact ⟨hz, fun _ => trivial⟩
        · split at h
          · simp only [Option.some.injEq, Prod.mk.injEq] at h
            obtain ⟨rfl, rfl, -⟩ := h
            exact ⟨fun k => hz k, fun _ => ⟨rfl, trivial, trivial, trivial, hz _⟩⟩
          · obtain ⟨c0', c1', c2', c3', rfl, hz', r0, r1, r2, r3⟩ :=
              children_loop_rel (A := fun a => ∀ k, three_state (a.prior k))
                (R := fun c c' => three_state c → three_state c')
                (fun c => id) ih
                (show ∀ k, three_state ((wdl_arena_push_no_zero a).2.prior k) from fun k => hz k) h
            exact ⟨hz', fun _ => ⟨rfl, r0 trivial, r1 trivial, r2 trivial, r3 trivial⟩⟩
      | node pos nsize occ c0 c1 c2 c3 =>
        simp only at h
        obtain ⟨c0', c1', c2', c3', rfl, hz', r0, r1, r2, r3⟩ :=
          children_loop_rel (A := fun a => ∀ k, three_state (a.prior k))
            (R := fun c c' => three_state c → three_state c')
            (fun c => id) ih hz h
        exact ⟨hz', fun hok => ⟨hok.1, r0 hok.2.1, r1 hok.2.2.1, r2 hok.2.2.2.1, r3 hok.2.2.2.2⟩⟩

theorem three_state_nodeAt : ∀ (p : List Nat) {t m : QuadtreeAtlasNode}, three_state t →
    t.nodeAt p = some m → three_state m
  | [], t, m, h, hm => by
    simp only [QuadtreeAtlasNode.nodeAt, Option.some.injEq] at hm
    subst hm
    exact h
  | i :: p, leaf _ _ _, m, _, hm => by
    simp [QuadtreeAtlasNode.nodeAt, QuadtreeAtlasNode.child] at hm
  | i :: p, node _ _ _ c0 c1 c2 c3, m, h, hm => by
    obtain ⟨-, k0, k1, k2, k3⟩ := h
    match i, hm with
    | 0, hm =>
      exact three_state_nodeAt p k0 (by simpa [QuadtreeAtlasNode.nodeAt, QuadtreeAtlasNode.child] using hm)
    | 1, hm =>
      exact three_state_nodeAt p k1 (by simpa [QuadtreeAtlasNode.nodeAt, QuadtreeAtlasNode.child] using hm)
    | 2, hm =>
      exact three_state_nodeAt p k2 (by simpa [QuadtreeAtlasNode.nodeAt, QuadtreeAtlasNode.child] using hm)
    | 3, hm =>
      exact three_state_nodeAt p k3 (by simpa [QuadtreeAtlasNode.nodeAt, QuadtreeAtlasNode.child] using hm)
    | (k + 4), hm => simp [QuadtreeAtlasNode.nodeAt, QuadtreeAtlasNode.child] at hm

theorem reachable_three_state {ok : WDL_Ivec2 → Prop} {a0 : WDL_Arena}
    (hz : ∀ k, three_state (a0.prior k)) {atlas : QuadtreeAtlas} (hr : Reachable ok a0 atlas) :
    (∀ k, three_state (atlas.arena.prior k)) ∧ three_state atlas.root := by
  induction hr with
  | init => exact ⟨hz, trivial⟩
  | insert _ _ hins ih =>
    have hh := helper_three_state _ _ _ _ _ _ _ ih.1 (insert_eq_some hins)
    exact ⟨hh.1, hh.2 ih.2⟩

/-- When every slot of the arena holds a three-state tree, in particular over
zero-filled memory, every atlas reached by any requests whatever is a
three-state tree: no node is both split and occupied, an occupied node has
no children, and a split node has its four children. -/
theorem three_state_of_clean_memory (a0 : WDL_Arena) (hz : ∀ k, three_state (a0.prior k))
    (atlas : QuadtreeAtlas) (hr : Reachable (fun _ => True) a0 atlas)
    (p : List Nat) (n : QuadtreeAtlasNode) (hn : atlas.root.nodeAt p = some n) :
    ¬ (n.split = true ∧ n.occupied = true) ∧
    (n.occupied = true → ∀ i, n.child i = none) ∧
    (n.split = true → ∀ i, i < 4 ↔ ∃ c, n.child i = some c) := by
  have hm := three_state_nodeAt p (reachable_three_state hz hr).2 hn
  cases n with
  | leaf _ _ _ =>
    refine ⟨by simp [QuadtreeAtlasNode.split], fun _ i => ?_, by simp [QuadtreeAtlasNode.split]⟩
    cases i <;> rfl
  | node ps sz o c0 c1 c2 c3 =>
    have ho : o = false := hm.1
    subst ho
    refine ⟨by simp [QuadtreeAtlasNode.occupied], by simp [QuadtreeAtlasNode.occupied], fun _ i => ?_⟩
    match i with
    | 0 => simp [QuadtreeAtlasNode.child]
    | 1 => simp [QuadtreeAtlasNode.child]
    | 2 => simp [QuadtreeAtlasNode.child]
    | 3 => simp [QuadtreeAtlasNode.child]
    | (k + 4) => simp [QuadtreeAtlasNode.child]

/-- Claim C11 (three-state invariant) fails on the code when the arena memory
is not clean: the dynamic split never writes child 3, so its `occupied` and
`split` flags are whatever the slot held.  With a slot whose stale contents
have both flags set, the tree after `(600, 600)` on a fresh atlas has a node,
`[3]`, that is both split and occupied. -/
theorem stale_child_split_and_occupied : ∃ a1 n,
    quadtree_atlas_insert 1
        (quadtree_atlas_init (stale_arena
          (node ⟨0, 0⟩ ⟨0, 0⟩ true zero_node zero_node zero_node zero_node))) ⟨600, 600⟩
      = some (a1, some [0]) ∧
    a1.root.nodeAt [3] = some n ∧ n.split = true ∧ n.occupied = true ∧
    n.child 0 = some zero_node :=
  ⟨_, _, rfl, rfl, rfl, rfl, rfl⟩

/-! ## Insertion into a free leaf -/

/-- A free leaf that is large enough for a request with positive components
serves it, whatever the arena holds: with fuel `f` such that the width of the
leaf is below `2 ^ f` the helper returns a node, and that node is an occupied
leaf of the requested size at the position of the leaf. -/
theorem helper_free_leaf : ∀ (fuel : Nat) (a : WDL_Arena) (pos n s : WDL_Ivec2),
    1 ≤ s.x → 1 ≤ s.y → s.x ≤ n.x → s.y ≤ n.y → n.x < 2 ^ fuel →
    ∃ a' t' p, quadtree_atlas_insert_helper fuel a (leaf pos n false) s = some (a', t', some p) ∧
      t'.nodeAt p = some (leaf pos s true)
  | 0, _, _, n, s, hx, _, gx, _, hf => by
    simp only [pow_zero] at hf
    omega
  | fuel + 1, a, pos, n, s, hx, hy, gx, gy, hf => by
    rw [helper_succ]
    have hg : ¬ ((leaf pos n false).occupied = true ∨ (leaf pos n false).size.x < s.x ∨
        (leaf pos n false).size.y < s.y) := by
      simp only [QuadtreeAtlasNode.occupied, QuadtreeAtlasNode.size, not_or, not_lt]
      exact ⟨by simp, gx, gy⟩
    rw [if_neg hg]
    simp only
    split
    · rename_i he
      have hs : n = s := by
        cases n; cases s; simp only [WDL_Ivec2.mk.injEq]; exact he
      subst hs
      exact ⟨_, _, [], rfl, rfl⟩
    · split
      · exact ⟨_, _, [0], rfl, rfl⟩
      · rename_i hd
        rw [c_div_two (by omega), c_div_two (by omega)] at hd
        simp only [not_or, not_lt] at hd
        have hp : (2 : Int) ^ (fuel + 1) = 2 * 2 ^ fuel := by ring
        obtain ⟨a', c0', p, h0, hn⟩ := helper_free_leaf fuel (wdl_arena_push_no_zero a).2 pos
          (wdl_iv2_divs n 2) s hx hy hd.1 hd.2 (by simp only [wdl_iv2_divs]; omega)
        refine ⟨a', node pos n false c0'
            (leaf ⟨wrap_i32 (pos.x + (wdl_iv2_divs n 2).x), pos.y⟩ (wdl_iv2_divs n 2) false)
            (leaf ⟨pos.x, wrap_i32 (pos.y + (wdl_iv2_divs n 2).y)⟩ (wdl_iv2_divs n 2) false)
            (leaf (wdl_iv2_add pos (wdl_iv2_divs n 2)) (wdl_iv2_divs n 2) false),
          0 :: p, by simp only [children_loop, h0], ?_⟩
        simpa [QuadtreeAtlasNode.nodeAt, QuadtreeAtlasNode.child] using hn

/-- Claim C12 (first placement at the origin): for every request `(w, h)` with
positive dimensions whose aligned size is at most 1024 in both axes, the first
`quadtree_atlas_insert` into a freshly initialised atlas, over any arena
memory, returns with any fuel of at least 11 and answers with a node that is an
occupied leaf at `(0, 0)` of size
`(align_value_up(w, 4), align_value_up(h, 4))`. -/
theorem first_placement_at_origin (arena : WDL_Arena) (w h : Int)
    (hw : 1 ≤ w) (hw2 : w ≤ 2147483647) (hh : 1 ≤ h) (hh2 : h ≤ 2147483647)
    (haw : align_value_up (to_u32 w) 4 ≤ 1024) (hah : align_value_up (to_u32 h) 4 ≤ 1024)
    (fuel : Nat) (hf : 11 ≤ fuel) :
    ∃ atlas' p, quadtree_atlas_insert fuel (quadtree_atlas_init arena) ⟨w, h⟩
        = some (atlas', some p) ∧
      atlas'.root.nodeAt p =
        some (leaf ⟨0, 0⟩ ⟨to_i32 (align_value_up (to_u32 w) 4),
                           to_i32 (align_value_up (to_u32 h) 4)⟩ true) := by
  have hx : 1 ≤ to_i32 (align_value_up (to_u32 w) 4) ∧
      to_i32 (align_value_up (to_u32 w) 4) ≤ 1024 := by
    unfold to_i32 wrap_i32 align_value_up to_u32 at *
    dsimp only at *
    omega
  have hy : 1 ≤ to_i32 (align_value_up (to_u32 h) 4) ∧
      to_i32 (align_value_up (to_u32 h) 4) ≤ 1024 := by
    unfold to_i32 wrap_i32 align_value_up to_u32 at *
    dsimp only at *
    omega
  obtain ⟨a', t', p, h1, h2⟩ := helper_free_leaf 11 arena ⟨0, 0⟩ ⟨1024, 1024⟩
    (aligned_size ⟨w, h⟩) hx.1 hy.1 hx.2 hy.2 (by norm_num)
  refine ⟨{ arena := a', root := t' }, p, ?_, h2⟩
  have h3 := helper_fuel_mono hf h1
  simp only [quadtree_atlas_insert, quadtree_atlas_init, h3]

/-- Claim C12 at the two requests named by the specification: `(10, 12)` is
placed at `(0, 0)` with size `(12, 12)` and `(600, 600)` at `(0, 0)` with size
`(600, 600)`. -/
theorem first_placement_at_origin_witness :
    ((1 : Int) ≤ 10 ∧ (10 : Int) ≤ 2147483647 ∧ (1 : Int) ≤ 12 ∧ (12 : Int) ≤ 2147483647 ∧
      align_value_up (to_u32 10) 4 ≤ 1024 ∧ align_value_up (to_u32 12) 4 ≤ 1024 ∧ 11 ≤ 11 ∧
      to_i32 (align_value_up (to_u32 10) 4) = 12 ∧ to_i32 (align_value_up (to_u32 12) 4) = 12 ∧
      ∃ atlas' p, quadtree_atlas_insert 11 (quadtree_atlas_init zero_arena) ⟨10, 12⟩
          = some (atlas', some p) ∧
        atlas'.root.nodeAt p =
          some (leaf ⟨0, 0⟩ ⟨to_i32 (align_value_up (to_u32 10) 4),
                             to_i32 (align_value_up (to_u32 12) 4)⟩ true)) ∧
    (to_i32 (align_value_up (to_u32 600) 4) = 600 ∧
      ∃ atlas' p, quadtree_atlas_insert 11 (quadtree_atlas_init zero_arena) ⟨600, 600⟩
          = some (atlas', some p) ∧
        atlas'.root.nodeAt p =
          some (leaf ⟨0, 0⟩ ⟨to_i32 (align_value_up (to_u32 600) 4),
                             to_i32 (align_value_up (to_u32 600) 4)⟩ true)) :=
  ⟨⟨by decide, by decide, by decide, by decide, by decide, by decide, by decide, by decide,
      by decide,
      first_placement_at_origin zero_arena 10 12 (by decide) (by decide) (by decide) (by decide)
        (by decide) (by decide) 11 (by decide)⟩,
    ⟨by decide,
      first_placement_at_origin zero_arena 600 600 (by decide) (by decide) (by decide)
        (by decide) (by decide) (by decide) 11 (by decide)⟩⟩

/-- The dynamic split, as the source performs it on any arena: on a free leaf
that is large enough, is not an exact fit and fails one of the two halving
tests, the helper returns at once (any positive fuel) with child 0 occupied at
the position of the leaf with the requested size, children 1 and 2 the two
strips, and child 3 the fourth slot of the block as the arena held it. -/
theorem dynamic_split_layout (fuel : Nat) (a : WDL_Arena) (pos n s : WDL_Ivec2)
    (hfit : s.x ≤ n.x ∧ s.y ≤ n.y) (hne : ¬ (n.x = s.x ∧ n.y = s.y))
    (hd : c_div n.x 2 < s.x ∨ c_div n.y 2 < s.y) :
    quadtree_atlas_insert_helper (fuel + 1) a (leaf pos n false) s =
      some ({ a with used := a.used + 4 },
        node pos n false
          (leaf pos s true)
          (leaf ⟨wrap_i32 (pos.x + s.x), pos.y⟩ ⟨wrap_i32 (n.x - s.x), s.y⟩ false)
          (leaf ⟨pos.x, wrap_i32 (pos.y + s.y)⟩ ⟨s.x, wrap_i32 (n.y - s.y)⟩ false)
          (a.prior (a.used + 3)),
        some [0]) := by
  rw [helper_succ]
  have hg : ¬ ((leaf pos n false).occupied = true ∨ (leaf pos n false).size.x < s.x ∨
      (leaf pos n false).size.y < s.y) := by
    simp only [QuadtreeAtlasNode.occupied, QuadtreeAtlasNode.size, not_or, not_lt]
    exact ⟨by simp, hfit.1, hfit.2⟩
  rw [if_neg hg]
  simp only
  rw [if_neg hne, if_pos hd]
  rfl

/-- With fuel 1 the helper answers a free leaf with child 0 only through the
dynamic split: the leaf is large enough, is not an exact fit, and one of the
two halving tests fails. -/
theorem dynamic_split_of_one_step {a a' : WDL_Arena} {pos n s : WDL_Ivec2}
    {t' : QuadtreeAtlasNode}
    (h : quadtree_atlas_insert_helper 1 a (leaf pos n false) s = some (a', t', some [0])) :
    (s.x ≤ n.x ∧ s.y ≤ n.y) ∧ ¬ (n.x = s.x ∧ n.y = s.y) ∧
      (c_div n.x 2 < s.x ∨ c_div n.y 2 < s.y) := by
  rw [helper_succ] at h
  split at h
  · simp at h
  · rename_i hg
    simp only [QuadtreeAtlasNode.occupied, QuadtreeAtlasNode.size, not_or, not_lt] at hg
    simp only at h
    split at h
    · simp at h
    · rename_i hne
      split at h
      · rename_i hd
        exact ⟨⟨hg.2.1, hg.2.2⟩, hne, hd⟩
      · simp [children_loop, helper_zero] at h

/-- Claim C13 as stated fails: `quadtree_atlas_insert` does not check its
argument.  On a fresh atlas the request `(0, 1024)` is answered with a node of
size `(0, 1024)`, and the request `(-4, 1024)` with a node of size
`(-4, 1024)`. -/
theorem invalid_size_served :
    (∃ a1, (∀ fuel, quadtree_atlas_insert (fuel + 1) (quadtree_atlas_init zero_arena) ⟨0, 1024⟩
        = some (a1, some [0])) ∧
      a1.root.nodeAt [0] = some (leaf ⟨0, 0⟩ ⟨0, 1024⟩ true)) ∧
    (∃ a1, (∀ fuel, quadtree_atlas_insert (fuel + 1) (quadtree_atlas_init zero_arena) ⟨-4, 1024⟩
        = some (a1, some [0])) ∧
      a1.root.nodeAt [0] = some (leaf ⟨0, 0⟩ ⟨-4, 1024⟩ true)) :=
  ⟨⟨_, fun _ => rfl, rfl⟩, ⟨_, fun _ => rfl, rfl⟩⟩

/-- Claim C13, amended (invalid sizes): a request whose width or height is
zero or negative is aligned and searched like any other; whenever
`quadtree_atlas_insert` answers it with a placement, that placement is an
occupied leaf with the aligned size, and the width or the height of that size
is zero or negative, so that the placement covers no pixel. -/
theorem invalid_size_placement_empty (fuel : Nat) (atlas atlas' : QuadtreeAtlas)
    (size : WDL_Ivec2) (p : List Nat)
    (hrx : -2147483648 ≤ size.x ∧ size.x ≤ 2147483647)
    (hry : -2147483648 ≤ size.y ∧ size.y ≤ 2147483647)
    (hbad : size.x ≤ 0 ∨ size.y ≤ 0)
    (h : quadtree_atlas_insert fuel atlas size = some (atlas', some p)) :
    ∃ pos, atlas'.root.nodeAt p = some (leaf pos (aligned_size size) true) ∧
      ((aligned_size size).x ≤ 0 ∨ (aligned_size size).y ≤ 0) := by
  obtain ⟨ps, hps, -⟩ := helper_returned _ _ _ _ _ _ _ (insert_eq_some h)
  refine ⟨ps, hps, ?_⟩
  unfold aligned_size to_i32 wrap_i32 align_value_up to_u32
  dsimp only
  omega

/-- Claim C13, amended, at the request `(0, 1024)` on a fresh atlas. -/
theorem invalid_size_placement_empty_witness :
    ((-2147483648 : Int) ≤ 0 ∧ (0 : Int) ≤ 2147483647) ∧
    ((-2147483648 : Int) ≤ 1024 ∧ (1024 : Int) ≤ 2147483647) ∧
    ((0 : Int) ≤ 0 ∨ (1024 : Int) ≤ 0) ∧
    quadtree_atlas_insert 1 (quadtree_atlas_init zero_arena) ⟨0, 1024⟩
      = some ({ arena := ⟨fun _ => zero_node, 4⟩,
                root := node ⟨0, 0⟩ ⟨1024, 1024⟩ false (leaf ⟨0, 0⟩ ⟨0, 1024⟩ true)
                  (leaf ⟨0, 0⟩ ⟨1024, 1024⟩ false) (leaf ⟨0, 1024⟩ ⟨0, 0⟩ false) zero_node },
              some [0]) ∧
    ∃ pos, (node ⟨0, 0⟩ ⟨1024, 1024⟩ false (leaf ⟨0, 0⟩ ⟨0, 1024⟩ true)
          (leaf ⟨0, 0⟩ ⟨1024, 1024⟩ false) (leaf ⟨0, 1024⟩ ⟨0, 0⟩ false) zero_node).nodeAt [0]
        = some (leaf pos (aligned_size ⟨0, 1024⟩) true) ∧
      ((aligned_size ⟨0, 1024⟩).x ≤ 0 ∨ (aligned_size ⟨0, 1024⟩).y ≤ 0) :=
  ⟨by decide, by decide, by decide, rfl,
    invalid_size_placement_empty 1 (quadtree_atlas_init zero_arena)
      { arena := ⟨fun _ => zero_node, 4⟩,
        root := node ⟨0, 0⟩ ⟨1024, 1024⟩ false (leaf ⟨0, 0⟩ ⟨0, 1024⟩ true)
          (leaf ⟨0, 0⟩ ⟨1024, 1024⟩ false) (leaf ⟨0, 1024⟩ ⟨0, 0⟩ false) zero_node }
      ⟨0, 1024⟩ [0] (by decide) (by decide) (by decide) rfl⟩

/-- Claim C16 (dynamic-split layout) fails on the code in its statement about
child 3: the dynamic split never writes it.  On a fresh atlas whose arena
holds a stale 600 x 600 node in the fourth slot of the block, the request
`(600, 600)` splits the root as the claim says for children 0, 1 and 2, and
child 3 is that stale node, not a zero-sized one. -/
theorem dynamic_split_stale_child : ∃ a1,
    (∀ fuel, quadtree_atlas_insert_helper (fuel + 1)
        (stale_arena (leaf ⟨0, 0⟩ ⟨600, 600⟩ false)) (leaf ⟨0, 0⟩ ⟨1024, 1024⟩ false) ⟨600, 600⟩
      = some (a1,
          node ⟨0, 0⟩ ⟨1024, 1024⟩ false
            (leaf ⟨0, 0⟩ ⟨600, 600⟩ true)
            (leaf ⟨600, 0⟩ ⟨424, 600⟩ false)
            (leaf ⟨0, 600⟩ ⟨600, 424⟩ false)
            (leaf ⟨0, 0⟩ ⟨600, 600⟩ false),
          some [0])) ∧
    (leaf ⟨0, 0⟩ ⟨600, 600⟩ false).size ≠ ⟨0, 0⟩ :=
  ⟨_, fun _ => rfl, by decide⟩

/-- Claim C20 as stated fails when only one of the two halving tests triggers
the dynamic split: the request `(4, 600)` splits the fresh root (size
`(1024, 1024)`) dynamically, and the region left without a child has size
`(1020, 424)`, wider than the request and of a larger area. -/
theorem dead_space_exceeds_request : ∃ a1 t1,
    quadtree_atlas_insert_helper 1 zero_arena (leaf ⟨0, 0⟩ ⟨1024, 1024⟩ false) ⟨4, 600⟩
      = some (a1, t1, some [0]) ∧
    t1.child 1 = some (leaf ⟨4, 0⟩ ⟨1020, 600⟩ false) ∧
    t1.child 2 = some (leaf ⟨0, 600⟩ ⟨4, 424⟩ false) ∧
    dead_space ⟨1024, 1024⟩ ⟨4, 600⟩ = ⟨1020, 424⟩ ∧
    ¬ ((dead_space ⟨1024, 1024⟩ ⟨4, 600⟩).x ≤ 4) ∧
    ¬ (area (dead_space ⟨1024, 1024⟩ ⟨4, 600⟩) ≤ area ⟨4, 600⟩) :=
  ⟨_, _, rfl, rfl, rfl, rfl, by decide, by decide⟩

/-- Claim C20, amended (dead space): for every dynamic split of a free leaf of
size `n` triggered by a request `s` with non-negative components, the region
left without a child, of size `n - s`, is narrower than the request in every
axis whose halving test triggered the split: its width is below `s.x` when
`n.x / 2 < s.x`, its height is below `s.y` when `n.y / 2 < s.y`, and one of the
two holds.  When both tests trigger, its area is at most `s.x * s.y`. -/
theorem dead_space_bound (a a' : WDL_Arena) (pos n s : WDL_Ivec2) (t' : QuadtreeAtlasNode)
    (hs : 0 ≤ s.x ∧ 0 ≤ s.y)
    (h : quadtree_atlas_insert_helper 1 a (leaf pos n false) s = some (a', t', some [0])) :
    ((dead_space n s).x < s.x ∨ (dead_space n s).y < s.y) ∧
    (c_div n.x 2 < s.x → 0 ≤ (dead_space n s).x ∧ (dead_space n s).x < s.x) ∧
    (c_div n.y 2 < s.y → 0 ≤ (dead_space n s).y ∧ (dead_space n s).y < s.y) ∧
    (c_div n.x 2 < s.x → c_div n.y 2 < s.y → area (dead_space n s) ≤ area s) := by
  obtain ⟨⟨gx, gy⟩, -, hd⟩ := dynamic_split_of_one_step h
  have ex := c_div_two (show 0 ≤ n.x by omega)
  have ey := c_div_two (show 0 ≤ n.y by omega)
  rw [ex, ey] at hd
  rw [ex, ey]
  simp only [dead_space, area]
  refine ⟨by omega, fun hx => by omega, fun hy => by omega, fun hx hy => ?_⟩
  have h1 : 0 ≤ n.x - s.x ∧ n.x - s.x ≤ s.x := by omega
  have h2 : 0 ≤ n.y - s.y ∧ n.y - s.y ≤ s.y := by omega
  exact mul_le_mul h1.2 h2.2 h2.1 hs.1

/-- Claim C20, amended, at the request `(600, 600)` on the fresh root, where
both tests trigger: the dead region has size `(424, 424)`. -/
theorem dead_space_bound_witness :
    ((0 : Int) ≤ 600 ∧ (0 : Int) ≤ 600) ∧
    quadtree_atlas_insert_helper 1 zero_arena (leaf ⟨0, 0⟩ ⟨1024, 1024⟩ false) ⟨600, 600⟩
      = some (atlas_600.arena, atlas_600.root, some [0]) ∧
    (((dead_space ⟨1024, 1024⟩ ⟨600, 600⟩).x < 600 ∨ (dead_space ⟨1024, 1024⟩ ⟨600, 600⟩).y < 600) ∧
    (c_div 1024 2 < 600 → 0 ≤ (dead_space ⟨1024, 1024⟩ ⟨600, 600⟩).x ∧
      (dead_space ⟨1024, 1024⟩ ⟨600, 600⟩).x < 600) ∧
    (c_div 1024 2 < 600 → 0 ≤ (dead_space ⟨1024, 1024⟩ ⟨600, 600⟩).y ∧
      (dead_space ⟨1024, 1024⟩ ⟨600, 600⟩).y < 600) ∧
    (c_div 1024 2 < 600 → c_div 1024 2 < 600 →
      area (dead_space ⟨1024, 1024⟩ ⟨600, 600⟩) ≤ area ⟨600, 600⟩)) :=
  ⟨by decide, rfl,
    dead_space_bound zero_arena atlas_600.arena ⟨0, 0⟩ ⟨1024, 1024⟩ ⟨600, 600⟩ atlas_600.root
      (by decide) rfl⟩

/-- The dynamic split over zero-filled memory and without wrap-around: the
layout of claim C16, with child 3 the zero node. -/
theorem dynamic_split_layout_zero_filled (fuel : Nat) (a : WDL_Arena) (pos n s : WDL_Ivec2)
    (hz : zero_filled a) (hs : 0 ≤ s.x ∧ 0 ≤ s.y)
    (hn : n.x ≤ 2147483647 ∧ n.y ≤ 2147483647)
    (hp : -2147483648 ≤ pos.x ∧ pos.x + n.x ≤ 2147483647 ∧
      -2147483648 ≤ pos.y ∧ pos.y + n.y ≤ 2147483647)
    (hfit : s.x ≤ n.x ∧ s.y ≤ n.y) (hne : ¬ (n.x = s.x ∧ n.y = s.y))
    (hd : c_div n.x 2 < s.x ∨ c_div n.y 2 < s.y) :
    quadtree_atlas_insert_helper (fuel + 1) a (leaf pos n false) s =
      some ({ a with used := a.used + 4 },
        node pos n false
          (leaf pos s true)
          (leaf ⟨pos.x + s.x, pos.y⟩ ⟨n.x - s.x, s.y⟩ false)
          (leaf ⟨pos.x, pos.y + s.y⟩ ⟨s.x, n.y - s.y⟩ false)
          zero_node,
        some [0]) := by
  rw [dynamic_split_layout fuel a pos n s hfit hne hd, hz,
    wrap_i32_eq (z := pos.x + s.x) (by omega) (by omega),
    wrap_i32_eq (z := pos.y + s.y) (by omega) (by omega),
    wrap_i32_eq (z := n.x - s.x) (by omega) (by omega),
    wrap_i32_eq (z := n.y - s.y) (by omega) (by omega)]

/-- The depth invariant is kept by the helper on zero-filled memory, for a
request whose components are at least `m`. -/
theorem helper_depth_ok (m : Int) (hm : 1 ≤ m) : ∀ (fuel : Nat) (d : Nat) (a : WDL_Arena)
    (n : QuadtreeAtlasNode) (s : WDL_Ivec2) (a' : WDL_Arena) (n' : QuadtreeAtlasNode)
    (r : Option (List Nat)),
    m ≤ s.x → m ≤ s.y → zero_filled a →
    quadtree_atlas_insert_helper fuel a n s = some (a', n', r) →
    zero_filled a' ∧ (depth_ok m d n → depth_ok m d n')
  | 0, _, _, _, _, _, _, _, _, _, _, h => by simp [quadtree_atlas_insert_helper] at h
  | fuel + 1, d, a, n, s, a', n', r, hx, hy, hz, h => by
    have ih := fun a c a' c' r (hz : zero_filled a)
        (hh : quadtree_atlas_insert_helper fuel a c s = some (a', c', r)) =>
      helper_depth_ok m hm fuel (d + 1) a c s a' c' r hx hy hz hh
    have ed : m * (((d + 1 : Nat) : Int)) = m * (d : Int) + m := by push_cast; ring
    have ed2 : m * (((d + 1 : Nat) : Int) + 1) = m * (d : Int) + m + m := by push_cast; ring
    have hd0 : 0 ≤ m * (d : Int) := mul_nonneg (by omega) (Int.ofNat_nonneg d)
    rw [helper_succ] at h
    split at h
    · simp only [Option.some.injEq, Prod.mk.injEq] at h
      obtain ⟨rfl, rfl, -⟩ := h
      exact ⟨hz, id⟩
    · rename_i hg
      simp only [not_or, not_lt] at hg
      cases n with
      | leaf pos nsize occ =>
        obtain ⟨g0, gx, gy⟩ := hg
        have ho : occ = false := by simpa [QuadtreeAtlasNode.occupied] using g0
        subst ho
        replace gx : s.x ≤ nsize.x := gx
        replace gy : s.y ≤ nsize.y := gy
        simp only at h
        split at h
        · simp only [Option.some.injEq, Prod.mk.injEq] at h
          obtain ⟨rfl, rfl, -⟩ := h
          refine ⟨hz, fun hok => ?_⟩
          obtain ⟨b1, b2, b3, -⟩ := hok
          exact ⟨b1, b2, b3, fun h => by simp at h⟩
        · split at h
          · simp only [Option.some.injEq, Prod.mk.injEq] at h
            obtain ⟨rfl, rfl, -⟩ := h
            refine ⟨(zero_filled_push hz).1, fun hok => ?_⟩
            rw [(zero_filled_push hz).2]
            obtain ⟨b1, b2, -, b4⟩ := hok
            have b5 := b4 rfl (by omega) (by omega)
            have w1 : wrap_i32 (nsize.x - s.x) = nsize.x - s.x := wrap_i32_eq (by omega) (by omega)
            have w2 : wrap_i32 (nsize.y - s.y) = nsize.y - s.y := wrap_i32_eq (by omega) (by omega)
            simp only [depth_ok, zero_node, w1, w2, ed, ed2, true_and]
            refine ⟨by omega, by omega, by omega,
              ⟨by omega, by omega, Or.inr (by omega), fun h => by simp at h⟩,
              ⟨by omega, by omega, Or.inr (by omega), fun _ _ _ => by omega⟩,
              ⟨by omega, by omega, Or.inr (by omega), fun _ _ _ => by omega⟩,
              ⟨le_refl _, le_refl _, Or.inr (by omega), fun _ _ _ => by omega⟩⟩
          · rename_i hd
            obtain ⟨c0', c1', c2', c3', rfl, hz', r0, r1, r2, r3⟩ :=
              children_loop_rel (A := zero_filled)
                (R := fun c c' => depth_ok m (d + 1) c → depth_ok m (d + 1) c')
                (fun c => id) ih (zero_filled_push hz).1 h
            refine ⟨hz', fun hok => ?_⟩
            obtain ⟨b1, b2, -, b4⟩ := hok
            have b5 := b4 rfl (by omega) (by omega)
            rw [c_div_two b1, c_div_two b2] at hd
            simp only [not_or, not_lt] at hd
            have hleaf : ∀ p, depth_ok m (d + 1) (leaf p (wdl_iv2_divs nsize 2) false) := by
              intro p
              simp only [depth_ok, wdl_iv2_divs, ed, ed2]
              exact ⟨by omega, by omega, Or.inr (by omega), fun _ _ _ => by omega⟩
            exact ⟨rfl, by omega, by omega, b5, r0 (hleaf _), r1 (hleaf _), r2 (hleaf _),
              r3 (hleaf _)⟩
      | node pos nsize occ c0 c1 c2 c3 =>
        simp only at h
        obtain ⟨c0', c1', c2', c3', rfl, hz', r0, r1, r2, r3⟩ :=
          children_loop_rel (A := zero_filled)
            (R := fun c c' => depth_ok m (d + 1) c → depth_ok m (d + 1) c')
            (fun c => id) ih hz h
        refine ⟨hz', fun hok => ?_⟩
        obtain ⟨ho, b1, b2, b3, k0, k1, k2, k3⟩ := hok
        exact ⟨ho, b1, b2, b3, r0 k0, r1 k1, r2 k2, r3 k3⟩

theorem reachable_depth_ok (m : Int) (hm : 1 ≤ m) {a0 : WDL_Arena} (hz : zero_filled a0)
    {atlas : QuadtreeAtlas} (hr : Reachable (at_least m) a0 atlas) :
    zero_filled atlas.arena ∧ depth_ok m 0 atlas.root := by
  induction hr with
  | init =>
    refine ⟨hz, ?_⟩
    show depth_ok m 0 (leaf ⟨0, 0⟩ ⟨1024, 1024⟩ false)
    exact ⟨by decide, by decide, Or.inl rfl, fun _ _ _ => by simp⟩
  | insert _ hok hins ih =>
    have hh := helper_depth_ok m hm _ 0 _ _ _ _ _ _ hok.1 hok.2 ih.1 (insert_eq_some hins)
    exact ⟨hh.1, hh.2 ih.2⟩

/-- Under the depth invariant a node reached by the path `p` from a subtree
at depth `d` lies at a depth `d + |p|` bounded through `m`. -/
theorem depth_ok_nodeAt (m : Int) (hm : 1 ≤ m) : ∀ (p : List Nat) (d : Nat)
    {t n : QuadtreeAtlasNode}, depth_ok m d t → t.nodeAt p = some n →
    d + p.length = 0 ∨ m * (((d + p.length : Nat) : Int) + 1) ≤ 2048
  | [], d, t, n, h, _ => by
    have hd0 : 0 ≤ m * (d : Int) := mul_nonneg (by omega) (Int.ofNat_nonneg d)
    have e : m * ((d : Int) + 1) = m * (d : Int) + m := by ring
    cases t with
    | leaf _ s o =>
      obtain ⟨-, -, b3, -⟩ := h
      rcases b3 with b3 | b3
      · exact Or.inl (by simpa using b3)
      · exact Or.inr (by simpa using b3)
    | node _ s o c0 c1 c2 c3 =>
      obtain ⟨-, b1, b2, b3, -⟩ := h
      refine Or.inr ?_
      simp only [List.length_nil, Nat.add_zero, e]
      omega
  | i :: p, d, leaf _ _ _, n, _, hn => by
    simp [QuadtreeAtlasNode.nodeAt, QuadtreeAtlasNode.child] at hn
  | i :: p, d, node _ _ _ c0 c1 c2 c3, n, h, hn => by
    obtain ⟨-, -, -, -, k0, k1, k2, k3⟩ := h
    have e : d + (i :: p).length = (d + 1) + p.length := by
      simp only [List.length_cons]; omega
    rw [e]
    match i, hn with
    | 0, hn =>
      exact depth_ok_nodeAt m hm p (d + 1) k0
        (by simpa [QuadtreeAtlasNode.nodeAt, QuadtreeAtlasNode.child] using hn)
    | 1, hn =>
      exact depth_ok_nodeAt m hm p (d + 1) k1
        (by simpa [QuadtreeAtlasNode.nodeAt, QuadtreeAtlasNode.child] using hn)
    | 2, hn =>
      exact depth_ok_nodeAt m hm p (d + 1) k2
        (by simpa [QuadtreeAtlasNode.nodeAt, QuadtreeAtlasNode.child] using hn)
    | 3, hn =>
      exact depth_ok_nodeAt m hm p (d + 1) k3
        (by simpa [QuadtreeAtlasNode.nodeAt, QuadtreeAtlasNode.child] using hn)
    | (k + 4), hn => simp [QuadtreeAtlasNode.nodeAt, QuadtreeAtlasNode.child] at hn

/-- Claim C17 as stated fails: over zero-filled memory the requests `(4, 600)`
and `(4, 4)` (aligned to themselves, smallest area 16, and
`1024 * 1024 = 4 ^ 8 * 16`, so that the claimed bound is 8) put the second
placement at the path `[1, 0, 0, 0, 0, 0, 0, 0, 0]`, at depth 9. -/
theorem depth_exceeds_log_bound : ∃ a1 a2,
    quadtree_atlas_insert 1 (quadtree_atlas_init zero_arena) ⟨4, 600⟩ = some (a1, some [0]) ∧
    quadtree_atlas_insert 10 a1 ⟨4, 4⟩ = some (a2, some [1, 0, 0, 0, 0, 0, 0, 0, 0]) ∧
    aligned_size ⟨4, 600⟩ = ⟨4, 600⟩ ∧ aligned_size ⟨4, 4⟩ = ⟨4, 4⟩ ∧
    a2.root.nodeAt [1, 0, 0, 0, 0, 0, 0, 0, 0] = some (leaf ⟨4, 0⟩ ⟨4, 4⟩ true) ∧
    area ⟨1024, 1024⟩ = 4 ^ 8 * area ⟨4, 4⟩ ∧ area ⟨4, 4⟩ ≤ area ⟨4, 600⟩ ∧
    8 < [1, 0, 0, 0, 0, 0, 0, 0, 0].length :=
  ⟨_, _, rfl, rfl, rfl, rfl, rfl, by decide, by decide, by decide⟩

/-- Claim C17, amended (depth bound): for every atlas reached from a fresh
1024 x 1024 atlas over zero-filled arena memory by insertions whose aligned
width and height are all at least `m`, with `m >= 1`, every node below the
root lies at a depth `d` with `m * (d + 1) <= 2048`, the width plus the height
of the canvas: at depth at most `2048 / m - 1`, which is 511 when the smallest
aligned request is 4 x 4. -/
theorem depth_bound (m : Int) (hm : 1 ≤ m) (a0 : WDL_Arena) (hz : zero_filled a0)
    (atlas : QuadtreeAtlas) (hr : Reachable (at_least m) a0 atlas)
    (p : List Nat) (n : QuadtreeAtlasNode) (hn : atlas.root.nodeAt p = some n) :
    p = [] ∨ m * ((p.length : Int) + 1) ≤ 2048 := by
  rcases depth_ok_nodeAt m hm p 0 (reachable_depth_ok m hm hz hr).2 hn with h | h
  · left
    simp only [Nat.zero_add] at h
    exact List.length_eq_zero.mp h
  · right
    simpa using h

/-- Claim C17, amended, on the atlas that holds one 600 x 600 placement, with
`m = 4`: its nodes `[0]` to `[3]` lie at depth 1. -/
theorem depth_bound_witness :
    (1 : Int) ≤ 4 ∧ zero_filled zero_arena ∧ Reachable (at_least 4) zero_arena atlas_600 ∧
    atlas_600.root.nodeAt [1] = some (leaf ⟨600, 0⟩ ⟨424, 600⟩ false) ∧
    ([1] = ([] : List Nat) ∨ (4 : Int) * ((([1] : List Nat).length : Int) + 1) ≤ 2048) :=
  ⟨by decide, zero_filled_zero_arena,
    @Reachable.insert (at_least 4) zero_arena (quadtree_atlas_init zero_arena) atlas_600 1
      ⟨600, 600⟩ (some [0]) Reachable.init (by decide) rfl,
    rfl,
    depth_bound 4 (by decide) zero_arena zero_filled_zero_arena atlas_600
      (@Reachable.insert (at_least 4) zero_arena (quadtree_atlas_init zero_arena) atlas_600 1
        ⟨600, 600⟩ (some [0]) Reachable.init (by decide) rfl)
      [1] (leaf ⟨600, 0⟩ ⟨424, 600⟩ false) rfl⟩

/-! ## Termination -/

/-- For a request whose two components are negative the helper never returns
on a free leaf of non-negative size: the leaf is split evenly and the search
moves to its first child, again such a leaf, without end. -/
theorem helper_negative_diverges : ∀ (fuel : Nat) (a : WDL_Arena) (pos n s : WDL_Ivec2),
    s.x < 0 → s.y < 0 → 0 ≤ n.x → 0 ≤ n.y →
    quadtree_atlas_insert_helper fuel a (leaf pos n false) s = none
  | 0, _, _, _, _, _, _, _, _ => rfl
  | fuel + 1, a, pos, n, s, hx, hy, nx, ny => by
    rw [helper_succ]
    have hg : ¬ ((leaf pos n false).occupied = true ∨ (leaf pos n false).size.x < s.x ∨
        (leaf pos n false).size.y < s.y) := by
      simp only [QuadtreeAtlasNode.occupied, QuadtreeAtlasNode.size, not_or, not_lt]
      exact ⟨by simp, by omega, by omega⟩
    have hne : ¬ (n.x = s.x ∧ n.y = s.y) := by omega
    have hnd : ¬ (c_div n.x 2 < s.x ∨ c_div n.y 2 < s.y) := by
      rw [c_div_two nx, c_div_two ny]
      omega
    rw [if_neg hg]
    simp only
    rw [if_neg hne, if_neg hnd]
    have h0 := helper_negative_diverges fuel (wdl_arena_push_no_zero a).2 pos
      (wdl_iv2_divs n 2) s hx hy (by simp only [wdl_iv2_divs]; omega)
      (by simp only [wdl_iv2_divs]; omega)
    simp only [children_loop, h0]

/-- Claim C18 as stated fails: on a fresh atlas the request `(-4, -4)` makes
the helper recurse without end (no amount of fuel lets the call return), and
so does the request `(2147483647, 2147483647)`, whose aligned size is
`(-2147483648, -2147483648)`. -/
theorem insert_diverges :
    (∀ fuel, quadtree_atlas_insert fuel (quadtree_atlas_init zero_arena) ⟨-4, -4⟩ = none) ∧
    (∀ fuel, quadtree_atlas_insert fuel (quadtree_atlas_init zero_arena)
      ⟨2147483647, 2147483647⟩ = none) ∧
    aligned_size ⟨-4, -4⟩ = ⟨-4, -4⟩ ∧
    aligned_size ⟨2147483647, 2147483647⟩ = ⟨-2147483648, -2147483648⟩ := by
  have e1 : aligned_size ⟨-4, -4⟩ = ⟨-4, -4⟩ := by decide
  have e2 : aligned_size ⟨2147483647, 2147483647⟩ = ⟨-2147483648, -2147483648⟩ := by decide
  refine ⟨fun fuel => ?_, fun fuel => ?_, e1, e2⟩
  · simp only [quadtree_atlas_insert, quadtree_atlas_init, e1]
    rw [helper_negative_diverges fuel zero_arena ⟨0, 0⟩ ⟨1024, 1024⟩ ⟨-4, -4⟩
      (by decide) (by decide) (by decide) (by decide)]
  · simp only [quadtree_atlas_insert, quadtree_atlas_init, e2]
    rw [helper_negative_diverges fuel zero_arena ⟨0, 0⟩ ⟨1024, 1024⟩ ⟨-2147483648, -2147483648⟩
      (by decide) (by decide) (by decide) (by decide)]

/-- The helper keeps the sizes of the leaves within the range of `int`, when the
slots of the arena and the request are in that range. -/
theorem helper_int_sized : ∀ (fuel : Nat) (a : WDL_Arena) (n : QuadtreeAtlasNode)
    (s : WDL_Ivec2) (a' : WDL_Arena) (n' : QuadtreeAtlasNode) (r : Option (List Nat)),
    s.x ≤ 2147483647 → (∀ k, int_sized (a.prior k)) →
    quadtree_atlas_insert_helper fuel a n s = some (a', n', r) →
    (∀ k, int_sized (a'.prior k)) ∧ (int_sized n → int_sized n')
  | 0, _, _, _, _, _, _, _, _, h => by simp [quadtree_atlas_insert_helper] at h
  | fuel + 1, a, n, s, a', n', r, hs, hz, h => by
    have ih := fun a c a' c' r (hz : ∀ k, int_sized (a.prior k))
        (hh : quadtree_atlas_insert_helper fuel a c s = some (a', c', r)) =>
      helper_int_sized fuel a c s a' c' r hs hz hh
    have hw : ∀ z, wrap_i32 z ≤ 2147483647 := by
      intro z
      unfold wrap_i32
      omega
    rw [helper_succ] at h
    split at h
    · simp only [Option.some.injEq, Prod.mk.injEq] at h
      obtain ⟨rfl, rfl, -⟩ := h
      exact ⟨hz, id⟩
    · cases n with
      | leaf pos nsize occ =>
        simp only at h
        split at h
        · simp only [Option.some.injEq, Prod.mk.injEq] at h
          obtain ⟨rfl, rfl, -⟩ := h
          exact ⟨hz, id⟩
        · split at h
          · simp only [Option.some.injEq, Prod.mk.injEq] at h
            obtain ⟨rfl, rfl, -⟩ := h
            exact ⟨fun k => hz k, fun _ => ⟨hs, hw _, hs, hz _⟩⟩
          · obtain ⟨c0', c1', c2', c3', rfl, hz', r0, r1, r2, r3⟩ :=
              children_loop_rel (A := fun a => ∀ k, int_sized (a.prior k))
                (R := fun c c' => int_sized c → int_sized c')
                (fun c => id) ih
                (show ∀ k, int_sized ((wdl_arena_push_no_zero a).2.prior k) from fun k => hz k) h
            refine ⟨hz', fun hok => ?_⟩
            have hb : nsize.x ≤ 2147483647 := hok
            have hleaf : ∀ p, int_sized (leaf p (wdl_iv2_divs nsize 2) false) := by
              intro p
              simp only [int_sized, wdl_iv2_divs]
              omega
            exact ⟨r0 (hleaf _), r1 (hleaf _), r2 (hleaf _), r3 (hleaf _)⟩
      | node pos nsize occ c0 c1 c2 c3 =>
        simp only at h
        obtain ⟨c0', c1', c2', c3', rfl, hz', r0, r1, r2, r3⟩ :=
          children_loop_rel (A := fun a => ∀ k, int_sized (a.prior k))
            (R := fun c c' => int_sized c → int_sized c')
            (fun c => id) ih hz h
        exact ⟨hz', fun hok => ⟨r0 hok.1, r1 hok.2.1, r2 hok.2.2.1, r3 hok.2.2.2⟩⟩

theorem aligned_size_le (size : WDL_Ivec2) : (aligned_size size).x ≤ 2147483647 := by
  unfold aligned_size to_i32 wrap_i32
  dsimp only
  omega

theorem reachable_int_sized {ok : WDL_Ivec2 → Prop} {a0 : WDL_Arena}
    (hz : ∀ k, int_sized (a0.prior k)) {atlas : QuadtreeAtlas} (hr : Reachable ok a0 atlas) :
    (∀ k, int_sized (atlas.arena.prior k)) ∧ int_sized atlas.root := by
  induction hr with
  | init =>
    refine ⟨hz, ?_⟩
    show int_sized (leaf ⟨0, 0⟩ ⟨1024, 1024⟩ false)
    simp only [int_sized]
    decide
  | insert _ _ hins ih =>
    have hh := helper_int_sized _ _ _ _ _ _ _ (aligned_size_le _) ih.1 (insert_eq_some hins)
    exact ⟨hh.1, hh.2 ih.2⟩

/-- For a request with positive components the helper returns on every tree
whose leaves have sizes in the range of `int`, once the fuel is at least the
depth of the tree plus 32. -/
theorem helper_terminates : ∀ (fuel : Nat) (a : WDL_Arena) (t : QuadtreeAtlasNode)
    (s : WDL_Ivec2), 1 ≤ s.x → 1 ≤ s.y → int_sized t → t.depth + 32 ≤ fuel →
    ∃ a' t' r, quadtree_atlas_insert_helper fuel a t s = some (a', t', r)
  | 0, _, _, _, _, _, _, hf => by omega
  | fuel + 1, a, t, s, hx, hy, hok, hf => by
    cases t with
    | leaf pos n occ =>
      by_cases hg : (leaf pos n occ).occupied = true ∨ (leaf pos n occ).size.x < s.x ∨
          (leaf pos n occ).size.y < s.y
      · exact ⟨a, _, none, by rw [helper_succ, if_pos hg]⟩
      · simp only [QuadtreeAtlasNode.occupied, QuadtreeAtlasNode.size, not_or, not_lt] at hg
        obtain ⟨g0, gx, gy⟩ := hg
        have ho : occ = false := by simpa using g0
        subst ho
        have hb : n.x ≤ 2147483647 := hok
        obtain ⟨a', t', p, h1, -⟩ := helper_free_leaf 32 a pos n s hx hy gx gy
          (by norm_num; omega)
        exact ⟨a', t', some p, helper_fuel_mono (by omega) h1⟩
    | node pos n occ c0 c1 c2 c3 =>
      rw [helper_succ]
      split
      · exact ⟨_, _, _, rfl⟩
      · simp only [QuadtreeAtlasNode.depth] at hf
        obtain ⟨k0, k1, k2, k3⟩ := hok
        have t0 : ∀ a : WDL_Arena, ∃ a' c' r,
            quadtree_atlas_insert_helper fuel a c0 s = some (a', c', r) ∧ (False → r ≠ none) :=
          fun a => (helper_terminates fuel a c0 s hx hy k0 (by omega)).imp
            fun _ h => h.imp fun _ h => h.imp fun _ h => ⟨h, False.elim⟩
        have t1 : ∀ a : WDL_Arena, ∃ a' c' r,
            quadtree_atlas_insert_helper fuel a c1 s = some (a', c', r) ∧ (False → r ≠ none) :=
          fun a => (helper_terminates fuel a c1 s hx hy k1 (by omega)).imp
            fun _ h => h.imp fun _ h => h.imp fun _ h => ⟨h, False.elim⟩
        have t2 : ∀ a : WDL_Arena, ∃ a' c' r,
            quadtree_atlas_insert_helper fuel a c2 s = some (a', c', r) ∧ (False → r ≠ none) :=
          fun a => (helper_terminates fuel a c2 s hx hy k2 (by omega)).imp
            fun _ h => h.imp fun _ h => h.imp fun _ h => ⟨h, False.elim⟩
        have t3 : ∀ a : WDL_Arena, ∃ a' c' r,
            quadtree_atlas_insert_helper fuel a c3 s = some (a', c', r) ∧ (False → r ≠ none) :=
          fun a => (helper_terminates fuel a c3 s hx hy k3 (by omega)).imp
            fun _ h => h.imp fun _ h => h.imp fun _ h => ⟨h, False.elim⟩
        obtain ⟨a', t', r, hl, -⟩ := children_loop_total
          (fun a c => quadtree_atlas_insert_helper fuel a c s) pos n occ t0 t1 t2 t3 a
        exact ⟨a', t', r, hl⟩

theorem int_sized_zero_arena : ∀ k, int_sized (zero_arena.prior k) := fun _ => by
  show (0 : Int) ≤ 2147483647
  decide

theorem int_sized_of_zero_filled {a : WDL_Arena} (hz : zero_filled a) :
    ∀ k, int_sized (a.prior k) := fun k => by
  rw [hz k]
  show (0 : Int) ≤ 2147483647
  decide

/-- Claim C18, amended (termination): for every atlas reached from a fresh
atlas over zero-filled arena memory by any requests, and every requested size
whose aligned width and height are positive (width and height in
`1 .. 2147483644`), the recursion of the helper terminates:
`quadtree_atlas_insert` returns with any fuel of at least the depth of the tree
plus 32. -/
theorem insert_terminates (a0 : WDL_Arena) (hz : zero_filled a0)
    (atlas : QuadtreeAtlas) (hr : Reachable (fun _ => True) a0 atlas) (size : WDL_Ivec2)
    (hx : 1 ≤ (aligned_size size).x) (hy : 1 ≤ (aligned_size size).y)
    (fuel : Nat) (hf : atlas.root.depth + 32 ≤ fuel) :
    ∃ atlas' r, quadtree_atlas_insert fuel atlas size = some (atlas', r) := by
  obtain ⟨a', t', r, hh⟩ := helper_terminates fuel atlas.arena atlas.root (aligned_size size)
    hx hy (reachable_int_sized (int_sized_of_zero_filled hz) hr).2 hf
  exact ⟨{ arena := a', root := t' }, r, by simp only [quadtree_atlas_insert, hh]⟩

/-- Claim C18, amended, at the request `(10, 12)` on the atlas that holds one
600 x 600 placement. -/
theorem insert_terminates_witness :
    zero_filled zero_arena ∧
    Reachable (fun _ => True) zero_arena atlas_600 ∧
    1 ≤ (aligned_size ⟨10, 12⟩).x ∧ 1 ≤ (aligned_size ⟨10, 12⟩).y ∧
    atlas_600.root.depth + 32 ≤ 33 ∧
    ∃ atlas' r, quadtree_atlas_insert 33 atlas_600 ⟨10, 12⟩ = some (atlas', r) :=
  ⟨zero_filled_zero_arena,
    @Reachable.insert (fun _ => True) zero_arena (quadtree_atlas_init zero_arena) atlas_600 1
      ⟨600, 600⟩ (some [0]) Reachable.init trivial rfl,
    by decide, by decide, by decide,
    insert_terminates zero_arena zero_filled_zero_arena atlas_600
      (@Reachable.insert (fun _ => True) zero_arena (quadtree_atlas_init zero_arena) atlas_600 1
        ⟨600, 600⟩ (some [0]) Reachable.init trivial rfl)
      ⟨10, 12⟩ (by decide) (by decide) 33 (by decide)⟩

/-! ## Dependence on the memory of the arena -/

/-- On two arenas with zero-filled memory the loop behaves alike when every
recursive call does. -/
theorem children_loop_zero_filled
    {rec : WDL_Arena → QuadtreeAtlasNode → Option HelperResult}
    (hrec : ∀ a b c, zero_filled a → zero_filled b →
      (rec a c = none ∧ rec b c = none) ∨
      ∃ a' b' c' r, rec a c = some (a', c', r) ∧ rec b c = some (b', c', r) ∧
        zero_filled a' ∧ zero_filled b')
    (a b : WDL_Arena) (pos size : WDL_Ivec2) (occ : Bool) (c0 c1 c2 c3 : QuadtreeAtlasNode)
    (ha : zero_filled a) (hb : zero_filled b) :
    (children_loop rec a pos size occ c0 c1 c2 c3 = none ∧
      children_loop rec b pos size occ c0 c1 c2 c3 = none) ∨
    ∃ a' b' t' r, children_loop rec a pos size occ c0 c1 c2 c3 = some (a', t', r) ∧
      children_loop rec b pos size occ c0 c1 c2 c3 = some (b', t', r) ∧
      zero_filled a' ∧ zero_filled b' := by
  rcases hrec a b c0 ha hb with ⟨e0, f0⟩ | ⟨a0, b0, c0', r0, e0, f0, ha0, hb0⟩
  · exact Or.inl ⟨by simp only [children_loop, e0], by simp only [children_loop, f0]⟩
  cases r0 with
  | some p =>
    exact Or.inr ⟨a0, b0, node pos size occ c0' c1 c2 c3, some (0 :: p),
      by simp only [children_loop, e0], by simp only [children_loop, f0], ha0, hb0⟩
  | none =>
    rcases hrec a0 b0 c1 ha0 hb0 with ⟨e1, f1⟩ | ⟨a1, b1, c1', r1, e1, f1, ha1, hb1⟩
    · exact Or.inl ⟨by simp only [children_loop, e0, e1], by simp only [children_loop, f0, f1]⟩
    cases r1 with
    | some p =>
      exact Or.inr ⟨a1, b1, node pos size occ c0' c1' c2 c3, some (1 :: p),
        by simp only [children_loop, e0, e1], by simp only [children_loop, f0, f1], ha1, hb1⟩
    | none =>
      rcases hrec a1 b1 c2 ha1 hb1 with ⟨e2, f2⟩ | ⟨a2, b2, c2', r2, e2, f2, ha2, hb2⟩
      · exact Or.inl ⟨by simp only [children_loop, e0, e1, e2],
          by simp only [children_loop, f0, f1, f2]⟩
      cases r2 with
      | some p =>
        exact Or.inr ⟨a2, b2, node pos size occ c0' c1' c2' c3, some (2 :: p),
          by simp only [children_loop, e0, e1, e2], by simp only [children_loop, f0, f1, f2],
          ha2, hb2⟩
      | none =>
        rcases hrec a2 b2 c3 ha2 hb2 with ⟨e3, f3⟩ | ⟨a3, b3, c3', r3, e3, f3, ha3, hb3⟩
        · exact Or.inl ⟨by simp only [children_loop, e0, e1, e2, e3],
            by simp only [children_loop, f0, f1, f2, f3]⟩
        cases r3 with
        | some p =>
          exact Or.inr ⟨a3, b3, node pos size occ c0' c1' c2' c3', some (3 :: p),
            by simp only [children_loop, e0, e1, e2, e3],
            by simp only [children_loop, f0, f1, f2, f3], ha3, hb3⟩
        | none =>
          exact Or.inr ⟨a3, b3, node pos size occ c0' c1' c2' c3', none,
            by simp only [children_loop, e0, e1, e2, e3],
            by simp only [children_loop, f0, f1, f2, f3], ha3, hb3⟩

/-- On two arenas with zero-filled memory the helper returns the same tree and
the same node, or returns on neither. -/
theorem helper_zero_filled_same : ∀ (fuel : Nat) (a b : WDL_Arena) (t : QuadtreeAtlasNode)
    (s : WDL_Ivec2), zero_filled a → zero_filled b →
    (quadtree_atlas_insert_helper fuel a t s = none ∧
      quadtree_atlas_insert_helper fuel b t s = none) ∨
    ∃ a' b' t' r, quadtree_atlas_insert_helper fuel a t s = some (a', t', r) ∧
      quadtree_atlas_insert_helper fuel b t s = some (b', t', r) ∧
      zero_filled a' ∧ zero_filled b'
  | 0, _, _, _, _, _, _ => Or.inl ⟨rfl, rfl⟩
  | fuel + 1, a, b, t, s, ha, hb => by
    have ih := fun a b c (ha : zero_filled a) (hb : zero_filled b) =>
      helper_zero_filled_same fuel a b c s ha hb
    rw [helper_succ, helper_succ]
    split
    · exact Or.inr ⟨a, b, t, none, rfl, rfl, ha, hb⟩
    · cases t with
      | leaf pos n occ =>
        simp only
        split
        · exact Or.inr ⟨a, b, _, _, rfl, rfl, ha, hb⟩
        · split
          · refine Or.inr ⟨_, _, _, _, rfl, ?_, (zero_filled_push ha).1, (zero_filled_push hb).1⟩
            rw [(zero_filled_push ha).2, (zero_filled_push hb).2]
          · exact children_loop_zero_filled ih _ _ _ _ _ _ _ _ _
              (zero_filled_push ha).1 (zero_filled_push hb).1
      | node pos n occ c0 c1 c2 c3 =>
        simp only
        exact children_loop_zero_filled ih _ _ _ _ _ _ _ _ _ ha hb

/-- Over zero-filled memory the results of a sequence of calls depend on the
tree and on the requests only. -/
theorem run_inserts_zero_filled (fuel : Nat) : ∀ (reqs : List WDL_Ivec2)
    (atlas1 atlas2 : QuadtreeAtlas), atlas1.root = atlas2.root →
    zero_filled atlas1.arena → zero_filled atlas2.arena →
    run_inserts fuel atlas1 reqs = run_inserts fuel atlas2 reqs
  | [], _, _, _, _, _ => rfl
  | s :: rest, atlas1, atlas2, hroot, h1, h2 => by
    rcases helper_zero_filled_same fuel atlas1.arena atlas2.arena atlas1.root (aligned_size s)
      h1 h2 with ⟨e, f⟩ | ⟨a', b', t', r, e, f, ha, hb⟩
    · rw [hroot] at f
      simp only [run_inserts, quadtree_atlas_insert, e, f]
    · rw [hroot] at f
      have ih := run_inserts_zero_filled fuel rest
        { arena := a', root := t' } { arena := b', root := t' } rfl ha hb
      simp only [run_inserts, quadtree_atlas_insert, e, f, ih, placement_of]

/-- Two freshly initialised atlases over zero-filled memory answer every
sequence of requests with the same sequence of results. -/
theorem determinism_zero_filled (fuel : Nat) (a b : WDL_Arena) (ha : zero_filled a)
    (hb : zero_filled b) (reqs : List WDL_Ivec2) :
    run_inserts fuel (quadtree_atlas_init a) reqs = run_inserts fuel (quadtree_atlas_init b) reqs :=
  run_inserts_zero_filled fuel reqs _ _ rfl ha hb

/-- Claim C14 (determinism) fails on the code: the results depend on what the
memory of the arena held.  The sequence `(600, 600)`, `(600, 600)` on a fresh
atlas over zero-filled memory gives a placement at `(0, 0)` and then a failure;
on a fresh atlas whose arena holds a stale free 600 x 600 node it gives the
placement and then a second placement, read from the uninitialised child 3. -/
theorem results_depend_on_memory :
    run_inserts 2 (quadtree_atlas_init zero_arena) [⟨600, 600⟩, ⟨600, 600⟩]
      = some [some (⟨0, 0⟩, ⟨600, 600⟩), none] ∧
    run_inserts 2 (quadtree_atlas_init (stale_arena (leaf ⟨0, 0⟩ ⟨600, 600⟩ false)))
        [⟨600, 600⟩, ⟨600, 600⟩]
      = some [some (⟨0, 0⟩, ⟨600, 600⟩), some (⟨0, 0⟩, ⟨600, 600⟩)] :=
  ⟨rfl, rfl⟩

/-! ## Stale addresses in the arena memory -/

/-- Without fuel the helper on the memory gives no result. -/
theorem helper_mem_zero (m : Memory) (p : NodePtr) (s : WDL_Ivec2) :
    quadtree_atlas_insert_helper_mem 0 m p s = Except.error Stop.out_of_fuel := rfl

/-- The guard of line 25 on a cell: an occupied or too small node answers `NULL`
and leaves the memory as it is. -/
theorem helper_mem_guard (fuel : Nat) (m : Memory) (k : Nat) (s : WDL_Ivec2)
    (h : (m.cell k).occupied = true ∨ (m.cell k).size.x < s.x ∨ (m.cell k).size.y < s.y) :
    quadtree_atlas_insert_helper_mem (fuel + 1) m (NodePtr.cell k) s
      = Except.ok (m, NodePtr.null) := by
  simp only [quadtree_atlas_insert_helper_mem, Memory.load, bind, Except.bind, if_pos h]

/-- On a cell that passes the guard and reads as split the helper goes straight
to the loop over the children. -/
theorem helper_mem_split_cell (fuel : Nat) (m : Memory) (k : Nat) (s : WDL_Ivec2)
    (h : ¬ ((m.cell k).occupied = true ∨ (m.cell k).size.x < s.x ∨ (m.cell k).size.y < s.y))
    (hs : (m.cell k).split = true) :
    quadtree_atlas_insert_helper_mem (fuel + 1) m (NodePtr.cell k) s
      = children_loop_mem (fun m1 c => quadtree_atlas_insert_helper_mem fuel m1 c s)
          (NodePtr.cell k) 4 0 m := by
  simp only [quadtree_atlas_insert_helper_mem, Memory.load, bind, Except.bind, if_neg h, hs]
  rfl


/-- On a root that passes the guard and is split the helper goes straight to the
loop over the children. -/
theorem helper_mem_split_root (fuel : Nat) (m : Memory) (s : WDL_Ivec2)
    (h : ¬ (m.root.occupied = true ∨ m.root.size.x < s.x ∨ m.root.size.y < s.y))
    (hs : m.root.split = true) :
    quadtree_atlas_insert_helper_mem (fuel + 1) m NodePtr.root s
      = children_loop_mem (fun m1 c => quadtree_atlas_insert_helper_mem fuel m1 c s)
          NodePtr.root 4 0 m := by
  simp only [quadtree_atlas_insert_helper_mem, Memory.load, bind, Except.bind, if_neg h, hs]
  rfl

/-- A loop over a block whose children 0, 1 and 2 reject the request and whose
child 3 never returns does not return. -/
theorem children_loop_mem_stuck (fuel : Nat) (m : Memory) (p : NodePtr) (n : NodeCell)
    (b : Nat) (s : WDL_Ivec2) (hp : m.load p = Except.ok n) (hc : n.children = NodePtr.cell b)
    (h0 : (m.cell b).occupied = true ∨ (m.cell b).size.x < s.x ∨ (m.cell b).size.y < s.y)
    (h1 : (m.cell (b + 1)).occupied = true ∨ (m.cell (b + 1)).size.x < s.x ∨
      (m.cell (b + 1)).size.y < s.y)
    (h2 : (m.cell (b + 2)).occupied = true ∨ (m.cell (b + 2)).size.x < s.x ∨
      (m.cell (b + 2)).size.y < s.y)
    (h3 : quadtree_atlas_insert_helper_mem fuel m (NodePtr.cell (b + 3)) s
      = Except.error Stop.out_of_fuel) :
    children_loop_mem (fun m1 c => quadtree_atlas_insert_helper_mem fuel m1 c s) p 4 0 m
      = Except.error Stop.out_of_fuel := by
  cases fuel with
  | zero => simp only [children_loop_mem, hp, helper_mem_zero]
  | succ f =>
    simp only [children_loop_mem, hp, hc, NodePtr.index, Nat.add_zero, Nat.zero_add,
      helper_mem_guard f m b s h0, helper_mem_guard f m (b + 1) s h1,
      helper_mem_guard f m (b + 2) s h2, h3]

/-- When cell 3 reads as split with `children` the address of cell 0, passes the
guard, and the cells 0, 1 and 2 reject the request, the helper on cell 3 calls
itself on cell 3 without end. -/
theorem helper_mem_cycle (m : Memory) (s : WDL_Ivec2)
    (h0 : (m.cell 0).occupied = true ∨ (m.cell 0).size.x < s.x ∨ (m.cell 0).size.y < s.y)
    (h1 : (m.cell 1).occupied = true ∨ (m.cell 1).size.x < s.x ∨ (m.cell 1).size.y < s.y)
    (h2 : (m.cell 2).occupied = true ∨ (m.cell 2).size.x < s.x ∨ (m.cell 2).size.y < s.y)
    (h3 : ¬ ((m.cell 3).occupied = true ∨ (m.cell 3).size.x < s.x ∨ (m.cell 3).size.y < s.y))
    (hs : (m.cell 3).split = true) (hc : (m.cell 3).children = NodePtr.cell 0) :
    ∀ fuel, quadtree_atlas_insert_helper_mem fuel m (NodePtr.cell 3) s
      = Except.error Stop.out_of_fuel
  | 0 => rfl
  | fuel + 1 => by
    rw [helper_mem_split_cell fuel m 3 s h3 hs]
    exact children_loop_mem_stuck fuel m (NodePtr.cell 3) (m.cell 3) 0 s rfl hc
      (by simpa using h0) (by simpa using h1) (by simpa using h2)
      (by simpa using helper_mem_cycle m s h0 h1 h2 h3 hs hc fuel)

/-- Over stale memory the recursion need not end even for a positive request:
with a stale child 3 whose `children` address designates its own block, after
`(1000, 1000)` the request `(256, 256)` is rejected by the children 0, 1 and 2,
enters child 3, and from there visits the same four cells again and again; no
amount of fuel lets the call return. -/
theorem stale_cycle_never_returns : ∃ m1,
    quadtree_atlas_insert_mem 1 (quadtree_atlas_init_mem cyclic_cells) ⟨1000, 1000⟩
      = Except.ok (m1, NodePtr.cell 0) ∧
    ∀ fuel, quadtree_atlas_insert_mem fuel m1 ⟨256, 256⟩ = Except.error Stop.out_of_fuel := by
  refine ⟨_, rfl, fun fuel => ?_⟩
  cases fuel with
  | zero => rfl
  | succ f =>
    have e : aligned_size ⟨256, 256⟩ = ⟨256, 256⟩ := by decide
    unfold quadtree_atlas_insert_mem
    rw [e, helper_mem_split_root f _ _ (by decide) rfl]
    exact children_loop_mem_stuck f _ NodePtr.root _ 0 ⟨256, 256⟩ rfl rfl
      (by decide) (by decide) (by decide)
      (helper_mem_cycle _ ⟨256, 256⟩ (by decide) (by decide) (by decide) (by decide) rfl rfl f)

/-- Claim C3 (stable placements) fails on the code when the arena memory is not
zero-filled: the dynamic split never writes child 3, and a stale child 3 that
reads as split carries a stale `children` address.  A first atlas over
zero-filled memory serves `(512, 512)` three times and `(256, 256)`; its tree
fills the cells 0 to 7.  A second atlas is then initialised over the same
cells.  Its call `(1000, 1000)` splits the root into the cells 0 to 3 and
leaves cell 3 as the first atlas left it, split with children in the cells 4 to
7.  Its call `(256, 256)` fits none of the children 0, 1, 2 and is served
through child 3 by cell 5, a node of the tree at `(768, 512)`.  Its call
`(24, 24)` splits child 1; the arena hands out the cells 4 to 7 for the
children, and the placement in cell 5 is overwritten: the node is now free, at
`(1024, 0)`, of size `(0, 24)`. -/
theorem earlier_placement_overwritten : ∃ e1 e2 e3 e4 m1 m2 m3,
    quadtree_atlas_insert_mem 2 (quadtree_atlas_init_mem (fun _ => zero_cell)) ⟨512, 512⟩
      = Except.ok (e1, NodePtr.cell 0) ∧
    quadtree_atlas_insert_mem 2 e1 ⟨512, 512⟩ = Except.ok (e2, NodePtr.cell 1) ∧
    quadtree_atlas_insert_mem 2 e2 ⟨512, 512⟩ = Except.ok (e3, NodePtr.cell 2) ∧
    quadtree_atlas_insert_mem 3 e3 ⟨256, 256⟩ = Except.ok (e4, NodePtr.cell 4) ∧
    (∀ fuel, quadtree_atlas_insert_mem (fuel + 1) (quadtree_atlas_init_mem e4.cell) ⟨1000, 1000⟩
      = Except.ok (m1, NodePtr.cell 0)) ∧
    (∀ fuel, quadtree_atlas_insert_mem (fuel + 3) m1 ⟨256, 256⟩
      = Except.ok (m2, NodePtr.cell 5)) ∧
    m2.root.split = true ∧ m2.root.children.index 3 = NodePtr.cell 3 ∧
    (m2.cell 3).split = true ∧ (m2.cell 3).children.index 1 = NodePtr.cell 5 ∧
    m2.cell 5 = { pos := ⟨768, 512⟩, size := ⟨256, 256⟩, occupied := true, split := false,
                  children := NodePtr.null } ∧
    (∀ fuel, quadtree_atlas_insert_mem (fuel + 2) m2 ⟨24, 24⟩
      = Except.ok (m3, NodePtr.cell 4)) ∧
    m3.root.children.index 3 = NodePtr.cell 3 ∧
    (m3.cell 3).children.index 1 = NodePtr.cell 5 ∧
    m3.cell 5 = { pos := ⟨1024, 0⟩, size := ⟨0, 24⟩, occupied := false, split := false,
                  children := NodePtr.null } :=
  ⟨_, _, _, _, _, _, _, rfl, rfl, rfl, rfl, fun _ => rfl, fun _ => rfl, rfl, rfl, rfl, rfl, rfl,
    fun _ => rfl, rfl, rfl, rfl⟩

/-- Claim C4 (result of a successful insert) fails on the code when the arena
memory is not zero-filled, in its part "was not occupied before the call".
The dynamic split never writes child 3, and over memory that was used before
the stale child 3 of the root reads as split with children in the cells 4 to 7,
which the arena has not handed out yet.  After `(1000, 1000)` and `(256, 256)`
the node in cell 4 is an occupied node of the tree (child 0 of child 3 of the
root, the placement returned by the second call); the call with `(24, 24)`
splits child 1, the arena hands out the cells 4 to 7 for its children, and the
call returns that same node, now child 0 of child 1. -/
theorem returned_node_was_occupied : ∃ m1 m2 m3,
    quadtree_atlas_insert_mem 1 (quadtree_atlas_init_mem leftover_cells) ⟨1000, 1000⟩
      = Except.ok (m1, NodePtr.cell 0) ∧
    quadtree_atlas_insert_mem 3 m1 ⟨256, 256⟩ = Except.ok (m2, NodePtr.cell 4) ∧
    m2.used = 4 ∧
    (m2.cell 3).children.index 0 = NodePtr.cell 4 ∧
    m2.load (NodePtr.cell 4) =
      Except.ok { pos := ⟨512, 512⟩, size := ⟨256, 256⟩, occupied := true, split := false,
                  children := NodePtr.null } ∧
    (∀ fuel, quadtree_atlas_insert_mem (fuel + 2) m2 ⟨24, 24⟩
        = Except.ok (m3, NodePtr.cell 4)) ∧
    (m3.cell 1).split = true ∧ (m3.cell 1).children.index 0 = NodePtr.cell 4 ∧
    m3.load (NodePtr.cell 4) =
      Except.ok { pos := ⟨1000, 0⟩, size := ⟨24, 24⟩, occupied := true, split := false,
                  children := NodePtr.null } :=
  ⟨_, _, _, rfl, rfl, rfl, rfl, rfl, fun _ => rfl, rfl, rfl, rfl⟩

end FontAtlas
